import Mathlib

/-!
# AdaptiveRSDiag: adaptive random-sampling diagnostic estimator

A shallow embedding of `src/hbe/alg/AdaptiveRSDiag.cpp`.

Modelling conventions.

* A C++ `double` is an exact rational (`ℚ`); rounding is not modelled,
  except in `meanD` and `levelCountD`, which redo two computations on IEEE
  doubles (`roundDouble`).  The estimate of `evaluateQuery` is `none` when
  it is a quotient by zero, a NaN in the code (`quotient`).  The level
  construction, which needs `log` and `sqrt`, is stated over `ℝ`.
* An `int` product that can leave the range of `int` wraps modulo `2 ^ 32`
  (`wrapInt`).
* A `std::vector` is a `List`; a read `v[i]` is `v[i]?` and an out-of-range
  read makes the enclosing operation return `none`.
* `size_t` arithmetic that can wrap is written with an explicit `% 2 ^ 64`.
* Collaborators whose code is not part of the file under study (the kernel
  density, the collision probability, the median, the subset sampler) are
  parameters of the operations that call them.
* The random generator is a stream of raw outputs `Nat → Nat`; drawing
  consumes the head of the stream.
-/

namespace AdaptiveRSDiag

/-- The per-instance fields of the class `AdaptiveRSDiag` that the query-time
operations read or write.  `numPoints` (a row count) and `L` (a group
count) are `int`s of the class that are taken non-negative. -/
structure Estimator where
  numPoints : Nat
  L : Nat
  I : Int
  Mi : List Int
  ki : List Int
  wi : List ℚ
  isExp : Bool
  exp_k : Int
  exp_w : ℚ
  rng : Nat → Nat
  samples : List Int
  contrib : List ℚ
  thresh : ℚ
  set_start : List Nat
  u_global : ℚ
  sample_count : Nat
  u : List ℚ
  lambda : ℚ
  l : ℚ
  pmins : List ℚ
  pmaxs : List ℚ
  w_mins : List ℚ
  w_maxs : List ℚ
  w_pps : List (List ℚ)
  w_pp_idx : List (List Nat)
  w_ps : List (List ℚ)
  w_p_idx : List (List Nat)

/-! ## evaluateQuery -/

/-- The body shared by the two evaluation loops of `evaluateQuery`
(lines 99-104 and 117-123): for each index in turn, evaluate the kernel,
push the index and the value on the record, add the value to the
accumulator.  `dens i` stands for `kernel->density(q, X->row(i))`. -/
def evalPoints (dens : Nat → ℚ) (idxs : List Nat) (st : List Int × List ℚ × ℚ) :
    List Int × List ℚ × ℚ :=
  idxs.foldl (fun acc (i : Nat) => (acc.1 ++ [(i : Int)], acc.2.1 ++ [dens i], acc.2.2 + dens i)) st

/-- The draw loop `indices[j] = distribution(rng)` for `j = 0 .. k-1`, with
`distribution` uniform on `0 .. N-1`. -/
def drawIndices (N : Nat) : Nat → (Nat → Nat) → List Nat × (Nat → Nat)
  | 0, g => ([], g)
  | k + 1, g =>
    let r := drawIndices N k (fun n => g (n + 1))
    (g 0 % N :: r.1, r.2)

/-- One iteration of the outer loop of sampling mode (lines 112-123): draw
`cnt` indices, sort them, evaluate each; the group total is appended to `Z`. -/
def sampleGroup (dens : Nat → ℚ) (N cnt : Nat)
    (st : (Nat → Nat) × List Int × List ℚ × List ℚ) :
    (Nat → Nat) × List Int × List ℚ × List ℚ :=
  let d := drawIndices N cnt st.1
  let sorted := d.1.insertionSort (fun a b => a ≤ b)
  let r := evalPoints dens sorted (st.2.1, st.2.2.1, 0)
  (d.2, r.1, r.2.1, st.2.2.2 ++ [r.2.2])

/-- The outer loop `for (int i = 0; i < L; i ++)` of sampling mode. -/
def sampleLoop (dens : Nat → ℚ) (N cnt : Nat) :
    Nat → (Nat → Nat) × List Int × List ℚ × List ℚ →
      (Nat → Nat) × List Int × List ℚ × List ℚ
  | 0, st => st
  | groups + 1, st => sampleLoop dens N cnt groups (sampleGroup dens N cnt st)

/-- The indices at which sampling mode evaluates the kernel (line 118), in
the order of evaluation: for each of the `groups` groups in turn, the `cnt`
indices drawn for it, sorted. -/
def sampledPoints (N cnt : Nat) : Nat → (Nat → Nat) → List Nat
  | 0, _ => []
  | groups + 1, g =>
    let d := drawIndices N cnt g
    d.1.insertionSort (fun a b => a ≤ b) ++ sampledPoints N cnt groups d.2

/-- The value of an `int` expression whose mathematical value is `x`:
32-bit two's complement, so a value outside `-2^31 .. 2^31 - 1` wraps
around. -/
def wrapInt (x : Int) : Int := (x + 2147483648) % 4294967296 - 2147483648

/-- The double quotient `a / b` as far as it is a number: with `b = 0` the
code gets a NaN (or an infinity), for which there is no rational. -/
def quotient (a b : ℚ) : Option ℚ := if b = 0 then none else some (a / b)

/-- Embedding of `AdaptiveRSDiag::evaluateQuery` (lines 90-128).  The result
is `(results[0], results[1])` together with the updated estimator.
`L`, `Mi[level]` and `numPoints` are `int`s, so the product `L * Mi[level]`
of lines 94 and 109 is an `int` product (`wrapInt`).  Each group of sampling
mode has `results[1] = L * Mi[level]` indices, as in the source.  A negative
`results[1]` sizes the vector of line 112 negatively and the constructor
throws: `none`.  `results[0]` is `none` when its divisor `results[1]` is
zero: no point was evaluated then and the quotient is `0 / 0`. -/
def evaluateQuery (dens : Nat → ℚ) (median : List ℚ → ℚ) (level : Nat) (e : Estimator) :
    Option ((Option ℚ × ℚ) × Estimator) :=
  match e.Mi[level]? with
  | none => none
  | some m =>
    if wrapInt ((e.L : Int) * m) > (e.numPoints : Int) then
      let r := evalPoints dens (List.range e.numPoints) ([], [], 0)
      some ((quotient r.2.2 (e.numPoints : ℚ), (e.numPoints : ℚ)),
        { e with samples := r.1, contrib := r.2.1 })
    else if wrapInt ((e.L : Int) * m) < 0 then none
    else
      let cnt := (wrapInt ((e.L : Int) * m)).toNat
      let r := sampleLoop dens e.numPoints cnt e.L (e.rng, e.samples, e.contrib, [])
      some ((quotient (median r.2.2.2) (cnt : ℚ), (cnt : ℚ)),
        { e with rng := r.1, samples := r.2.1, contrib := r.2.2.1 })

/-- Embedding of `AdaptiveRSDiag::clearSamples` (lines 130-133). -/
def clearSamples (e : Estimator) : Estimator :=
  { e with contrib := [], samples := [] }

/-! ## findActualLevel -/

/-- The acceptance test `fabs(results[0] - truth) / truth < eps` (line 362)
on numbers.  With `truth = 0` the quotient is a NaN or an infinity and the
comparison is false. -/
def accepts (truth eps est : ℚ) : Prop := truth ≠ 0 ∧ |est - truth| / truth < eps

instance (truth eps est : ℚ) : Decidable (accepts truth eps est) := by
  unfold accepts; infer_instance

/-- The acceptance test of line 362 on the value `results[0]` that
`evaluateQuery` returned: a NaN fails every comparison. -/
def passes (truth eps : ℚ) : Option ℚ → Prop
  | some est => accepts truth eps est
  | none => False

instance (truth eps : ℚ) (est : Option ℚ) : Decidable (passes truth eps est) := by
  cases est <;> unfold passes <;> infer_instance

/-- The loop `while (i < I)` of `findActualLevel` (lines 360-366), with
`todo` the number of levels still to try, starting at level `i`.  When the
levels are exhausted the function returns `I - 1` (line 367). -/
def findLevelLoop (dens : Nat → ℚ) (median : List ℚ → ℚ) (truth eps : ℚ) :
    Nat → Nat → Estimator → Option (Int × Estimator)
  | 0, _, e => some (e.I - 1, e)
  | todo + 1, i, e =>
    match evaluateQuery dens median i e with
    | none => none
    | some (res, e') =>
      if passes truth eps res.1 then some ((i : Int), e')
      else findLevelLoop dens median truth eps todo (i + 1) e'

/-- Embedding of `AdaptiveRSDiag::findActualLevel` (lines 351-368).  The
shuffled vector `indices` is a local that is never read again, so it leaves
no trace in the result or in the estimator. -/
def findActualLevel (dens : Nat → ℚ) (median : List ℚ → ℚ) (truth eps : ℚ) (e : Estimator) :
    Option (Int × Estimator) :=
  findLevelLoop dens median truth eps e.I.toNat 0 e

/-- The estimator as it is just before `findActualLevel` calls
`evaluateQuery` at level `i`, that is after the calls at levels `0 .. i-1`. -/
def stateBefore (dens : Nat → ℚ) (median : List ℚ → ℚ) : Nat → Estimator → Option Estimator
  | 0, e => some e
  | i + 1, e =>
    (stateBefore dens median i e).bind
      (fun s => (evaluateQuery dens median i s).map Prod.snd)

/-- The estimate `results[0]` produced by the call at level `i` of the run
of `findActualLevel` that starts in `e`. -/
def estimateAt (dens : Nat → ℚ) (median : List ℚ → ℚ) (i : Nat) (e : Estimator) :
    Option (Option ℚ) :=
  (stateBefore dens median i e).bind
    (fun s => (evaluateQuery dens median i s).map (fun r => r.1.1))

/-! ## getConstants -/

/-- The `size_t` subtraction `a - b`, which wraps modulo `2 ^ 64`. -/
def subSize (a b : Nat) : Nat := (a + 2 ^ 64 - b) % 2 ^ 64

/-- Embedding of `sort_indexes` (lines 135-147): the indices `0 .. size-1`
ordered by the value they point to.  `std::sort` leaves the order of equal
values unspecified; the embedding keeps equal values in index order. -/
def sort_indexes (v : List ℚ) : List Nat :=
  (List.range v.length).insertionSort (fun i1 i2 => v.getD i1 0 ≤ v.getD i2 0)

/-- The loop of lines 154-161 over the sorted indices: keep the pairs whose
contribution is below 1 and stop at the first that is not. -/
def collectBelowOne (samples : List Int) (contrib : List ℚ) :
    List Nat → List Int × List ℚ → Option (List Int × List ℚ)
  | [], acc => some acc
  | i :: rest, acc =>
    match contrib[i]? with
    | none => none
    | some c =>
      if c < 1 then
        match samples[i]? with
        | none => none
        | some smp => collectBelowOne samples contrib rest (acc.1 ++ [smp], acc.2 ++ [c])
      else some acc

/-- The loop of lines 171-174: copy the picked positions of the temporary
vectors, in the order of `indices`. -/
def gatherPicked (tmp_samples : List Int) (tmp_weights : List ℚ) :
    List Nat → List Int × List ℚ → Option (List Int × List ℚ)
  | [], acc => some acc
  | i :: rest, acc =>
    match tmp_samples[i]? with
    | none => none
    | some smp =>
      match tmp_weights[i]? with
      | none => none
      | some c => gatherPicked tmp_samples tmp_weights rest (acc.1 ++ [smp], acc.2 ++ [c])

/-- Lines 149-178 of `getConstants`: sort, filter, subsample.  The result is
the generator and the new `samples` and `contrib`.  `pickSet n k rng` stands
for `mathUtils::pickSet`, listed in the iteration order of the returned
set, with the generator it leaves behind. -/
def retain (pickSet : Nat → Nat → (Nat → Nat) → List Nat × (Nat → Nat)) (e : Estimator) :
    Option ((Nat → Nat) × List Int × List ℚ) :=
  match collectBelowOne e.samples e.contrib (sort_indexes e.contrib) ([], []) with
  | none => none
  | some tmp =>
    if tmp.1.length > 50000 then
      let pk := pickSet tmp.1.length 50000 e.rng
      let indices := pk.1.insertionSort (fun a b => a ≤ b)
      (gatherPicked tmp.1 tmp.2 indices ([], [])).map (fun r => (pk.2, r.1, r.2))
    else some (e.rng, tmp.1, tmp.2)

/-- The loop `while (set_start.size() == 1)` of lines 194-203.  The result is
the offset pushed on `set_start` and the accumulated `u[3]`.  Every round
reads `contrib[i]`, so `fuel = contrib.size() + 1` rounds are never all used. -/
def s4Scan (contrib : List ℚ) (u_global : ℚ) : Nat → Nat → ℚ → Option (Nat × ℚ)
  | 0, _, _ => none
  | fuel + 1, i, u3 =>
    match contrib[i]? with
    | none => none
    | some c =>
      if c < u_global then s4Scan contrib u_global fuel (i + 1) (u3 + c)
      else
        match contrib[subSize i 1]? with
        | none => none
        | some p =>
          if p < u_global then some (i, u3)
          else s4Scan contrib u_global fuel (i + 1) u3

/-- Embedding of `AdaptiveRSDiag::getConstants` (lines 149-205).  `u_global`
is the exact mean of the retained contributions; `meanD` redoes its
computation on doubles. -/
def getConstants (pickSet : Nat → Nat → (Nat → Nat) → List Nat × (Nat → Nat)) (e : Estimator) :
    Option Estimator :=
  match retain pickSet e with
  | none => none
  | some (g, smp, ctr) =>
    let u_global := ctr.foldl (fun a c => a + c) 0 / (smp.length : ℚ)
    match s4Scan ctr u_global (ctr.length + 1) 0 0 with
    | none => none
    | some (m, u3) =>
      some { e with
        rng := g, samples := smp, contrib := ctr, thresh := 1 / 10000000000,
        set_start := [0, m], u_global := u_global, sample_count := smp.length,
        u := [0, 0, 0, u3 / (smp.length : ℚ)] }

/-! ## findRings -/

/-- The forward scan `while (s < min_u && i < contrib.size())` of lines
219-222, run over the part of `contrib` from position `i` on. -/
def fwdScan (sample_count : Nat) (min_u : ℚ) : List ℚ → Nat → ℚ → Nat × ℚ
  | [], i, s => (i, s)
  | c :: rest, i, s =>
    if s < min_u then fwdScan sample_count min_u rest (i + 1) (s + c / (sample_count : ℚ))
    else (i, s)

/-- The backward scan `while (s < min_u && i >= set_start[2])` of lines
229-232; `i` is a `size_t`, so `i --` wraps at zero.  Every round reads
`contrib[i]`, so `fuel = contrib.size() + 1` rounds are never all used. -/
def bwdScan (contrib : List ℚ) (sample_count : Nat) (min_u : ℚ) (lo : Nat) :
    Nat → Nat → ℚ → Option (Nat × ℚ)
  | 0, _, _ => none
  | fuel + 1, i, s =>
    if s < min_u ∧ i ≥ lo then
      match contrib[i]? with
      | none => none
      | some c => bwdScan contrib sample_count min_u lo fuel (subSize i 1)
          (s + c / (sample_count : ℚ))
    else some (i, s)

/-- Lines 209-237 of `findRings`: the new `lambda`, `l` and `set_start`. -/
def ringBounds (strategy : Int) (eps : ℚ) (e : Estimator) : Option (ℚ × ℚ × List Nat) :=
  if strategy = 0 ∨ e.sample_count < 3 then
    match e.set_start[1]? with
    | none => none
    | some s1 => some (e.u_global, e.u_global, e.set_start ++ [s1] ++ [s1] ++ [e.contrib.length])
  else if strategy = 1 then
    match e.u[3]?, e.set_start[1]? with
    | some u3, some s1 =>
      let min_u := (eps * e.u_global - u3) / 2
      let f := fwdScan e.sample_count min_u (e.contrib.drop s1) s1 0
      match e.contrib[subSize f.1 1]? with
      | none => none
      | some lam =>
        let ss := e.set_start ++ [f.1]
        match ss[2]? with
        | none => none
        | some s2 =>
          match bwdScan e.contrib e.sample_count min_u s2 (e.contrib.length + 1)
              (subSize e.contrib.length 1) 0 with
          | none => none
          | some b =>
            let i := min (subSize e.contrib.length 2) b.1
            match e.contrib[i + 1]? with
            | none => none
            | some lv => some (lam, lv, ss ++ [i + 1] ++ [e.contrib.length])
    | _, _ => none
  else some (e.lambda, e.l, e.set_start ++ [e.contrib.length])

/-- The per-ring values gathered by the loop of lines 258-275. -/
structure RingAcc where
  u : ℚ
  w_max : ℚ
  w_min : ℚ
  pmin : ℚ
  pmax : ℚ
  wpp : List ℚ
  wp : List ℚ

/-- One round of the loop of lines 258-275 at position `j`.  `prob idx`
stands for `mathUtils::collisionProb(c, exp_k)` with `c` the distance of
point `idx` to the query over `exp_w`. -/
def ringStep (prob : Int → ℚ) (samples : List Int) (contrib : List ℚ) (thresh : ℚ)
    (acc : RingAcc) (j : Nat) : Option RingAcc :=
  match contrib[j]? with
  | none => none
  | some c =>
    if c < thresh then some { acc with u := acc.u + c }
    else
      match samples[j]? with
      | none => none
      | some idx =>
        let p := prob idx
        some { u := acc.u + c, w_max := max c acc.w_max, w_min := min c acc.w_min,
               pmin := min acc.pmin p, pmax := max acc.pmax p,
               wpp := acc.wpp ++ [c / p / p], wp := acc.wp ++ [c / p] }

/-- The loop `for (size_t j = set_start[3-i]; j < set_start[4-i]; j ++)`. -/
def ringScan (prob : Int → ℚ) (samples : List Int) (contrib : List ℚ) (thresh : ℚ)
    (lo hi : Nat) : Option RingAcc :=
  (List.range' lo (hi - lo)).foldlM (ringStep prob samples contrib thresh)
    { u := 0, w_max := 0, w_min := 1, pmin := 1, pmax := 0, wpp := [], wp := [] }

/-- The statistics of ring `i` (one round of the loop of lines 254-298):
the accumulated values with `u[i]` normalised, then the two sorted arrays,
each with its index permutation, as `(w_p_idx, w_ps, w_pp_idx, w_pps)`. -/
def ringStats (prob : Int → ℚ) (samples : List Int) (contrib : List ℚ) (thresh : ℚ)
    (sample_count : Nat) (set_start : List Nat) (i : Nat) :
    Option (RingAcc × List Nat × List ℚ × List Nat × List ℚ) :=
  match set_start[3 - i]?, set_start[4 - i]? with
  | some lo, some hi =>
    match ringScan prob samples contrib thresh lo hi with
    | none => none
    | some acc =>
      let min_idx := sort_indexes acc.wp
      let max_idx := sort_indexes acc.wpp
      some ({ acc with u := acc.u / (sample_count : ℚ) },
        min_idx, min_idx.map (fun k => acc.wp.getD k 0),
        max_idx.reverse, (max_idx.map (fun k => acc.wpp.getD k 0)).reverse)
  | _, _ => none

/-- Embedding of `AdaptiveRSDiag::findRings` (lines 208-299).  `prob w k idx`
is the collision probability of point `idx` for bandwidth `w` and dimension
`k`; `u` must already have its four entries. -/
def findRings (prob : ℚ → Int → Int → ℚ) (strategy : Int) (eps : ℚ) (level : Nat)
    (e : Estimator) : Option Estimator :=
  match ringBounds strategy eps e with
  | none => none
  | some (lam, lv, ss) =>
    let hp : Option (ℚ × Int) :=
      if e.isExp then some (e.exp_w, e.exp_k)
      else
        match e.wi[level]?, e.ki[level]? with
        | some w, some k => some (w, k)
        | _, _ => none
    match hp with
    | none => none
    | some (w, k) =>
      if e.u.length < 4 then none
      else
        let stats := ringStats (prob w k) e.samples e.contrib e.thresh e.sample_count ss
        match stats 0, stats 1, stats 2, stats 3 with
        | some r0, some r1, some r2, some r3 =>
          some { e with
            lambda := lam, l := lv, set_start := ss, exp_w := w, exp_k := k,
            u := (((e.u.set 0 r0.1.u).set 1 r1.1.u).set 2 r2.1.u).set 3 r3.1.u,
            pmins := [r0.1.pmin, r1.1.pmin, r2.1.pmin, r3.1.pmin],
            pmaxs := [r0.1.pmax, r1.1.pmax, r2.1.pmax, r3.1.pmax],
            w_mins := [r0.1.w_min, r1.1.w_min, r2.1.w_min, r3.1.w_min],
            w_maxs := [r0.1.w_max, r1.1.w_max, r2.1.w_max, r3.1.w_max],
            w_p_idx := [r0.2.1, r1.2.1, r2.2.1, r3.2.1],
            w_ps := [r0.2.2.1, r1.2.2.1, r2.2.2.1, r3.2.2.1],
            w_pp_idx := [r0.2.2.2.1, r1.2.2.2.1, r2.2.2.2.1, r3.2.2.2.1],
            w_pps := [r0.2.2.2.2, r1.2.2.2.2, r2.2.2.2.2, r3.2.2.2.2] }
        | _, _, _, _ => none

/-- The kernel parameters that `findRings` works with (lines 239-243): the
stored `exp_w`, `exp_k` for the exponential kernel, `wi[level]`, `ki[level]`
otherwise.  This is the value `hp` inside `findRings`. -/
def ringParams (level : Nat) (e : Estimator) : Option (ℚ × Int) :=
  if e.isExp then some (e.exp_w, e.exp_k)
  else
    match e.wi[level]?, e.ki[level]? with
    | some w, some k => some (w, k)
    | _, _ => none

/-! ## The variance bounds -/

/-- The test `set_start[3-i] == set_start[4-i]` that skips a ring. -/
def ringSkipped (e : Estimator) (i : Nat) : Option Bool :=
  match e.set_start[3 - i]?, e.set_start[4 - i]? with
  | some a, some b => some (a == b)
  | _, _ => none

/-- The factor `(set_start[1] - set_start[0]) * 1.0 / sample_count`. -/
def t2Factor (e : Estimator) : Option ℚ :=
  match e.set_start[0]?, e.set_start[1]? with
  | some (s0 : Nat), some (s1 : Nat) => some (((s1 : ℚ) - (s0 : ℚ)) / (e.sample_count : ℚ))
  | _, _ => none

/-- The inner loop of `vbRS` (lines 307-310) for ring `i`, at `j`. -/
def vbRSInner (e : Estimator) (i : Nat) (up : ℚ) (j : Nat) : Option ℚ :=
  match ringSkipped e j with
  | none => none
  | some true => some up
  | some false =>
    match e.w_maxs[i]?, e.w_mins[j]?, e.u[i]?, e.u[j]? with
    | some wmax, some wmin, some ui, some uj => some (up + wmax / wmin * ui * uj)
    | _, _, _, _ => none

/-- The outer loop of `vbRS` (lines 305-312), at `i`. -/
def vbRSOuter (e : Estimator) (t2_factor : ℚ) (up : ℚ) (i : Nat) : Option ℚ :=
  match ringSkipped e i with
  | none => none
  | some true => some up
  | some false =>
    match [0, 1, 2].foldlM (vbRSInner e i) up with
    | none => none
    | some up1 =>
      match e.w_maxs[i]?, e.u[i]? with
      | some wmax, some ui => some (up1 + t2_factor * wmax * ui)
      | _, _ => none

/-- Embedding of `AdaptiveRSDiag::vbRS` (lines 302-314). -/
def vbRS (e : Estimator) : Option ℚ :=
  match e.w_maxs[3]?, e.u[3]?, t2Factor e with
  | some wmax3, some u3, some t2 => [0, 1, 2].foldlM (vbRSOuter e t2) (wmax3 * u3)
  | _, _, _ => none

/-- The scan `while (w_p_idx[i][l] > w_pp_idx[i][k]) l ++` of lines 332-334,
run over the part of `w_p_idx[i]` from position `l` on; running off the end
is an out-of-range read. -/
def diagInner (target : Nat) : List Nat → Nat → Option Nat
  | [], _ => none
  | v :: rest, l => if v > target then diagInner target rest (l + 1) else some l

/-- The loop `for (size_t k = 0; k < 10; k ++)` of lines 330-337, with `todo`
rounds left. -/
def diagOuter (p_idx pp_idx : List Nat) (ps pps : List ℚ) : Nat → Nat → ℚ → Option ℚ
  | 0, _, sup1 => some sup1
  | todo + 1, k, sup1 =>
    match pp_idx[k]? with
    | none => none
    | some target =>
      match diagInner target p_idx 0 with
      | none => none
      | some l =>
        match pps[k]?, ps[l]?, p_idx[l]? with
        | some a, some b, some v =>
          if (k = 0 ∧ l = 0) ∨ v = 0 then some (max sup1 (a / b))
          else diagOuter p_idx pp_idx ps pps todo (k + 1) (max sup1 (a / b))
        | _, _, _ => none

/-- The loop of lines 330-337 once more, this time returning the pairs
`(k, l)` at which the four arrays are read, one pair per round. -/
def diagTrace (p_idx pp_idx : List Nat) (ps pps : List ℚ) :
    Nat → Nat → Option (List (Nat × Nat))
  | 0, _ => some []
  | todo + 1, k =>
    match pp_idx[k]? with
    | none => none
    | some target =>
      match diagInner target p_idx 0 with
      | none => none
      | some l =>
        match pps[k]?, ps[l]?, p_idx[l]? with
        | some _, some _, some v =>
          if (k = 0 ∧ l = 0) ∨ v = 0 then some [(k, l)]
          else (diagTrace p_idx pp_idx ps pps todo (k + 1)).map (fun t => (k, l) :: t)
        | _, _, _ => none

/-- The value `sup1` of lines 328-342 for the pair of rings `i`, `j`. -/
def sup1Of (e : Estimator) (i j : Nat) : Option ℚ :=
  if i = j then
    match e.pmins[i]?, e.w_p_idx[i]?, e.w_pp_idx[i]?, e.w_ps[i]?, e.w_pps[i]? with
    | some pmin, some p_idx, some pp_idx, some ps, some pps =>
      diagOuter p_idx pp_idx ps pps 10 0 (1 / pmin)
    | _, _, _, _, _ => none
  else if i < j then
    match e.w_pps[i]?, e.w_ps[j]? with
    | some pps, some ps =>
      match pps[0]?, ps[0]? with
      | some a, some b => some (a / b)
      | _, _ => none
    | _, _ => none
  else
    match e.w_ps[i]?, e.w_mins[j]? with
    | some ps, some wmin =>
      match ps[subSize ps.length 1]? with
      | some a => some (a / wmin)
      | none => none
    | _, _ => none

/-- The inner loop of `vbHBE` (lines 326-344) for ring `i`, at `j`. -/
def vbHBEInner (e : Estimator) (i : Nat) (up : ℚ) (j : Nat) : Option ℚ :=
  match ringSkipped e j with
  | none => none
  | some true => some up
  | some false =>
    match sup1Of e i j, e.u[i]?, e.u[j]? with
    | some sup1, some ui, some uj => some (up + sup1 * ui * uj)
    | _, _, _ => none

/-- The outer loop of `vbHBE` (lines 324-346), at `i`. -/
def vbHBEOuter (e : Estimator) (t2_factor : ℚ) (up : ℚ) (i : Nat) : Option ℚ :=
  match ringSkipped e i with
  | none => none
  | some true => some up
  | some false =>
    match [0, 1, 2].foldlM (vbHBEInner e i) up with
    | none => none
    | some up1 =>
      match e.w_pps[i]?, e.pmaxs[3]?, e.u[i]? with
      | some pps, some pmax3, some ui =>
        match pps[0]? with
        | some a => some (up1 + t2_factor * a * pmax3 * ui)
        | none => none
      | _, _, _ => none

/-- Embedding of `AdaptiveRSDiag::vbHBE` (lines 317-348). -/
def vbHBE (e : Estimator) : Option ℚ :=
  match e.w_ps[3]? with
  | none => none
  | some ps3 =>
    match ps3[subSize ps3.length 1]?, e.u[3]?, t2Factor e with
    | some sup3, some u3, some t2 => [0, 1, 2].foldlM (vbHBEOuter e t2) (sup3 * u3)
    | _, _, _ => none

/-! ## buildLevels -/

/-- Modelled from the spec: the constant `LOG2`, declared in a header that
is not part of the sources at hand; the spec gives the level count as
`ceil(log(1/tau)/log(2))`. -/
noncomputable def LOG2 : ℝ := Real.log 2

/-- Modelled from the spec: the constant `SQRT_2PI`, declared in a header
that is not part of the sources at hand; the spec gives the hashing
bandwidth as `k_i / t_i * sqrt(2*pi)`. -/
noncomputable def SQRT_2PI : ℝ := Real.sqrt (2 * Real.pi)

/-- The level fields written by `buildLevels`. -/
structure Levels where
  r : ℝ
  I : Int
  mui : List ℝ
  Mi : List Int
  ti : List ℝ
  ki : List Int
  wi : List ℝ

/-- One round of the loop of lines 20-34 of `buildLevels`, at level `i`.
`randomRelVar` stands for `mathUtils::randomRelVar`. -/
noncomputable def levelStep (gamma : ℝ) (randomRelVar : ℝ → ℝ) (eps : ℝ) (lv : Levels)
    (i : Nat) : Levels :=
  let mu := if i = 0 then 1 - gamma else (1 - gamma) * lv.mui.getD (i - 1) 0
  let t := Real.sqrt (Real.log (1 / mu))
  let k : Int := 3 * ⌈lv.r * t⌉
  { lv with
    mui := lv.mui.set i mu,
    Mi := lv.Mi.set i ⌈randomRelVar mu / eps / eps⌉,
    ti := lv.ti.set i t,
    ki := lv.ki.set i k,
    wi := lv.wi.set i ((k : ℝ) / t * SQRT_2PI) }

/-- Embedding of `AdaptiveRSDiag::buildLevels` (lines 8-35) over exact
reals.  `gamma` is the decay field of the class.  A negative `I` cannot size
a vector: `none`.  The rounding of `log` and of the quotient of line 13 is
not part of this embedding (`levelCountD` redoes line 13 on doubles), nor is
the range of `int` in the casts of lines 13, 26 and 30. -/
noncomputable def buildLevels (gamma : ℝ) (randomRelVar : ℝ → ℝ) (tau eps : ℝ) :
    Option Levels :=
  let tmp := Real.log (1 / tau)
  let I : Int := ⌈tmp / LOG2⌉
  if I < 0 then none
  else
    some ((List.range I.toNat).foldl (levelStep gamma randomRelVar eps)
      { r := Real.sqrt tmp, I := I,
        mui := List.replicate I.toNat 0, Mi := List.replicate I.toNat 0,
        ti := List.replicate I.toNat 0, ki := List.replicate I.toNat 0,
        wi := List.replicate I.toNat 0 })

/-! ## The constructors -/

/-- The collaborators of the constructors, none of which is part of the file
under study: the test `kernel->getName() == EXP_STR`, the three helpers of
`dataUtils`, the subset sampler, the decay field `gamma` and the relative
variance used by `buildLevels`. -/
structure Collab (Row Kern : Type) where
  isExp : Kern → Bool
  estimateDiameter : List Row → ℝ → ℝ
  getPower : ℝ → ℝ → Int
  getWidth : Int → ℝ → ℝ
  pickSet : Nat → Nat → Nat → List Nat
  gamma : ℝ
  randomRelVar : ℝ → ℝ

/-- The scalar members that a constructor may leave unassigned, with the
values they hold when its body starts. -/
structure Scalars where
  exp_k : Int
  exp_w : ℝ
  lb : ℝ

/-- The members of the class once a constructor has run, for a dataset of
rows of type `Row`.  `samples` and `contrib` are vectors that no constructor
touches: they are empty. -/
structure Built (Row Kern : Type) where
  rng : Nat
  X : List Row
  kernel : Kern
  numPoints : Int
  exp_k : Int
  exp_w : ℝ
  lb : ℝ
  levels : Levels
  samples : List Int
  contrib : List ℚ

/-- Lines 44-48 and 80-84: the hashing parameters of the exponential kernel,
left as they were for any other kernel. -/
noncomputable def expParams {Row Kern : Type} (c : Collab Row Kern) (raw : Scalars)
    (data : List Row) (k : Kern) (tau : ℝ) : Int × ℝ :=
  if c.isExp k then
    let diam := c.estimateDiameter data tau
    let p := c.getPower diam (1 / 2)
    (p, c.getWidth p (1 / 2))
  else (raw.exp_k, raw.exp_w)

/-- Embedding of the four-argument constructor (lines 37-52).  `seed` is the
value drawn from `std::random_device`. -/
noncomputable def construct4 {Row Kern : Type} (c : Collab Row Kern) (seed : Nat)
    (raw : Scalars) (data : List Row) (k : Kern) (tau eps : ℝ) : Option (Built Row Kern) :=
  match buildLevels c.gamma c.randomRelVar tau eps with
  | none => none
  | some lv =>
    some { rng := seed, X := data, kernel := k, numPoints := (data.length : Int),
           exp_k := (expParams c raw data k tau).1, exp_w := (expParams c raw data k tau).2,
           lb := tau, levels := lv, samples := [], contrib := [] }

/-- The loop of lines 72-76: the rows of `data` at the picked indices. -/
def gatherRows {Row : Type} (data : List Row) : List Nat → Option (List Row)
  | [] => some []
  | idx :: rest =>
    match data[idx]?, gatherRows data rest with
    | some row, some rows => some (row :: rows)
    | _, _ => none

/-- Embedding of the five-argument constructor (lines 55-87).  `seed` and
`seed2` are the two values drawn from `std::random_device`.  A sampler that
does not return exactly `samples` indices would leave rows of `X` unset or
write past its end: `none`. -/
noncomputable def construct5 {Row Kern : Type} (c : Collab Row Kern) (seed seed2 : Nat)
    (raw : Scalars) (data : List Row) (k : Kern) (samples : Int) (tau eps : ℝ) :
    Option (Built Row Kern) :=
  if samples ≥ (data.length : Int) then
    match buildLevels c.gamma c.randomRelVar tau eps with
    | none => none
    | some lv =>
      some { rng := seed, X := data, kernel := k, numPoints := (data.length : Int),
             exp_k := raw.exp_k, exp_w := raw.exp_w, lb := raw.lb, levels := lv,
             samples := [], contrib := [] }
  else if samples < 0 then none
  else
    let indices := c.pickSet data.length samples.toNat seed2
    if indices.length ≠ samples.toNat then none
    else
      match gatherRows data indices with
      | none => none
      | some X =>
        match buildLevels c.gamma c.randomRelVar tau eps with
        | none => none
        | some lv =>
          some { rng := seed, X := X, kernel := k, numPoints := samples,
                 exp_k := (expParams c raw data k tau).1,
                 exp_w := (expParams c raw data k tau).2,
                 lb := tau, levels := lv, samples := [], contrib := [] }

/-! ## Two computations on IEEE doubles

The embedding above computes on exact numbers.  Two computations of the
source are repeated here on doubles (binary64, round to nearest, ties to
even, values in the normal range): the mean `u_global` of `getConstants` and
the level count `I` of `buildLevels`. -/

/-- The power `2 ^ c` for an integer exponent. -/
def twoPow (c : Int) : ℚ :=
  if 0 ≤ c then ((2 ^ c.toNat : Nat) : ℚ) else 1 / ((2 ^ (-c).toNat : Nat) : ℚ)

/-- The integer nearest to `y`, a tie going to the even one. -/
def roundHalfEven (y : ℚ) : Int :=
  let f := y.floor
  let r := y - (f : ℚ)
  if r < 1 / 2 then f else if 1 / 2 < r then f + 1 else if f % 2 = 0 then f else f + 1

/-- The number of halvings that bring `n` below 2, that is `⌊log₂ n⌋` for
`n ≥ 1`; `fuel` bounds the recursion and `fuel = n` is enough. -/
def bitLog : Nat → Nat → Nat
  | 0, _ => 0
  | fuel + 1, n => if n < 2 then 0 else bitLog fuel (n / 2) + 1

/-- The binary exponent `⌊log₂ |x|⌋` of a rational `x ≠ 0`. -/
def binaryExponent (x : ℚ) : Int :=
  let c : Int := (bitLog x.num.natAbs x.num.natAbs : Int) - (bitLog x.den x.den : Int)
  if twoPow c ≤ |x| then c else c - 1

/-- The double nearest to `x`: 53 significant bits, a tie going to the even
significand.  Overflow and subnormal numbers are not modelled. -/
def roundDouble (x : ℚ) : ℚ :=
  if x = 0 then 0
  else
    let q := twoPow (binaryExponent x - 52)
    (roundHalfEven (x / q) : ℚ) * q

/-- Lines 182 and 188-191 of `getConstants` on doubles: `u_global` starts
at 0, takes the contributions one rounded addition at a time, and is then
divided by `sample_count` (the common size of `samples` and `contrib`), the
quotient being rounded once more. -/
def meanD (contrib : List ℚ) : ℚ :=
  roundDouble (contrib.foldl (fun a c => roundDouble (a + c)) 0 / (contrib.length : ℚ))

/-- Line 13 of `buildLevels` on doubles: `I = (int) ceil(tmp / LOG2)`, the
quotient being rounded to a double before `ceil`.  `tmp` is the double that
the library call `log(1 / tau)` of line 9 returned and `log2` the double
constant `LOG2`. -/
def levelCountD (tmp log2 : ℚ) : Int := ⌈roundDouble (tmp / log2)⌉

/-- Modelled from the spec: the constant `LOG2` as a double, the double
nearest to `log 2`, `0x1.62e42fefa39efp-1`. -/
def LOG2_double : ℚ := 6243314768165359 / 9007199254740992

/-- The double that `log(536870912.0)` returns (`536870912 = 2^29`):
`0x1.419ecb712c481p+4`, the double nearest to `29 log 2`. -/
def log_of_two_pow_29 : ℚ := 5658004008649857 / 281474976710656

/-! ## Predicates used to state ring statistics at collision probability 1 -/

/-- The state of the loop of lines 258-275 before position `s`, on a span
that starts at `lo0`, when every collision probability is `1`: the two
weighted arrays agree, hold sorted values in `[thresh, 1)` that are below
every contribution still to come, and the extremal values are the ends of
the array. -/
def UnitScanInv (contrib : List ℚ) (thresh : ℚ) (lo0 s : Nat) (acc : RingAcc) : Prop :=
  acc.wpp = acc.wp ∧
  acc.wp.Sorted (fun a b => a ≤ b) ∧
  (∀ x ∈ acc.wp, thresh ≤ x ∧ x < 1) ∧
  (∀ x ∈ acc.wp, ∀ j, s ≤ j → j < contrib.length → x ≤ contrib.getD j 0) ∧
  acc.pmin = 1 ∧
  ((acc.wp = [] ∧ acc.w_max = 0 ∧ acc.w_min = 1 ∧ acc.pmax = 0) ∨
   (acc.wp.getLast? = some acc.w_max ∧ acc.wp.head? = some acc.w_min ∧ acc.pmax = 1)) ∧
  (∀ j, lo0 ≤ j → j < s → thresh ≤ contrib.getD j 0 → acc.wp ≠ []) ∧
  acc.wp.length + lo0 ≤ s

/-- The statistics of one ring when every collision probability is `1`:
the sorted arrays are the kept values in ascending and in descending order,
the index arrays are the identity and its reverse. -/
def UnitRing (thresh : ℚ) (r : RingAcc × List Nat × List ℚ × List Nat × List ℚ) : Prop :=
  r.2.1 = List.range r.1.wp.length ∧
  r.2.2.1 = r.1.wp ∧
  r.2.2.2.1 = (List.range r.1.wp.length).reverse ∧
  r.2.2.2.2 = r.1.wp.reverse ∧
  r.1.wp.Sorted (fun a b => a ≤ b) ∧
  (∀ x ∈ r.1.wp, thresh ≤ x ∧ x < 1) ∧
  r.1.pmin = 1 ∧
  ((r.1.wp = [] ∧ r.1.w_max = 0 ∧ r.1.w_min = 1 ∧ r.1.pmax = 0) ∨
   (r.1.wp.getLast? = some r.1.w_max ∧ r.1.wp.head? = some r.1.w_min ∧ r.1.pmax = 1))

/-- The statistics `r` are what the estimator holds for ring `i`. -/
def RingOf (e : Estimator) (i : Nat)
    (r : RingAcc × List Nat × List ℚ × List Nat × List ℚ) : Prop :=
  e.w_p_idx[i]? = some r.2.1 ∧ e.w_ps[i]? = some r.2.2.1 ∧
  e.w_pp_idx[i]? = some r.2.2.2.1 ∧ e.w_pps[i]? = some r.2.2.2.2 ∧
  e.pmins[i]? = some r.1.pmin ∧ e.pmaxs[i]? = some r.1.pmax ∧
  e.w_mins[i]? = some r.1.w_min ∧ e.w_maxs[i]? = some r.1.w_max

/-- The mean of a list of contributions. -/
def meanOf (ctr : List ℚ) : ℚ := ctr.sum / (ctr.length : ℚ)

/-- The contributions strictly below the mean, in their order. -/
def belowMean (ctr : List ℚ) : List ℚ := ctr.filter (fun c => decide (c < meanOf ctr))

/-! ## Concrete estimators used to evaluate the operations -/

/-- An estimator over `N` points with group count `L` and repetition counts
`Mi`, holding the record `(samples, contrib)`; every other field is blank
and the generator always yields `0`. -/
def blankEstimator (N L : Nat) (Mi : List Int) (smp : List Int) (ctr : List ℚ) : Estimator :=
  { numPoints := N, L := L, I := (Mi.length : Int), Mi := Mi, ki := Mi.map (fun _ => 1),
    wi := Mi.map (fun _ => 1), isExp := false, exp_k := 0, exp_w := 0,
    rng := fun _ => 0, samples := smp, contrib := ctr, thresh := 0, set_start := [],
    u_global := 0, sample_count := 0, u := [], lambda := 0, l := 0,
    pmins := [], pmaxs := [], w_mins := [], w_maxs := [],
    w_pps := [], w_pp_idx := [], w_ps := [], w_p_idx := [] }

/-- A subset sampler that is never asked for anything (records of at most
50,000 entries). -/
def idlePick : Nat → Nat → (Nat → Nat) → List Nat × (Nat → Nat) := fun _ _ g => ([], g)

/-- The median of a list taken as its middle element after sorting. -/
def midMedian (Z : List ℚ) : ℚ := (Z.insertionSort (fun a b => a ≤ b)).getD (Z.length / 2) 0

/-- The collision probability of a dataset whose points all coincide with
the query: always `1`. -/
def unitProb : ℚ → Int → Int → ℚ := fun _ _ _ => 1

/-- Run `getConstants` and then `findRings` on the record `(smp, ctr)`, with
no subsampling and collision probability `1` throughout. -/
def analyse (smp : List Int) (ctr : List ℚ) (strategy : Int) (eps : ℚ) : Option Estimator :=
  (getConstants idlePick (blankEstimator smp.length 1 [1] smp ctr)).bind
    (findRings unitProb strategy eps 0)

/-- A subset sampler that picks the first `k` positions. -/
def firstPick : Nat → Nat → (Nat → Nat) → List Nat × (Nat → Nat) :=
  fun _ k g => (List.range k, g)

/-- A record of `n` contributions, all equal to `1/2`. -/
def constRecord (n : Nat) : Estimator :=
  blankEstimator n 1 [1] (List.replicate n 0) (List.replicate n (1 / 2))

/-- A record of 50,001 contributions, all equal to `1/2`. -/
def bigRecord : Estimator := constRecord 50001

/-- Collaborators for a dataset of numbered rows: the kernel is its own
exponential flag, the diameter is `1`, the power `2`, the width `3`, and the
sampler picks the first positions. -/
noncomputable def plainCollab : Collab Nat Bool :=
  { isExp := fun k => k, estimateDiameter := fun _ _ => 1, getPower := fun _ _ => 2,
    getWidth := fun _ _ => 3, pickSet := fun _ k _ => List.range k, gamma := 1 / 2,
    randomRelVar := fun mu => 1 / mu }

/-- Scalar members that all hold zero when the constructor body starts. -/
noncomputable def zeroScalars : Scalars := { exp_k := 0, exp_w := 0, lb := 0 }

/-! ## Basic facts about evaluateQuery -/

theorem evalPoints_eq (dens : Nat → ℚ) (idxs : List Nat) (s : List Int) (c : List ℚ) (a : ℚ) :
    evalPoints dens idxs (s, c, a)
      = (s ++ idxs.map Int.ofNat, c ++ idxs.map dens, a + (idxs.map dens).sum) := by
  induction idxs generalizing s c a with
  | nil => simp [evalPoints]
  | cons x xs ih =>
    have h := ih (s ++ [(x : Int)]) (c ++ [dens x]) (a + dens x)
    simp only [evalPoints, List.foldl_cons] at h ⊢
    rw [h]
    simp [add_assoc]

theorem drawIndices_length (N : Nat) (k : Nat) (g : Nat → Nat) :
    (drawIndices N k g).1.length = k := by
  induction k generalizing g with
  | zero => simp [drawIndices]
  | succ k ih => simp [drawIndices, ih]

theorem sampleGroup_samples (dens : Nat → ℚ) (N cnt : Nat)
    (st : (Nat → Nat) × List Int × List ℚ × List ℚ) :
    ∃ xs : List Nat, xs.length = cnt ∧
      (sampleGroup dens N cnt st).2.1 = st.2.1 ++ xs.map Int.ofNat ∧
      (sampleGroup dens N cnt st).2.2.1 = st.2.2.1 ++ xs.map dens := by
  refine ⟨(drawIndices N cnt st.1).1.insertionSort (fun a b => a ≤ b), ?_, ?_, ?_⟩
  · rw [List.length_insertionSort, drawIndices_length]
  · simp [sampleGroup, evalPoints_eq]
  · simp [sampleGroup, evalPoints_eq]

theorem sampleLoop_samples (dens : Nat → ℚ) (N cnt groups : Nat)
    (st : (Nat → Nat) × List Int × List ℚ × List ℚ) :
    ∃ xs : List Nat, xs.length = groups * cnt ∧
      (sampleLoop dens N cnt groups st).2.1 = st.2.1 ++ xs.map Int.ofNat ∧
      (sampleLoop dens N cnt groups st).2.2.1 = st.2.2.1 ++ xs.map dens := by
  induction groups generalizing st with
  | zero => exact ⟨[], by simp, by simp [sampleLoop], by simp [sampleLoop]⟩
  | succ g ih =>
    obtain ⟨xs, hx, h1, h2⟩ := sampleGroup_samples dens N cnt st
    obtain ⟨ys, hy, h3, h4⟩ := ih (sampleGroup dens N cnt st)
    refine ⟨xs ++ ys, ?_, ?_, ?_⟩
    · simp [hx, hy]; ring
    · simp only [sampleLoop]; rw [h3, h1]; simp
    · simp only [sampleLoop]; rw [h4, h2]; simp

/-- The pairs that the sampling loop appends are those of `sampledPoints`:
one pair per kernel evaluation, in the order of evaluation. -/
theorem sampleLoop_points (dens : Nat → ℚ) (N cnt : Nat) :
    ∀ (groups : Nat) (st : (Nat → Nat) × List Int × List ℚ × List ℚ),
      (sampleLoop dens N cnt groups st).2.1
          = st.2.1 ++ (sampledPoints N cnt groups st.1).map Int.ofNat ∧
      (sampleLoop dens N cnt groups st).2.2.1
          = st.2.2.1 ++ (sampledPoints N cnt groups st.1).map dens := by
  intro groups
  induction groups with
  | zero => intro st; simp [sampleLoop, sampledPoints]
  | succ g ih =>
    intro st
    obtain ⟨h1, h2⟩ := ih (sampleGroup dens N cnt st)
    have hg : (sampleGroup dens N cnt st).1 = (drawIndices N cnt st.1).2 := rfl
    have hs : (sampleGroup dens N cnt st).2.1
        = st.2.1 ++ ((drawIndices N cnt st.1).1.insertionSort (fun a b => a ≤ b)).map
            Int.ofNat := by
      simp [sampleGroup, evalPoints_eq]
    have hc : (sampleGroup dens N cnt st).2.2.1
        = st.2.2.1 ++ ((drawIndices N cnt st.1).1.insertionSort (fun a b => a ≤ b)).map
            dens := by
      simp [sampleGroup, evalPoints_eq]
    constructor
    · simp only [sampleLoop, sampledPoints]
      rw [h1, hs, hg]
      simp
    · simp only [sampleLoop, sampledPoints]
      rw [h2, hc, hg]
      simp

theorem sampledPoints_length (N cnt : Nat) :
    ∀ (groups : Nat) (g : Nat → Nat), (sampledPoints N cnt groups g).length = groups * cnt := by
  intro groups
  induction groups with
  | zero => intro g; simp [sampledPoints]
  | succ k ih =>
    intro g
    simp only [sampledPoints, List.length_append, List.length_insertionSort,
      drawIndices_length, ih]
    ring

/-- An `int` value is its own `int`. -/
theorem wrapInt_of_range (x : Int) (h1 : -2147483648 ≤ x) (h2 : x < 2147483648) :
    wrapInt x = x := by
  unfold wrapInt
  rw [Int.emod_eq_of_lt (by omega) (by omega)]
  omega

theorem evaluateQuery_exact (dens : Nat → ℚ) (median : List ℚ → ℚ) (level : Nat)
    (e : Estimator) (m : Int) (hm : e.Mi[level]? = some m)
    (hbig : wrapInt ((e.L : Int) * m) > (e.numPoints : Int)) :
    evaluateQuery dens median level e
      = some ((quotient ((List.range e.numPoints).map dens).sum (e.numPoints : ℚ),
            (e.numPoints : ℚ)),
          { e with
            samples := (List.range e.numPoints).map Int.ofNat,
            contrib := (List.range e.numPoints).map dens }) := by
  simp [evaluateQuery, hm, hbig, evalPoints_eq]

theorem evaluateQuery_sampling (dens : Nat → ℚ) (median : List ℚ → ℚ) (level : Nat)
    (e : Estimator) (m : Int) (hm : e.Mi[level]? = some m)
    (hsmall : wrapInt ((e.L : Int) * m) ≤ (e.numPoints : Int))
    (hnn : 0 ≤ wrapInt ((e.L : Int) * m)) :
    ∃ (r : Option ℚ × ℚ) (e' : Estimator),
      evaluateQuery dens median level e = some (r, e') ∧
      r.1 = quotient
        (median (sampleLoop dens e.numPoints (wrapInt ((e.L : Int) * m)).toNat e.L
            (e.rng, e.samples, e.contrib, [])).2.2.2)
        (((wrapInt ((e.L : Int) * m)).toNat : Nat) : ℚ) ∧
      r.2 = ((wrapInt ((e.L : Int) * m) : Int) : ℚ) ∧
      e'.samples = e.samples
        ++ (sampledPoints e.numPoints (wrapInt ((e.L : Int) * m)).toNat e.L e.rng).map
            Int.ofNat ∧
      e'.contrib = e.contrib
        ++ (sampledPoints e.numPoints (wrapInt ((e.L : Int) * m)).toNat e.L e.rng).map dens ∧
      e'.Mi = e.Mi ∧ e'.L = e.L ∧ e'.numPoints = e.numPoints ∧ e'.I = e.I := by
  obtain ⟨h1, h2⟩ := sampleLoop_points dens e.numPoints (wrapInt ((e.L : Int) * m)).toNat e.L
    (e.rng, e.samples, e.contrib, [])
  have hev : evaluateQuery dens median level e
      = some ((quotient
            (median (sampleLoop dens e.numPoints (wrapInt ((e.L : Int) * m)).toNat e.L
              (e.rng, e.samples, e.contrib, [])).2.2.2)
            (((wrapInt ((e.L : Int) * m)).toNat : Nat) : ℚ),
          (((wrapInt ((e.L : Int) * m)).toNat : Nat) : ℚ)),
        { e with
          rng := (sampleLoop dens e.numPoints (wrapInt ((e.L : Int) * m)).toNat e.L
            (e.rng, e.samples, e.contrib, [])).1,
          samples := (sampleLoop dens e.numPoints (wrapInt ((e.L : Int) * m)).toNat e.L
            (e.rng, e.samples, e.contrib, [])).2.1,
          contrib := (sampleLoop dens e.numPoints (wrapInt ((e.L : Int) * m)).toNat e.L
            (e.rng, e.samples, e.contrib, [])).2.2.1 }) := by
    simp only [evaluateQuery, hm]
    rw [if_neg (not_lt.mpr hsmall), if_neg (not_lt.mpr hnn)]
  have h : (((wrapInt ((e.L : Int) * m)).toNat : Int)) = wrapInt ((e.L : Int) * m) :=
    Int.toNat_of_nonneg hnn
  have h' : ((((wrapInt ((e.L : Int) * m)).toNat : Nat) : ℚ))
      = ((wrapInt ((e.L : Int) * m) : Int) : ℚ) := by
    rw [← h, Int.cast_natCast, h]
  exact ⟨_, _, hev, rfl, h', h1, h2, rfl, rfl, rfl, rfl⟩

/-- A negative `int` product `L * Mi[level]` makes the call throw. -/
theorem evaluateQuery_negative (dens : Nat → ℚ) (median : List ℚ → ℚ) (level : Nat)
    (e : Estimator) (m : Int) (hm : e.Mi[level]? = some m)
    (hneg : wrapInt ((e.L : Int) * m) < 0) :
    evaluateQuery dens median level e = none := by
  have h1 : ¬ wrapInt ((e.L : Int) * m) > (e.numPoints : Int) := by
    have : (0 : Int) ≤ (e.numPoints : Int) := Int.ofNat_nonneg _
    omega
  simp only [evaluateQuery, hm]
  rw [if_neg h1, if_pos hneg]

/-- Whatever the mode, a call of `evaluateQuery` at a level that exists and
whose `int` product `L * Mi[level]` is not negative returns, and leaves the
level data alone. -/
theorem evaluateQuery_returns (dens : Nat → ℚ) (median : List ℚ → ℚ) (level : Nat)
    (e : Estimator) (hlevel : level < e.Mi.length)
    (hnn : ∀ m ∈ e.Mi, (0 : Int) ≤ wrapInt ((e.L : Int) * m)) :
    ∃ (r : Option ℚ × ℚ) (e' : Estimator), evaluateQuery dens median level e = some (r, e') ∧
      e'.Mi = e.Mi ∧ e'.L = e.L ∧ e'.numPoints = e.numPoints ∧ e'.I = e.I := by
  have hm : e.Mi[level]? = some (e.Mi[level]) := List.getElem?_eq_getElem hlevel
  have hm0 : (0 : Int) ≤ wrapInt ((e.L : Int) * e.Mi[level]) := hnn _ (List.getElem_mem hlevel)
  by_cases hbig : wrapInt ((e.L : Int) * e.Mi[level]) > (e.numPoints : Int)
  · exact ⟨_, _, evaluateQuery_exact dens median level e _ hm hbig, rfl, rfl, rfl, rfl⟩
  · obtain ⟨r, e', h, -, -, -, -, h1, h2, h3, h4⟩ :=
      evaluateQuery_sampling dens median level e _ hm (not_lt.mp hbig) hm0
    exact ⟨r, e', h, h1, h2, h3, h4⟩

/-! ## C2: the exact-mode test -/

/-- Exact mode as far as it is reached: when the `int` product
`L * Mi[level]` exceeds `N ≥ 1`, `evaluateQuery` returns the pair (sum of
the `N` densities over `N`, `N`); the returned pair is the same whatever the
generator state and the prior content of the record are, and a second call
right after the first returns the same pair. -/
theorem evaluateQuery_exact_mode_deterministic (dens : Nat → ℚ) (median : List ℚ → ℚ)
    (level : Nat) (e : Estimator) (m : Int) (hm : e.Mi[level]? = some m)
    (hbig : wrapInt ((e.L : Int) * m) > (e.numPoints : Int)) (hN : 1 ≤ e.numPoints) :
    (∃ e', evaluateQuery dens median level e
        = some ((some (((List.range e.numPoints).map dens).sum / (e.numPoints : ℚ)),
            (e.numPoints : ℚ)), e')) ∧
    (∀ (g : Nat → Nat) (smp : List Int) (ctr : List ℚ),
      (evaluateQuery dens median level { e with rng := g, samples := smp, contrib := ctr }).map
          Prod.fst
        = (evaluateQuery dens median level e).map Prod.fst) ∧
    (∀ r e', evaluateQuery dens median level e = some (r, e') →
      ∃ e'', evaluateQuery dens median level e' = some (r, e'')) := by
  have hNq : (e.numPoints : ℚ) ≠ 0 := by
    have : (0 : ℚ) < (e.numPoints : ℚ) := by exact_mod_cast hN
    exact ne_of_gt this
  have hq : quotient ((List.range e.numPoints).map dens).sum (e.numPoints : ℚ)
      = some (((List.range e.numPoints).map dens).sum / (e.numPoints : ℚ)) := by
    unfold quotient
    rw [if_neg hNq]
  have hev := evaluateQuery_exact dens median level e m hm hbig
  rw [hq] at hev
  refine ⟨⟨_, hev⟩, ?_, ?_⟩
  · intro g smp ctr
    rw [evaluateQuery_exact dens median level e m hm hbig,
      evaluateQuery_exact dens median level { e with rng := g, samples := smp, contrib := ctr }
        m hm hbig]
    rfl
  · intro r e' h
    rw [evaluateQuery_exact dens median level e m hm hbig] at h
    simp only [Option.some.injEq, Prod.mk.injEq] at h
    obtain ⟨hr, he⟩ := h
    subst he
    subst hr
    exact ⟨_, evaluateQuery_exact dens median level _ m hm hbig⟩

/-- An instance of exact mode: three points with densities `1/2`, `1/4`,
`1/4`, one group, `Mi[0] = 5`. -/
theorem evaluateQuery_exact_mode_deterministic_witness :
    (∃ e', evaluateQuery (fun i => if i = 0 then 1 / 2 else 1 / 4) midMedian 0
        (blankEstimator 3 1 [5] [7] [1 / 3])
        = some ((some (((List.range 3).map (fun i => if i = 0 then (1 / 2 : ℚ) else 1 / 4)).sum
            / ((3 : Nat) : ℚ)), ((3 : Nat) : ℚ)), e')) :=
  (evaluateQuery_exact_mode_deterministic (fun i => if i = 0 then 1 / 2 else 1 / 4) midMedian 0
    (blankEstimator 3 1 [5] [7] [1 / 3]) 5 rfl (by decide) (by decide)).1

/-- With a single group (`L = 1`) the product of line 94 is `Mi[level]`
itself and cannot overflow: whenever `Mi[level] > N ≥ 1` the call returns
the pair (sum of the `N` densities over `N`, `N`). -/
theorem evaluateQuery_exact_mode_one_group (dens : Nat → ℚ) (median : List ℚ → ℚ)
    (level : Nat) (e : Estimator) (m : Int) (hm : e.Mi[level]? = some m)
    (hL : e.L = 1) (hlo : -2147483648 ≤ m) (hhi : m < 2147483648)
    (hbig : m > (e.numPoints : Int)) (hN : 1 ≤ e.numPoints) :
    ∃ e', evaluateQuery dens median level e
        = some ((some (((List.range e.numPoints).map dens).sum / (e.numPoints : ℚ)),
            (e.numPoints : ℚ)), e') := by
  have hw : wrapInt ((e.L : Int) * m) = m := by
    rw [hL]
    simp only [Nat.cast_one, one_mul]
    exact wrapInt_of_range m hlo hhi
  exact (evaluateQuery_exact_mode_deterministic dens median level e m hm
    (by rw [hw]; exact hbig) hN).1

/-- C2: with `L = 3` groups and `Mi[0] = 10^9` on `N = 3` points the
condition `L * Mi[0] > N` of the claim holds, yet the `int` product of
line 94 is `3 * 10^9 - 2^32 = -1294967296`; the test of line 94 fails, the
call takes the sampling path, sizes the vector of line 112 by that negative
number and does not return: no pair `(mean, N)` comes back. -/
theorem evaluateQuery_exact_test_overflows :
    (3 : Int) * 1000000000 > 3 ∧
    wrapInt (((blankEstimator 3 3 [1000000000] [] []).L : Int) * 1000000000) = -1294967296 ∧
    (evaluateQuery (fun i => if i = 0 then 1 / 2 else 1 / 4) midMedian 0
      (blankEstimator 3 3 [1000000000] [] [])).isSome = false := by
  decide!

/-! ## C3: the evaluation count of sampling mode -/

/-- C3: with `L = 2` groups and `Mi[0] = 1` on two points the call returns
the evaluation count `2 = L * Mi[0]`, but each of the two groups holds
`results[1] = 2` indices, so the call evaluates the kernel four times and
adds four records. -/
theorem evaluateQuery_sampling_count_mismatch :
    (evaluateQuery (fun _ => 1 / 2) midMedian 0 (blankEstimator 2 2 [1] [] [])).map
        (fun r => (r.1.2, r.2.contrib.length, r.2.samples.length))
      = some (2, 4, 4) := by
  decide!

/-- In sampling mode (`int` product `0 ≤ L * Mi[level] ≤ N`) the call
returns the evaluation count `L * Mi[level]`, and it appends to the record
one entry per kernel evaluation, `L` groups of `L * Mi[level]` each, that
is `L` times the returned count, whatever the generator yields. -/
theorem evaluateQuery_sampling_count (dens : Nat → ℚ) (median : List ℚ → ℚ) (level : Nat)
    (e : Estimator) (m : Int) (hm : e.Mi[level]? = some m)
    (hsmall : wrapInt ((e.L : Int) * m) ≤ (e.numPoints : Int))
    (hnn : 0 ≤ wrapInt ((e.L : Int) * m)) :
    ∃ (r : Option ℚ × ℚ) (e' : Estimator) (xs : List Nat),
      evaluateQuery dens median level e = some (r, e') ∧
      r.2 = ((wrapInt ((e.L : Int) * m) : Int) : ℚ) ∧
      xs.length = e.L * (wrapInt ((e.L : Int) * m)).toNat ∧
      e'.samples = e.samples ++ xs.map Int.ofNat ∧
      e'.contrib = e.contrib ++ xs.map dens := by
  obtain ⟨r, e', h, -, hr, h1, h2, -⟩ :=
    evaluateQuery_sampling dens median level e m hm hsmall hnn
  exact ⟨r, e', sampledPoints e.numPoints (wrapInt ((e.L : Int) * m)).toNat e.L e.rng,
    h, hr, sampledPoints_length _ _ _ _, h1, h2⟩

/-- An instance of sampling mode at `L = 2`, `Mi[0] = 1`, two points. -/
theorem evaluateQuery_sampling_count_witness :
    ∃ (r : Option ℚ × ℚ) (e' : Estimator) (xs : List Nat),
      evaluateQuery (fun _ => 1 / 2) midMedian 0 (blankEstimator 2 2 [1] [] []) = some (r, e') ∧
      r.2 = ((wrapInt (((2 : Nat) : Int) * 1) : Int) : ℚ) ∧
      xs.length = 2 * (wrapInt (((2 : Nat) : Int) * 1)).toNat ∧
      e'.samples = [] ++ xs.map Int.ofNat ∧
      e'.contrib = [] ++ xs.map (fun _ => (1 / 2 : ℚ)) :=
  evaluateQuery_sampling_count (fun _ => 1 / 2) midMedian 0 (blankEstimator 2 2 [1] [] []) 1 rfl
    (by decide) (by decide)

/-- With a single group (`L = 1`) the returned count and the number of
records added agree: for `0 ≤ Mi[level] ≤ N` the call returns the count
`Mi[level]` and appends `Mi[level]` records. -/
theorem evaluateQuery_sampling_count_one_group (dens : Nat → ℚ) (median : List ℚ → ℚ)
    (level : Nat) (e : Estimator) (m : Int) (hm : e.Mi[level]? = some m)
    (hL : e.L = 1) (hnn : 0 ≤ m) (hhi : m < 2147483648)
    (hsmall : m ≤ (e.numPoints : Int)) :
    ∃ (r : Option ℚ × ℚ) (e' : Estimator) (xs : List Nat),
      evaluateQuery dens median level e = some (r, e') ∧
      r.2 = ((m : Int) : ℚ) ∧ ((xs.length : Int) : ℚ) = r.2 ∧
      e'.samples = e.samples ++ xs.map Int.ofNat ∧
      e'.contrib = e.contrib ++ xs.map dens := by
  have hw : wrapInt ((e.L : Int) * m) = m := by
    rw [hL]
    simp only [Nat.cast_one, one_mul]
    exact wrapInt_of_range m (by omega) hhi
  obtain ⟨r, e', h, -, hr, h1, h2, -⟩ :=
    evaluateQuery_sampling dens median level e m hm (by rw [hw]; exact hsmall)
      (by rw [hw]; exact hnn)
  rw [hw] at hr h1 h2
  refine ⟨r, e', sampledPoints e.numPoints m.toNat e.L e.rng, h, hr, ?_, h1, h2⟩
  rw [sampledPoints_length, hL, one_mul, hr, Int.toNat_of_nonneg hnn]

/-! ## C4: the level search of findActualLevel -/

theorem findLevelLoop_spec (dens : Nat → ℚ) (median : List ℚ → ℚ) (truth eps : ℚ)
    (e0 : Estimator) (n : Nat) (hlen : e0.Mi.length = n)
    (hnn : ∀ m ∈ e0.Mi, (0 : Int) ≤ wrapInt ((e0.L : Int) * m)) :
    ∀ (todo i : Nat) (s : Estimator), i + todo = n →
      stateBefore dens median i e0 = some s → s.Mi = e0.Mi → s.L = e0.L → s.I = e0.I →
      ∃ (r : Int) (e' : Estimator),
        findLevelLoop dens median truth eps todo i s = some (r, e') ∧
        ((∃ k : Nat, r = (k : Int) ∧ i ≤ k ∧ k < n ∧
            (∃ x, estimateAt dens median k e0 = some x ∧ passes truth eps x) ∧
            ∀ j, i ≤ j → j < k →
              ∃ x, estimateAt dens median j e0 = some x ∧ ¬ passes truth eps x) ∨
         (r = e0.I - 1 ∧
            ∀ j, i ≤ j → j < n →
              ∃ x, estimateAt dens median j e0 = some x ∧ ¬ passes truth eps x)) := by
  intro todo
  induction todo with
  | zero =>
    intro i s hin _ _ _ hI
    refine ⟨s.I - 1, s, rfl, Or.inr ⟨by rw [hI], ?_⟩⟩
    intro j h1 h2
    omega
  | succ todo ih =>
    intro i s hin hs hMi hL hI
    have hlevel : i < s.Mi.length := by rw [hMi, hlen]; omega
    obtain ⟨res, s', hev, hMi', hL', -, hI'⟩ :=
      evaluateQuery_returns dens median i s hlevel (by rw [hMi, hL]; exact hnn)
    have hest : estimateAt dens median i e0 = some res.1 := by
      simp [estimateAt, hs, hev]
    have hnext : stateBefore dens median (i + 1) e0 = some s' := by
      simp [stateBefore, hs, hev]
    by_cases hacc : passes truth eps res.1
    · refine ⟨(i : Int), s', ?_, Or.inl ⟨i, rfl, le_refl _, by omega, ⟨_, hest, hacc⟩, ?_⟩⟩
      · simp [findLevelLoop, hev, hacc]
      · intro j h1 h2
        omega
    · obtain ⟨r, e', hrun, hcase⟩ :=
        ih (i + 1) s' (by omega) hnext (hMi'.trans hMi) (hL'.trans hL) (hI'.trans hI)
      refine ⟨r, e', ?_, ?_⟩
      · simp [findLevelLoop, hev, hacc, hrun]
      · rcases hcase with ⟨k, hk, hik, hkn, hkacc, hbelow⟩ | ⟨hr, hall⟩
        · refine Or.inl ⟨k, hk, by omega, hkn, hkacc, ?_⟩
          intro j h1 h2
          rcases Nat.eq_or_lt_of_le h1 with h | h
          · subst h
            exact ⟨_, hest, hacc⟩
          · exact hbelow j h h2
        · refine Or.inr ⟨hr, ?_⟩
          intro j h1 h2
          rcases Nat.eq_or_lt_of_le h1 with h | h
          · subst h
            exact ⟨_, hest, hacc⟩
          · exact hall j h h2

/-- The level search as far as every call returns: with `I ≥ 1` levels,
`I` repetition counts, and no level whose `int` product `L * Mi[i]` is
negative, `findActualLevel` returns; it calls `evaluateQuery` at levels
`0, 1, 2, ...` in order (the estimate of level `j` is `estimateAt j`,
computed on the state the earlier calls left); the result `r` lies in
`0 .. I-1`; every level below `r` gave an estimate that fails the test; and
either level `r` gave an estimate that passes, or `r = I - 1` and no level
in `0 .. I-1` passes. -/
theorem findActualLevel_least_accepted (dens : Nat → ℚ) (median : List ℚ → ℚ)
    (truth eps : ℚ) (e : Estimator) (hI : 1 ≤ e.I)
    (hlen : (e.Mi.length : Int) = e.I)
    (hnn : ∀ m ∈ e.Mi, (0 : Int) ≤ wrapInt ((e.L : Int) * m)) :
    ∃ (r : Int) (e' : Estimator),
      findActualLevel dens median truth eps e = some (r, e') ∧
      0 ≤ r ∧ r ≤ e.I - 1 ∧
      (∀ j : Nat, (j : Int) < r →
        ∃ x, estimateAt dens median j e = some x ∧ ¬ passes truth eps x) ∧
      ((∃ x, estimateAt dens median r.toNat e = some x ∧ passes truth eps x) ∨
       (r = e.I - 1 ∧ ∀ j : Nat, (j : Int) < e.I →
          ∃ x, estimateAt dens median j e = some x ∧ ¬ passes truth eps x)) := by
  have hn : e.Mi.length = e.I.toNat := by omega
  obtain ⟨r, e', hrun, hcase⟩ :=
    findLevelLoop_spec dens median truth eps e e.I.toNat hn hnn e.I.toNat 0 e (by omega)
      rfl rfl rfl rfl
  refine ⟨r, e', hrun, ?_⟩
  rcases hcase with ⟨k, hk, -, hkn, hkacc, hbelow⟩ | ⟨hr, hall⟩
  · subst hk
    refine ⟨by omega, by omega, ?_, Or.inl (by simpa using hkacc)⟩
    intro j hj
    exact hbelow j (Nat.zero_le _) (by omega)
  · subst hr
    refine ⟨by omega, le_refl _, ?_, Or.inr ⟨rfl, ?_⟩⟩
    · intro j hj
      exact hall j (Nat.zero_le _) (by omega)
    · intro j hj
      exact hall j (Nat.zero_le _) (by omega)

/-- An instance of the level search: two levels over three points with
densities `1/2`; level `0` samples one point. -/
theorem findActualLevel_least_accepted_witness :
    ∃ (r : Int) (e' : Estimator),
      findActualLevel (fun _ => 1 / 2) midMedian (1 / 2) (1 / 10)
          (blankEstimator 3 1 [1, 5] [] []) = some (r, e') ∧
      0 ≤ r ∧ r ≤ (blankEstimator 3 1 [1, 5] [] []).I - 1 ∧
      (∀ j : Nat, (j : Int) < r →
        ∃ x, estimateAt (fun _ => 1 / 2) midMedian j (blankEstimator 3 1 [1, 5] [] []) = some x ∧
          ¬ passes (1 / 2) (1 / 10) x) ∧
      ((∃ x, estimateAt (fun _ => 1 / 2) midMedian r.toNat (blankEstimator 3 1 [1, 5] [] [])
            = some x ∧ passes (1 / 2) (1 / 10) x) ∨
       (r = (blankEstimator 3 1 [1, 5] [] []).I - 1 ∧ ∀ j : Nat,
          (j : Int) < (blankEstimator 3 1 [1, 5] [] []).I →
          ∃ x, estimateAt (fun _ => 1 / 2) midMedian j (blankEstimator 3 1 [1, 5] [] []) = some x ∧
            ¬ passes (1 / 2) (1 / 10) x)) :=
  findActualLevel_least_accepted (fun _ => 1 / 2) midMedian (1 / 2) (1 / 10)
    (blankEstimator 3 1 [1, 5] [] []) (by decide) (by decide) (by decide)

/-- C4: two states on which `findActualLevel` does not return a level.
With `L = 3` and `Mi = [10^9]` on three points the `int` product of line 94
is `-1294967296`; with `L = 1` and `Mi = [-2147483648, 5]` (the value the
cast of line 26 yields for a count beyond the range of `int`) it is
`-2147483648`.  Either way the call at level 0 takes the sampling path,
sizes the vector of line 112 negatively and throws, so no level in
`0 .. I-1` is returned. -/
theorem findActualLevel_stops_on_negative_budget :
    (blankEstimator 3 3 [1000000000] [] []).I = 1 ∧
    (findActualLevel (fun _ => 1 / 2) midMedian (1 / 2) (1 / 10)
      (blankEstimator 3 3 [1000000000] [] [])).isSome = false ∧
    (blankEstimator 3 1 [-2147483648, 5] [] []).I = 2 ∧
    (findActualLevel (fun _ => 1 / 2) midMedian (1 / 2) (1 / 10)
      (blankEstimator 3 1 [-2147483648, 5] [] [])).isSome = false := by
  decide!

/-! ## C1: the ring offsets -/

/-- C1, at the record with contributions `0.1, 0.1, 0.1, 0.9`, strategy `1`
and `eps = 0.5`: `getConstants` completes with `set_start = [0, 3]`, and
after `findRings` the offsets are `[0, 3, 4, 3, 4]`, so `set_start[2] = 4`
exceeds `set_start[3] = 3`: the offsets are not non-decreasing, and position
`3` lies both in ring 0, `[3, 4)`, and in ring 2, `[3, 4)`. -/
theorem findRings_offsets_not_monotone :
    (getConstants idlePick
        (blankEstimator 4 1 [1] [0, 1, 2, 3] [1 / 10, 1 / 10, 1 / 10, 9 / 10])).map
      (fun e => e.set_start) = some [0, 3] ∧
    (analyse [0, 1, 2, 3] [1 / 10, 1 / 10, 1 / 10, 9 / 10] 1 (1 / 2)).map
      (fun e => e.set_start) = some [0, 3, 4, 3, 4] := by
  constructor <;> decide!

/-! ## The retained record of getConstants -/

theorem sort_indexes_perm (v : List ℚ) : (sort_indexes v).Perm (List.range v.length) :=
  List.perm_insertionSort _ _

theorem sort_indexes_sorted (v : List ℚ) :
    (sort_indexes v).Sorted (fun i1 i2 => v.getD i1 0 ≤ v.getD i2 0) := by
  haveI : IsTotal Nat (fun i1 i2 => v.getD i1 0 ≤ v.getD i2 0) := ⟨fun a b => le_total _ _⟩
  haveI : IsTrans Nat (fun i1 i2 => v.getD i1 0 ≤ v.getD i2 0) :=
    ⟨fun a b c h1 h2 => le_trans h1 h2⟩
  exact List.sorted_insertionSort _ _

theorem sort_indexes_lt (v : List ℚ) : ∀ i ∈ sort_indexes v, i < v.length := by
  intro i hi
  have := (sort_indexes_perm v).mem_iff.mp hi
  simpa using this

theorem takeWhile_eq_filter_of_sorted {α : Type} (r : α → α → Prop) (p : α → Bool)
    (hp : ∀ a b, r a b → p b = true → p a = true) :
    ∀ l : List α, l.Sorted r → l.takeWhile p = l.filter p := by
  intro l
  induction l with
  | nil => intro _; rfl
  | cons a t ih =>
    intro hs
    have hs' := List.sorted_cons.mp hs
    by_cases ha : p a = true
    · simp [List.takeWhile, List.filter, ha, ih hs'.2]
    · have hnone : t.filter p = [] := by
        rw [List.filter_eq_nil_iff]
        intro b hb hpb
        exact ha (hp a b (hs'.1 b hb) hpb)
      simp [List.takeWhile, List.filter, ha, hnone]

theorem collectBelowOne_eq (samples : List Int) (contrib : List ℚ) :
    ∀ (idxs : List Nat) (acc : List Int × List ℚ),
      (∀ i ∈ idxs, i < contrib.length ∧ i < samples.length) →
      collectBelowOne samples contrib idxs acc
        = some (acc.1 ++ (idxs.takeWhile (fun i => decide (contrib.getD i 0 < 1))).map
                  (fun i => samples.getD i 0),
                acc.2 ++ (idxs.takeWhile (fun i => decide (contrib.getD i 0 < 1))).map
                  (fun i => contrib.getD i 0)) := by
  intro idxs
  induction idxs with
  | nil => intro acc _; simp [collectBelowOne]
  | cons i rest ih =>
    intro acc h
    have hi := h i (List.mem_cons_self _ _)
    have hc : contrib[i]? = some (contrib.getD i 0) := by
      rw [List.getD_eq_getElem _ _ hi.1]; exact List.getElem?_eq_getElem hi.1
    have hsm : samples[i]? = some (samples.getD i 0) := by
      rw [List.getD_eq_getElem _ _ hi.2]; exact List.getElem?_eq_getElem hi.2
    by_cases hlt : contrib.getD i 0 < 1
    · have htw : (i :: rest).takeWhile (fun i => decide (contrib.getD i 0 < 1))
          = i :: rest.takeWhile (fun i => decide (contrib.getD i 0 < 1)) :=
        List.takeWhile_cons_of_pos (by simpa using hlt)
      simp only [collectBelowOne, hc, hsm, hlt, if_true]
      rw [ih _ (fun j hj => h j (List.mem_cons_of_mem _ hj)), htw]
      simp only [List.map_cons, List.append_assoc, List.singleton_append]
    · have htw : (i :: rest).takeWhile (fun i => decide (contrib.getD i 0 < 1)) = [] :=
        List.takeWhile_cons_of_neg (by simpa using hlt)
      simp only [collectBelowOne, hc, hlt, if_false]
      rw [htw]
      simp only [List.map_nil, List.append_nil]


theorem map_getD_range {α : Type} (v : List α) (d : α) :
    (List.range v.length).map (fun i => v.getD i d) = v := by
  apply List.ext_getElem
  · simp
  · intro i h1 h2
    simp [List.getElem?_eq_getElem h2]

theorem map_pair_range (samples : List Int) (contrib : List ℚ)
    (hlen : samples.length = contrib.length) :
    (List.range contrib.length).map (fun i => (samples.getD i 0, contrib.getD i 0))
      = samples.zip contrib := by
  apply List.ext_getElem
  · simp [hlen]
  · intro i h1 h2
    simp only [List.length_zip, lt_min_iff] at h2
    simp [List.getElem?_eq_getElem h2.1, List.getElem?_eq_getElem h2.2]

/-- The sorted index list read through the values is the sorted value list. -/
theorem sort_indexes_values (v : List ℚ) :
    (sort_indexes v).map (fun i => v.getD i 0) = v.insertionSort (fun a b => a ≤ b) := by
  apply List.eq_of_perm_of_sorted (r := fun a b : ℚ => a ≤ b)
  · have h1 := (sort_indexes_perm v).map (fun i => v.getD i 0)
    rw [map_getD_range] at h1
    exact h1.trans (List.perm_insertionSort _ _).symm
  · exact List.pairwise_map.mpr (sort_indexes_sorted v)
  · exact List.sorted_insertionSort _ _

/-- The indices kept by the first loop of `getConstants`. -/
theorem kept_values (v : List ℚ) :
    ((sort_indexes v).filter (fun i => decide (v.getD i 0 < 1))).map (fun i => v.getD i 0)
      = (v.filter (fun c => decide (c < 1))).insertionSort (fun a b => a ≤ b) := by
  have h : ((sort_indexes v).filter (fun i => decide (v.getD i 0 < 1))).map (fun i => v.getD i 0)
      = ((sort_indexes v).map (fun i => v.getD i 0)).filter (fun c => decide (c < 1)) := by
    rw [List.filter_map]; rfl
  rw [h, sort_indexes_values]
  apply List.eq_of_perm_of_sorted (r := fun a b : ℚ => a ≤ b)
  · exact ((List.perm_insertionSort _ _).filter _).trans (List.perm_insertionSort _ _).symm
  · exact List.Pairwise.filter _ (List.sorted_insertionSort _ _)
  · exact List.sorted_insertionSort _ _

theorem collect_sorted (samples : List Int) (contrib : List ℚ)
    (hlen : samples.length = contrib.length) :
    collectBelowOne samples contrib (sort_indexes contrib) ([], [])
      = some (((sort_indexes contrib).filter (fun i => decide (contrib.getD i 0 < 1))).map
                (fun i => samples.getD i 0),
              ((sort_indexes contrib).filter (fun i => decide (contrib.getD i 0 < 1))).map
                (fun i => contrib.getD i 0)) := by
  rw [collectBelowOne_eq samples contrib _ _
    (fun i hi => ⟨sort_indexes_lt contrib i hi, by rw [hlen]; exact sort_indexes_lt contrib i hi⟩)]
  rw [takeWhile_eq_filter_of_sorted (fun i1 i2 => contrib.getD i1 0 ≤ contrib.getD i2 0)
    (fun i => decide (contrib.getD i 0 < 1)) _ _ (sort_indexes_sorted contrib)]
  · simp
  · intro a b hab hb
    simp only [decide_eq_true_eq] at hb ⊢
    exact lt_of_le_of_lt hab hb

theorem kept_pairs_perm (samples : List Int) (contrib : List ℚ)
    (hlen : samples.length = contrib.length) :
    (((sort_indexes contrib).filter (fun i => decide (contrib.getD i 0 < 1))).map
        (fun i => (samples.getD i 0, contrib.getD i 0))).Perm
      ((samples.zip contrib).filter (fun p => decide (p.2 < 1))) := by
  have h1 := ((sort_indexes_perm contrib).filter
    (fun i => decide (contrib.getD i 0 < 1))).map (fun i => (samples.getD i 0, contrib.getD i 0))
  have h2 : ((List.range contrib.length).filter (fun i => decide (contrib.getD i 0 < 1))).map
      (fun i => (samples.getD i 0, contrib.getD i 0))
      = (samples.zip contrib).filter (fun p => decide (p.2 < 1)) := by
    rw [← map_pair_range samples contrib hlen, List.filter_map]; rfl
  rw [h2] at h1
  exact h1

theorem gatherPicked_eq (tmp_samples : List Int) (tmp_weights : List ℚ) :
    ∀ (idxs : List Nat) (acc : List Int × List ℚ),
      (∀ i ∈ idxs, i < tmp_samples.length ∧ i < tmp_weights.length) →
      gatherPicked tmp_samples tmp_weights idxs acc
        = some (acc.1 ++ idxs.map (fun i => tmp_samples.getD i 0),
                acc.2 ++ idxs.map (fun i => tmp_weights.getD i 0)) := by
  intro idxs
  induction idxs with
  | nil => intro acc _; simp [gatherPicked]
  | cons i rest ih =>
    intro acc h
    have hi := h i (List.mem_cons_self _ _)
    have hs : tmp_samples[i]? = some (tmp_samples.getD i 0) := by
      rw [List.getD_eq_getElem _ _ hi.1]; exact List.getElem?_eq_getElem hi.1
    have hw : tmp_weights[i]? = some (tmp_weights.getD i 0) := by
      rw [List.getD_eq_getElem _ _ hi.2]; exact List.getElem?_eq_getElem hi.2
    simp only [gatherPicked, hs, hw]
    rw [ih _ (fun j hj => h j (List.mem_cons_of_mem _ hj))]
    simp only [List.map_cons, List.append_assoc, List.singleton_append]

/-- Reading a list at strictly increasing in-range positions gives a
sublist. -/
theorem map_getD_sublist {α : Type} (d : α) :
    ∀ (l : List α) (idxs : List Nat), idxs.Sorted (fun a b => a < b) →
      (∀ i ∈ idxs, i < l.length) → (idxs.map (fun i => l.getD i d)).Sublist l := by
  intro l
  induction l with
  | nil =>
    intro idxs _ h
    cases idxs with
    | nil => simp
    | cons i rest => exact absurd (h i (List.mem_cons_self _ _)) (by simp)
  | cons a t ih =>
    intro idxs hs h
    cases idxs with
    | nil => simp
    | cons i rest =>
      have hs' := List.sorted_cons.mp hs
      have hrest : ∀ j ∈ rest, 0 < j := fun j hj => lt_of_le_of_lt (Nat.zero_le i) (hs'.1 j hj)
      have hmap : rest.map (fun j => (a :: t).getD j d)
          = (rest.map (fun j => j - 1)).map (fun j => t.getD j d) := by
        rw [List.map_map]
        apply List.map_congr_left
        intro j hj
        obtain ⟨k, rfl⟩ : ∃ k, j = k + 1 := ⟨j - 1, by have := hrest j hj; omega⟩
        simp
      have hsorted : (rest.map (fun j => j - 1)).Sorted (fun a b => a < b) := by
        apply List.pairwise_map.mpr
        refine List.Pairwise.imp_of_mem ?_ hs'.2
        intro x y hx hy hxy
        have := hrest x hx
        have := hrest y hy
        omega
      have hbound : ∀ j ∈ rest.map (fun j => j - 1), j < t.length := by
        intro j hj
        obtain ⟨k, hk, rfl⟩ := List.mem_map.mp hj
        have h1 := h k (List.mem_cons_of_mem _ hk)
        have h2 := hrest k hk
        simp only [List.length_cons] at h1
        omega
      cases i with
      | zero =>
        rw [List.map_cons, hmap]
        simpa using (ih _ hsorted hbound)
      | succ i =>
        have hall : ((i + 1) :: rest).map (fun j => (a :: t).getD j d)
            = (((i + 1) :: rest).map (fun j => j - 1)).map (fun j => t.getD j d) := by
          rw [List.map_map]
          apply List.map_congr_left
          intro j hj
          have hj0 : 0 < j := by
            rcases List.mem_cons.mp hj with h0 | h0
            · omega
            · exact hrest j h0
          obtain ⟨k, rfl⟩ : ∃ k, j = k + 1 := ⟨j - 1, by omega⟩
          simp
        rw [hall]
        apply List.Sublist.cons
        apply ih
        · rw [List.map_cons]
          apply List.sorted_cons.mpr
          refine ⟨?_, hsorted⟩
          intro b hb
          obtain ⟨k, hk, rfl⟩ := List.mem_map.mp hb
          have := hs'.1 k hk
          have := hrest k hk
          simp only [Nat.add_sub_cancel]
          omega
        · intro j hj
          rw [List.map_cons] at hj
          rcases List.mem_cons.mp hj with h0 | h0
          · have h1 := h (i + 1) (List.mem_cons_self _ _)
            simp only [List.length_cons] at h1
            simp only [Nat.add_sub_cancel] at h0
            omega
          · exact hbound j h0

/-! ## C9: getConstants sorts and filters -/

theorem kept_length (v : List ℚ) :
    ((sort_indexes v).filter (fun i => decide (v.getD i 0 < 1))).length
      = (v.filter (fun c => decide (c < 1))).length := by
  have h := congrArg List.length (kept_values v)
  simpa using h

/-- What a completed `getConstants` leaves behind, in terms of `retain` and
of the S4 scan. -/
theorem getConstants_eq_some (pickSet : Nat → Nat → (Nat → Nat) → List Nat × (Nat → Nat))
    (e e' : Estimator) (h : getConstants pickSet e = some e') :
    ∃ g smp ctr m u3, retain pickSet e = some (g, smp, ctr) ∧
      s4Scan ctr (ctr.foldl (fun a c => a + c) 0 / (smp.length : ℚ)) (ctr.length + 1) 0 0
        = some (m, u3) ∧
      e' = { e with
        rng := g, samples := smp, contrib := ctr, thresh := 1 / 10000000000,
        set_start := [0, m],
        u_global := ctr.foldl (fun a c => a + c) 0 / (smp.length : ℚ),
        sample_count := smp.length, u := [0, 0, 0, u3 / (smp.length : ℚ)] } := by
  unfold getConstants at h
  cases hr : retain pickSet e with
  | none => rw [hr] at h; simp at h
  | some r =>
    obtain ⟨g, smp, ctr⟩ := r
    rw [hr] at h
    simp only at h
    cases hs : s4Scan ctr (ctr.foldl (fun a c => a + c) 0 / (smp.length : ℚ)) (ctr.length + 1) 0 0 with
    | none => rw [hs] at h; simp at h
    | some r2 =>
      obtain ⟨m, u3⟩ := r2
      rw [hs] at h
      simp only [Option.some.injEq] at h
      exact ⟨g, smp, ctr, m, u3, rfl, hs, h.symm⟩

/-- C9: for a record with as many point indices as kernel values and at
most 50,000 kernel values below 1, the first part of `getConstants` returns,
with the generator untouched; the retained pairs are, as a multiset, the
recorded pairs with kernel value below 1 (each index with its own value);
the retained values are in ascending order; no retained pair has a value
of 1 or more; and a completed `getConstants` holds exactly this record. -/
theorem getConstants_sorts_and_filters
    (pickSet : Nat → Nat → (Nat → Nat) → List Nat × (Nat → Nat)) (e : Estimator)
    (hlen : e.samples.length = e.contrib.length)
    (hcap : (e.contrib.filter (fun c => decide (c < 1))).length ≤ 50000) :
    ∃ (smp : List Int) (ctr : List ℚ),
      retain pickSet e = some (e.rng, smp, ctr) ∧
      smp.length = ctr.length ∧
      (smp.zip ctr).Perm ((e.samples.zip e.contrib).filter (fun p => decide (p.2 < 1))) ∧
      ctr.Sorted (fun a b => a ≤ b) ∧
      (∀ p ∈ smp.zip ctr, p.2 < 1) ∧
      ∀ e', getConstants pickSet e = some e' → e'.samples = smp ∧ e'.contrib = ctr := by
  have hret : retain pickSet e = some (e.rng,
      ((sort_indexes e.contrib).filter (fun i => decide (e.contrib.getD i 0 < 1))).map
        (fun i => e.samples.getD i 0),
      ((sort_indexes e.contrib).filter (fun i => decide (e.contrib.getD i 0 < 1))).map
        (fun i => e.contrib.getD i 0)) := by
    unfold retain
    rw [collect_sorted e.samples e.contrib hlen]
    simp only [List.length_map, kept_length]
    rw [if_neg (by omega)]
  have hzip : (((sort_indexes e.contrib).filter (fun i => decide (e.contrib.getD i 0 < 1))).map
        (fun i => e.samples.getD i 0)).zip
      (((sort_indexes e.contrib).filter (fun i => decide (e.contrib.getD i 0 < 1))).map
        (fun i => e.contrib.getD i 0))
      = ((sort_indexes e.contrib).filter (fun i => decide (e.contrib.getD i 0 < 1))).map
        (fun i => (e.samples.getD i 0, e.contrib.getD i 0)) := by
    rw [List.zip_map']
  have hperm := kept_pairs_perm e.samples e.contrib hlen
  refine ⟨_, _, hret, by simp, ?_, ?_, ?_, ?_⟩
  · rw [hzip]; exact hperm
  · rw [kept_values]; exact List.sorted_insertionSort _ _
  · intro p hp
    rw [hzip] at hp
    have := (hperm.mem_iff.mp hp)
    simpa using (List.mem_filter.mp this).2
  · intro e' he'
    obtain ⟨g, smp, ctr, m, u3, hr, -, rfl⟩ := getConstants_eq_some pickSet e e' he'
    rw [hret] at hr
    simp only [Option.some.injEq, Prod.mk.injEq] at hr
    exact ⟨hr.2.1.symm, hr.2.2.symm⟩

/-- Witness of C9: four recorded pairs, two of them with a value of 1 or
more. -/
theorem getConstants_sorts_and_filters_witness :
    ∃ (smp : List Int) (ctr : List ℚ),
      retain idlePick (blankEstimator 4 1 [1] [10, 11, 12, 13] [3 / 4, 1, 1 / 4, 2])
        = some ((blankEstimator 4 1 [1] [10, 11, 12, 13] [3 / 4, 1, 1 / 4, 2]).rng, smp, ctr) ∧
      smp.length = ctr.length ∧
      (smp.zip ctr).Perm
        (((blankEstimator 4 1 [1] [10, 11, 12, 13] [3 / 4, 1, 1 / 4, 2]).samples.zip
          (blankEstimator 4 1 [1] [10, 11, 12, 13] [3 / 4, 1, 1 / 4, 2]).contrib).filter
            (fun p => decide (p.2 < 1))) ∧
      ctr.Sorted (fun a b => a ≤ b) ∧
      (∀ p ∈ smp.zip ctr, p.2 < 1) ∧
      ∀ e', getConstants idlePick (blankEstimator 4 1 [1] [10, 11, 12, 13] [3 / 4, 1, 1 / 4, 2])
          = some e' → e'.samples = smp ∧ e'.contrib = ctr :=
  getConstants_sorts_and_filters idlePick
    (blankEstimator 4 1 [1] [10, 11, 12, 13] [3 / 4, 1, 1 / 4, 2]) rfl (by decide!)

/-! ## C8: the subsampling cap -/

/-- C8: let `k` be the number of recorded contributions below 1, on a record
with as many point indices as kernel values, and let the subset sampler,
when `k > 50000`, return 50,000 distinct indices below `k`.  Then the first
part of `getConstants` returns; it retains `min k 50000` records; the
retained contributions are in ascending order and form a subsequence of the
ascending-sorted list of the contributions below 1; and a completed
`getConstants` holds exactly this record. -/
theorem getConstants_subsampling_cap
    (pickSet : Nat → Nat → (Nat → Nat) → List Nat × (Nat → Nat)) (e : Estimator)
    (hlen : e.samples.length = e.contrib.length)
    (hpick : 50000 < (e.contrib.filter (fun c => decide (c < 1))).length →
      (pickSet (e.contrib.filter (fun c => decide (c < 1))).length 50000 e.rng).1.Nodup ∧
      (pickSet (e.contrib.filter (fun c => decide (c < 1))).length 50000 e.rng).1.length = 50000 ∧
      ∀ i ∈ (pickSet (e.contrib.filter (fun c => decide (c < 1))).length 50000 e.rng).1,
        i < (e.contrib.filter (fun c => decide (c < 1))).length) :
    ∃ (g : Nat → Nat) (smp : List Int) (ctr : List ℚ),
      retain pickSet e = some (g, smp, ctr) ∧
      smp.length = min (e.contrib.filter (fun c => decide (c < 1))).length 50000 ∧
      ctr.length = min (e.contrib.filter (fun c => decide (c < 1))).length 50000 ∧
      ctr.Sorted (fun a b => a ≤ b) ∧
      ctr.Sublist ((e.contrib.filter (fun c => decide (c < 1))).insertionSort (fun a b => a ≤ b)) ∧
      ∀ e', getConstants pickSet e = some e' → e'.samples = smp ∧ e'.contrib = ctr := by
  have hfinish : ∀ (g : Nat → Nat) (smp : List Int) (ctr : List ℚ),
      retain pickSet e = some (g, smp, ctr) →
      ∀ e', getConstants pickSet e = some e' → e'.samples = smp ∧ e'.contrib = ctr := by
    intro g smp ctr hret e' he'
    obtain ⟨g', smp', ctr', m, u3, hr, -, rfl⟩ := getConstants_eq_some pickSet e e' he'
    rw [hret] at hr
    simp only [Option.some.injEq, Prod.mk.injEq] at hr
    exact ⟨hr.2.1.symm, hr.2.2.symm⟩
  have hcollect := collect_sorted e.samples e.contrib hlen
  by_cases hk : 50000 < (e.contrib.filter (fun c => decide (c < 1))).length
  · obtain ⟨hnd, hlen50, hrange⟩ := hpick hk
    have hperm := List.perm_insertionSort (fun a b : Nat => a ≤ b)
      (pickSet (e.contrib.filter (fun c => decide (c < 1))).length 50000 e.rng).1
    have hidx_range : ∀ i ∈ ((pickSet (e.contrib.filter (fun c => decide (c < 1))).length 50000
        e.rng).1.insertionSort (fun a b => a ≤ b)),
        i < (e.contrib.filter (fun c => decide (c < 1))).length :=
      fun i hi => hrange i (hperm.mem_iff.mp hi)
    have hidx_sorted : ((pickSet (e.contrib.filter (fun c => decide (c < 1))).length 50000
        e.rng).1.insertionSort (fun a b => a ≤ b)).Sorted (fun a b => a < b) :=
      (List.sorted_insertionSort (fun a b : Nat => a ≤ b) _).lt_of_le (hperm.nodup_iff.mpr hnd)
    have hret : retain pickSet e = some
        ((pickSet (e.contrib.filter (fun c => decide (c < 1))).length 50000 e.rng).2,
         ((pickSet (e.contrib.filter (fun c => decide (c < 1))).length 50000
            e.rng).1.insertionSort (fun a b => a ≤ b)).map
          (fun i => (((sort_indexes e.contrib).filter
            (fun i => decide (e.contrib.getD i 0 < 1))).map
              (fun i => e.samples.getD i 0)).getD i 0),
         ((pickSet (e.contrib.filter (fun c => decide (c < 1))).length 50000
            e.rng).1.insertionSort (fun a b => a ≤ b)).map
          (fun i => (((sort_indexes e.contrib).filter
            (fun i => decide (e.contrib.getD i 0 < 1))).map
              (fun i => e.contrib.getD i 0)).getD i 0)) := by
      unfold retain
      rw [hcollect]
      simp only [List.length_map, kept_length]
      rw [if_pos hk, gatherPicked_eq]
      · simp
      · intro i hi
        simp only [List.length_map, kept_length]
        exact ⟨hidx_range i hi, hidx_range i hi⟩
    refine ⟨_, _, _, hret, ?_, ?_, ?_, ?_, hfinish _ _ _ hret⟩
    · rw [List.length_map, hperm.length_eq, hlen50]; omega
    · rw [List.length_map, hperm.length_eq, hlen50]; omega
    · have hsub := map_getD_sublist (0 : ℚ) (((sort_indexes e.contrib).filter
          (fun i => decide (e.contrib.getD i 0 < 1))).map (fun i => e.contrib.getD i 0)) _
          hidx_sorted (fun i hi => by rw [List.length_map, kept_length]; exact hidx_range i hi)
      rw [kept_values] at hsub ⊢
      exact (List.sorted_insertionSort (fun a b : ℚ => a ≤ b) _).sublist hsub
    · have hsub := map_getD_sublist (0 : ℚ) (((sort_indexes e.contrib).filter
          (fun i => decide (e.contrib.getD i 0 < 1))).map (fun i => e.contrib.getD i 0)) _
          hidx_sorted (fun i hi => by rw [List.length_map, kept_length]; exact hidx_range i hi)
      rw [kept_values] at hsub ⊢
      exact hsub
  · have hret : retain pickSet e = some (e.rng,
        ((sort_indexes e.contrib).filter (fun i => decide (e.contrib.getD i 0 < 1))).map
          (fun i => e.samples.getD i 0),
        ((sort_indexes e.contrib).filter (fun i => decide (e.contrib.getD i 0 < 1))).map
          (fun i => e.contrib.getD i 0)) := by
      unfold retain
      rw [hcollect]
      simp only [List.length_map, kept_length]
      rw [if_neg hk]
    refine ⟨_, _, _, hret, ?_, ?_, ?_, ?_, hfinish _ _ _ hret⟩
    · rw [List.length_map, kept_length]; omega
    · rw [List.length_map, kept_length]; omega
    · rw [kept_values]; exact List.sorted_insertionSort _ _
    · rw [kept_values]


theorem firstPick_fst (n k : Nat) (g : Nat → Nat) : (firstPick n k g).1 = List.range k := rfl

theorem constRecord_lengths (n : Nat) :
    (constRecord n).samples.length = (constRecord n).contrib.length := by
  simp [constRecord, blankEstimator]

theorem constRecord_below_one (n : Nat) :
    (((constRecord n).contrib).filter (fun c => decide (c < 1))).length = n := by
  have h : ((List.replicate n (1 / 2 : ℚ)).filter (fun c => decide (c < 1)))
      = List.replicate n (1 / 2 : ℚ) := by
    rw [List.filter_eq_self]
    intro a ha
    rw [List.eq_of_mem_replicate ha]
    norm_num
  simp only [constRecord, blankEstimator, h, List.length_replicate]

/-- Witness of C8: 50,001 recorded contributions, all `1/2`; the sampler
picks the first 50,000 positions; exactly 50,000 records are retained. -/
theorem getConstants_subsampling_cap_witness :
    ∃ (g : Nat → Nat) (smp : List Int) (ctr : List ℚ),
      retain firstPick bigRecord = some (g, smp, ctr) ∧
      smp.length = 50000 ∧ ctr.length = 50000 ∧
      ctr.Sorted (fun a b => a ≤ b) ∧
      ctr.Sublist
        ((bigRecord.contrib.filter (fun c => decide (c < 1))).insertionSort (fun a b => a ≤ b)) := by
  have hk : ((bigRecord.contrib).filter (fun c => decide (c < 1))).length = 50001 :=
    constRecord_below_one 50001
  obtain ⟨g, smp, ctr, h1, h2, h3, h4, h5, -⟩ :=
    getConstants_subsampling_cap firstPick bigRecord (constRecord_lengths 50001)
      (fun _ => by
        rw [hk, firstPick_fst]
        refine ⟨List.nodup_range 50000, List.length_range 50000, ?_⟩
        intro i hi
        have := List.mem_range.mp hi
        omega)
  rw [hk] at h2 h3
  exact ⟨g, smp, ctr, h1, h2, h3, h4, h5⟩

/-! ## Facts shared by the ring claims -/

theorem foldlM_option_inv {α β : Type} (f : β → α → Option β) (P : β → Prop)
    (hstep : ∀ a x b, P a → f a x = some b → P b) :
    ∀ (l : List α) (a r : β), P a → l.foldlM f a = some r → P r := by
  intro l
  induction l with
  | nil =>
    intro a r ha h
    simp only [List.foldlM_nil] at h
    cases h
    exact ha
  | cons x t ih =>
    intro a r ha h
    simp only [List.foldlM_cons] at h
    cases hx : f a x with
    | none => rw [hx] at h; simp at h
    | some b =>
      rw [hx] at h
      exact ih b r (hstep a x b ha hx) h

theorem foldlM_option_some {α β : Type} (f : β → α → Option β) (P : β → Prop) (l : List α)
    (hstep : ∀ a x, x ∈ l → P a → ∃ b, f a x = some b ∧ P b) :
    ∀ a : β, P a → ∃ r, l.foldlM f a = some r ∧ P r := by
  induction l with
  | nil =>
    intro a ha
    exact ⟨a, rfl, ha⟩
  | cons x t ih =>
    intro a ha
    obtain ⟨b, hb, hPb⟩ := hstep a x (List.mem_cons_self _ _) ha
    obtain ⟨r, hr, hPr⟩ := ih (fun a y hy => hstep a y (List.mem_cons_of_mem _ hy)) b hPb
    refine ⟨r, ?_, hPr⟩
    simp only [List.foldlM_cons, hb]
    exact hr

theorem collectBelowOne_mem (samples : List Int) (contrib : List ℚ) :
    ∀ (idxs : List Nat) (acc r : List Int × List ℚ),
      collectBelowOne samples contrib idxs acc = some r →
      ∀ x ∈ r.2, x ∈ acc.2 ∨ x ∈ contrib := by
  intro idxs
  induction idxs with
  | nil =>
    intro acc r h x hx
    simp only [collectBelowOne, Option.some.injEq] at h
    subst h
    exact Or.inl hx
  | cons i rest ih =>
    intro acc r h x hx
    simp only [collectBelowOne] at h
    cases hc : contrib[i]? with
    | none => rw [hc] at h; simp at h
    | some c =>
      rw [hc] at h
      simp only at h
      by_cases hlt : c < 1
      · rw [if_pos hlt] at h
        cases hs : samples[i]? with
        | none => rw [hs] at h; simp at h
        | some smp =>
          rw [hs] at h
          simp only at h
          rcases ih _ _ h x hx with h1 | h1
          · rcases List.mem_append.mp h1 with h2 | h2
            · exact Or.inl h2
            · simp only [List.mem_singleton] at h2
              subst h2
              exact Or.inr (List.getElem?_mem hc)
          · exact Or.inr h1
      · rw [if_neg hlt] at h
        simp only [Option.some.injEq] at h
        subst h
        exact Or.inl hx

theorem gatherPicked_mem (tmp_samples : List Int) (tmp_weights : List ℚ) :
    ∀ (idxs : List Nat) (acc r : List Int × List ℚ),
      gatherPicked tmp_samples tmp_weights idxs acc = some r →
      ∀ x ∈ r.2, x ∈ acc.2 ∨ x ∈ tmp_weights := by
  intro idxs
  induction idxs with
  | nil =>
    intro acc r h x hx
    simp only [gatherPicked, Option.some.injEq] at h
    subst h
    exact Or.inl hx
  | cons i rest ih =>
    intro acc r h x hx
    simp only [gatherPicked] at h
    cases hs : tmp_samples[i]? with
    | none => rw [hs] at h; simp at h
    | some smp =>
      rw [hs] at h
      simp only at h
      cases hc : tmp_weights[i]? with
      | none => rw [hc] at h; simp at h
      | some c =>
        rw [hc] at h
        simp only at h
        rcases ih _ _ h x hx with h1 | h1
        · rcases List.mem_append.mp h1 with h2 | h2
          · exact Or.inl h2
          · simp only [List.mem_singleton] at h2
            subst h2
            exact Or.inr (List.getElem?_mem hc)
        · exact Or.inr h1

/-- Every retained contribution is one of the recorded contributions. -/
theorem retain_mem (pickSet : Nat → Nat → (Nat → Nat) → List Nat × (Nat → Nat))
    (e : Estimator) (g : Nat → Nat) (smp : List Int) (ctr : List ℚ)
    (h : retain pickSet e = some (g, smp, ctr)) : ∀ x ∈ ctr, x ∈ e.contrib := by
  unfold retain at h
  cases hc : collectBelowOne e.samples e.contrib (sort_indexes e.contrib) ([], []) with
  | none => rw [hc] at h; simp at h
  | some tmp =>
    rw [hc] at h
    simp only at h
    have htmp : ∀ x ∈ tmp.2, x ∈ e.contrib := by
      intro x hx
      rcases collectBelowOne_mem _ _ _ _ _ hc x hx with h1 | h1
      · simp at h1
      · exact h1
    by_cases hk : tmp.1.length > 50000
    · rw [if_pos hk] at h
      cases hg : gatherPicked tmp.1 tmp.2
          ((pickSet tmp.1.length 50000 e.rng).1.insertionSort (fun a b => a ≤ b)) ([], []) with
      | none => rw [hg] at h; simp at h
      | some r =>
        rw [hg] at h
        simp only [Option.map_some', Option.some.injEq, Prod.mk.injEq] at h
        intro x hx
        rw [← h.2.2] at hx
        rcases gatherPicked_mem _ _ _ _ _ hg x hx with h1 | h1
        · simp at h1
        · exact htmp x h1
    · rw [if_neg hk] at h
      simp only [Option.some.injEq, Prod.mk.injEq] at h
      intro x hx
      rw [← h.2.2] at hx
      exact htmp x hx

theorem ringBounds_shape (strategy : Int) (eps : ℚ) (e : Estimator) (lam lv : ℚ)
    (ss : List Nat) (hs : strategy = 0 ∨ strategy = 1)
    (h : ringBounds strategy eps e = some (lam, lv, ss)) :
    ∃ a b, ss = e.set_start ++ [a, b, e.contrib.length] := by
  unfold ringBounds at h
  split at h
  · split at h
    · simp at h
    · simp only [Option.some.injEq, Prod.mk.injEq] at h
      exact ⟨_, _, by rw [← h.2.2, List.append_assoc, List.append_assoc]; rfl⟩
  · split at h
    · split at h
      · simp only at h
        split at h
        · simp at h
        · split at h
          · simp at h
          · split at h
            · simp at h
            · split at h
              · simp at h
              · simp only [Option.some.injEq, Prod.mk.injEq] at h
                exact ⟨_, _, by rw [← h.2.2, List.append_assoc, List.append_assoc]; rfl⟩
      · simp at h
    · rcases hs with h0 | h1
      · simp_all
      · simp_all

/-- What a completed `findRings` leaves behind. -/
theorem findRings_eq_some (prob : ℚ → Int → Int → ℚ) (strategy : Int) (eps : ℚ) (level : Nat)
    (e e' : Estimator) (h : findRings prob strategy eps level e = some e') :
    ∃ (lam lv : ℚ) (ss : List Nat) (w : ℚ) (k : Int)
      (r0 r1 r2 r3 : RingAcc × List Nat × List ℚ × List Nat × List ℚ),
      ringBounds strategy eps e = some (lam, lv, ss) ∧
      4 ≤ e.u.length ∧
      ringStats (prob w k) e.samples e.contrib e.thresh e.sample_count ss 0 = some r0 ∧
      ringStats (prob w k) e.samples e.contrib e.thresh e.sample_count ss 1 = some r1 ∧
      ringStats (prob w k) e.samples e.contrib e.thresh e.sample_count ss 2 = some r2 ∧
      ringStats (prob w k) e.samples e.contrib e.thresh e.sample_count ss 3 = some r3 ∧
      e' = { e with
            lambda := lam, l := lv, set_start := ss, exp_w := w, exp_k := k,
            u := (((e.u.set 0 r0.1.u).set 1 r1.1.u).set 2 r2.1.u).set 3 r3.1.u,
            pmins := [r0.1.pmin, r1.1.pmin, r2.1.pmin, r3.1.pmin],
            pmaxs := [r0.1.pmax, r1.1.pmax, r2.1.pmax, r3.1.pmax],
            w_mins := [r0.1.w_min, r1.1.w_min, r2.1.w_min, r3.1.w_min],
            w_maxs := [r0.1.w_max, r1.1.w_max, r2.1.w_max, r3.1.w_max],
            w_p_idx := [r0.2.1, r1.2.1, r2.2.1, r3.2.1],
            w_ps := [r0.2.2.1, r1.2.2.1, r2.2.2.1, r3.2.2.1],
            w_pp_idx := [r0.2.2.2.1, r1.2.2.2.1, r2.2.2.2.1, r3.2.2.2.1],
            w_pps := [r0.2.2.2.2, r1.2.2.2.2, r2.2.2.2.2, r3.2.2.2.2] } := by
  unfold findRings at h
  split at h
  · simp at h
  · rename_i lam lv ss hb
    simp only at h
    split at h
    · simp at h
    · rename_i w k hp
      split at h
      · simp at h
      · rename_i hu
        split at h
        · rename_i r0 r1 r2 r3 h0 h1 h2 h3
          simp only [Option.some.injEq] at h
          exact ⟨lam, lv, ss, w, k, r0, r1, r2, r3, hb, by omega, h0, h1, h2, h3, h.symm⟩
        · simp at h

theorem read_some {α : Type} (l : List α) (i : Nat) (h : i < l.length) :
    ∃ x, l[i]? = some x ∧ x ∈ l :=
  ⟨l[i], List.getElem?_eq_getElem h, List.getElem_mem h⟩

theorem ringStep_inv (prob : Int → ℚ) (samples : List Int) (contrib : List ℚ) (thresh : ℚ)
    (hnn : ∀ c ∈ contrib, (0 : ℚ) ≤ c) (acc : RingAcc) (j : Nat) (b : RingAcc)
    (hP : 0 ≤ acc.u ∧ 0 ≤ acc.w_max ∧ thresh ≤ acc.w_min)
    (h : ringStep prob samples contrib thresh acc j = some b) :
    0 ≤ b.u ∧ 0 ≤ b.w_max ∧ thresh ≤ b.w_min := by
  unfold ringStep at h
  cases hc : contrib[j]? with
  | none => rw [hc] at h; simp at h
  | some c =>
    rw [hc] at h
    simp only at h
    have hc0 : 0 ≤ c := hnn c (List.getElem?_mem hc)
    by_cases hlt : c < thresh
    · rw [if_pos hlt] at h
      simp only [Option.some.injEq] at h
      subst h
      exact ⟨add_nonneg hP.1 hc0, hP.2.1, hP.2.2⟩
    · rw [if_neg hlt] at h
      cases hs : samples[j]? with
      | none => rw [hs] at h; simp at h
      | some idx =>
        rw [hs] at h
        simp only [Option.some.injEq] at h
        subst h
        exact ⟨add_nonneg hP.1 hc0, le_max_of_le_left hc0, le_min (not_lt.mp hlt) hP.2.2⟩

theorem ringStats_inv (prob : Int → ℚ) (samples : List Int) (contrib : List ℚ) (thresh : ℚ)
    (n : Nat) (ss : List Nat) (i : Nat)
    (r : RingAcc × List Nat × List ℚ × List Nat × List ℚ)
    (hnn : ∀ c ∈ contrib, (0 : ℚ) ≤ c) (hth : thresh ≤ 1)
    (h : ringStats prob samples contrib thresh n ss i = some r) :
    0 ≤ r.1.u ∧ 0 ≤ r.1.w_max ∧ thresh ≤ r.1.w_min := by
  unfold ringStats at h
  split at h
  · rename_i lo hi _ _
    split at h
    · simp at h
    · rename_i acc hacc
      simp only [Option.some.injEq] at h
      subst h
      have hinv := foldlM_option_inv (ringStep prob samples contrib thresh)
        (fun a => 0 ≤ a.u ∧ 0 ≤ a.w_max ∧ thresh ≤ a.w_min)
        (fun a x b hP hb => ringStep_inv prob samples contrib thresh hnn a x b hP hb)
        _ _ acc ⟨le_refl _, le_refl _, hth⟩ hacc
      exact ⟨div_nonneg hinv.1 (Nat.cast_nonneg _), hinv.2.1, hinv.2.2⟩
  · simp at h

theorem ringSkipped_some (e : Estimator) (hss : 5 ≤ e.set_start.length) (i : Nat) :
    ∃ b, ringSkipped e i = some b := by
  obtain ⟨a, ha, -⟩ := read_some e.set_start (3 - i) (by omega)
  obtain ⟨b, hb, -⟩ := read_some e.set_start (4 - i) (by omega)
  exact ⟨a == b, by simp [ringSkipped, ha, hb]⟩

theorem vbRSInner_nonneg (e : Estimator) (hss : 5 ≤ e.set_start.length)
    (hu : e.u.length = 4) (hmin : e.w_mins.length = 4) (hmax : e.w_maxs.length = 4)
    (hu0 : ∀ x ∈ e.u, (0 : ℚ) ≤ x) (hmax0 : ∀ x ∈ e.w_maxs, (0 : ℚ) ≤ x)
    (hmin0 : ∀ x ∈ e.w_mins, (0 : ℚ) < x) (i : Nat) (hi : i < 3) (up : ℚ) (j : Nat)
    (hj : j ∈ [0, 1, 2]) (hup : 0 ≤ up) :
    ∃ b, vbRSInner e i up j = some b ∧ 0 ≤ b := by
  have hj3 : j < 3 := by simp at hj; omega
  obtain ⟨sk, hsk⟩ := ringSkipped_some e hss j
  obtain ⟨wmax, h1, h1m⟩ := read_some e.w_maxs i (by omega)
  obtain ⟨wmin, h2, h2m⟩ := read_some e.w_mins j (by omega)
  obtain ⟨ui, h3, h3m⟩ := read_some e.u i (by omega)
  obtain ⟨uj, h4, h4m⟩ := read_some e.u j (by omega)
  cases sk with
  | true => exact ⟨up, by simp [vbRSInner, hsk], hup⟩
  | false =>
    refine ⟨up + wmax / wmin * ui * uj, by simp [vbRSInner, hsk, h1, h2, h3, h4], ?_⟩
    have := hmax0 _ h1m
    have := hmin0 _ h2m
    have := hu0 _ h3m
    have := hu0 _ h4m
    positivity

theorem vbRSOuter_nonneg (e : Estimator) (hss : 5 ≤ e.set_start.length)
    (hu : e.u.length = 4) (hmin : e.w_mins.length = 4) (hmax : e.w_maxs.length = 4)
    (hu0 : ∀ x ∈ e.u, (0 : ℚ) ≤ x) (hmax0 : ∀ x ∈ e.w_maxs, (0 : ℚ) ≤ x)
    (hmin0 : ∀ x ∈ e.w_mins, (0 : ℚ) < x) (t2 : ℚ) (ht2 : 0 ≤ t2) (up : ℚ) (i : Nat)
    (hi : i ∈ [0, 1, 2]) (hup : 0 ≤ up) :
    ∃ b, vbRSOuter e t2 up i = some b ∧ 0 ≤ b := by
  have hi3 : i < 3 := by simp at hi; omega
  obtain ⟨sk, hsk⟩ := ringSkipped_some e hss i
  obtain ⟨wmax, h1, h1m⟩ := read_some e.w_maxs i (by omega)
  obtain ⟨ui, h3, h3m⟩ := read_some e.u i (by omega)
  cases sk with
  | true => exact ⟨up, by simp [vbRSOuter, hsk], hup⟩
  | false =>
    obtain ⟨up1, hup1, hup1nn⟩ := foldlM_option_some (vbRSInner e i) (fun a => 0 ≤ a) [0, 1, 2]
      (fun a x hx ha => vbRSInner_nonneg e hss hu hmin hmax hu0 hmax0 hmin0 i hi3 a x hx ha)
      up hup
    refine ⟨up1 + t2 * wmax * ui, by simp only [vbRSOuter, hsk, hup1, h1, h3], ?_⟩
    have := hmax0 _ h1m
    have := hu0 _ h3m
    positivity

/-- On ring statistics that are in place and non-negative, with positive
minimal weights, `vbRS` returns a non-negative bound. -/
theorem vbRS_nonneg (e : Estimator) (hss : 5 ≤ e.set_start.length)
    (hu : e.u.length = 4) (hmin : e.w_mins.length = 4) (hmax : e.w_maxs.length = 4)
    (hu0 : ∀ x ∈ e.u, (0 : ℚ) ≤ x) (hmax0 : ∀ x ∈ e.w_maxs, (0 : ℚ) ≤ x)
    (hmin0 : ∀ x ∈ e.w_mins, (0 : ℚ) < x)
    (hstart : ∀ s0 s1 : Nat, e.set_start[0]? = some s0 → e.set_start[1]? = some s1 → s0 ≤ s1) :
    ∃ v, vbRS e = some v ∧ 0 ≤ v := by
  obtain ⟨wmax3, h1, h1m⟩ := read_some e.w_maxs 3 (by omega)
  obtain ⟨u3, h2, h2m⟩ := read_some e.u 3 (by omega)
  obtain ⟨s0, h3, -⟩ := read_some e.set_start 0 (by omega)
  obtain ⟨s1, h4, -⟩ := read_some e.set_start 1 (by omega)
  have hle : (s0 : ℚ) ≤ (s1 : ℚ) := by exact_mod_cast hstart s0 s1 h3 h4
  have ht2 : (0 : ℚ) ≤ ((s1 : ℚ) - (s0 : ℚ)) / (e.sample_count : ℚ) :=
    div_nonneg (sub_nonneg.mpr hle) (Nat.cast_nonneg _)
  obtain ⟨v, hv, hvnn⟩ := foldlM_option_some
    (vbRSOuter e (((s1 : ℚ) - (s0 : ℚ)) / (e.sample_count : ℚ))) (fun a => 0 ≤ a) [0, 1, 2]
    (fun a x hx ha => vbRSOuter_nonneg e hss hu hmin hmax hu0 hmax0 hmin0 _ ht2 a x hx ha)
    (wmax3 * u3) (mul_nonneg (hmax0 _ h1m) (hu0 _ h2m))
  exact ⟨v, by simp only [vbRS, h1, h2, t2Factor, h3, h4, hv], hvnn⟩

/-! ## C5: vbRS is non-negative -/

/-- The state in which `vbRS` and `vbHBE` run after `getConstants` and
`findRings` (strategy 0 or 1) on non-negative kernel values: the offsets
start with `0, m`, there are at least five of them, the four ring masses and
maximal weights are non-negative and the four minimal weights are at least
`thresh = 1e-10`. -/
theorem rings_ready (pickSet : Nat → Nat → (Nat → Nat) → List Nat × (Nat → Nat))
    (prob : ℚ → Int → Int → ℚ) (strategy : Int) (eps : ℚ) (level : Nat)
    (e e1 e2 : Estimator) (hs : strategy = 0 ∨ strategy = 1)
    (hnn : ∀ c ∈ e.contrib, (0 : ℚ) ≤ c)
    (h1 : getConstants pickSet e = some e1)
    (h2 : findRings prob strategy eps level e1 = some e2) :
    e2.thresh = 1 / 10000000000 ∧
    (∃ m a b, e2.set_start = [0, m, a, b, e1.contrib.length]) ∧
    e2.u.length = 4 ∧ e2.w_mins.length = 4 ∧ e2.w_maxs.length = 4 ∧
    (∀ x ∈ e2.u, (0 : ℚ) ≤ x) ∧ (∀ x ∈ e2.w_maxs, (0 : ℚ) ≤ x) ∧
    (∀ x ∈ e2.w_mins, e2.thresh ≤ x) := by
  obtain ⟨g, smp, ctr, m, u3, hret, -, rfl⟩ := getConstants_eq_some pickSet e e1 h1
  have hctr : ∀ c ∈ ctr, (0 : ℚ) ≤ c := fun c hc => hnn c (retain_mem pickSet e g smp ctr hret c hc)
  obtain ⟨lam, lv, ss, w, k, r0, r1, r2, r3, hb, -, hr0, hr1, hr2, hr3, rfl⟩ :=
    findRings_eq_some prob strategy eps level _ e2 h2
  obtain ⟨a, b, hss⟩ := ringBounds_shape strategy eps _ lam lv ss hs hb
  simp only at hr0 hr1 hr2 hr3 hss
  have hth : (1 / 10000000000 : ℚ) ≤ 1 := by norm_num
  have i0 := ringStats_inv _ _ _ _ _ _ _ _ hctr hth hr0
  have i1 := ringStats_inv _ _ _ _ _ _ _ _ hctr hth hr1
  have i2 := ringStats_inv _ _ _ _ _ _ _ _ hctr hth hr2
  have i3 := ringStats_inv _ _ _ _ _ _ _ _ hctr hth hr3
  refine ⟨rfl, ⟨m, a, b, by simp [hss]⟩, by simp, by simp, by simp, ?_, ?_, ?_⟩
  · intro x hx
    simp only [List.set_cons_zero, List.set_cons_succ, List.mem_cons, List.mem_singleton,
      List.not_mem_nil, or_false] at hx
    rcases hx with rfl | rfl | rfl | rfl
    · exact i0.1
    · exact i1.1
    · exact i2.1
    · exact i3.1
  · intro x hx
    simp only [List.mem_cons, List.mem_singleton, List.not_mem_nil, or_false] at hx
    rcases hx with rfl | rfl | rfl | rfl
    · exact i0.2.1
    · exact i1.2.1
    · exact i2.2.1
    · exact i3.2.1
  · intro x hx
    simp only [List.mem_cons, List.mem_singleton, List.not_mem_nil, or_false] at hx
    rcases hx with rfl | rfl | rfl | rfl
    · exact i0.2.2
    · exact i1.2.2
    · exact i2.2.2
    · exact i3.2.2

/-- C5: in every state produced by `getConstants` followed by `findRings`
(strategy 0 or 1) from non-negative kernel values, `thresh` is `1e-10`, each
of the four `w_mins[j]` (the divisors of `vbRS` among them) is at least
`thresh`, hence non-zero, and `vbRS` returns a bound that is `≥ 0`. -/
theorem vbRS_nonneg_after_findRings
    (pickSet : Nat → Nat → (Nat → Nat) → List Nat × (Nat → Nat))
    (prob : ℚ → Int → Int → ℚ) (strategy : Int) (eps : ℚ) (level : Nat)
    (e e1 e2 : Estimator) (hs : strategy = 0 ∨ strategy = 1)
    (hnn : ∀ c ∈ e.contrib, (0 : ℚ) ≤ c)
    (h1 : getConstants pickSet e = some e1)
    (h2 : findRings prob strategy eps level e1 = some e2) :
    e2.thresh = 1 / 10000000000 ∧
    (∀ j, j < 4 → ∃ w, e2.w_mins[j]? = some w ∧ e2.thresh ≤ w ∧ w ≠ 0) ∧
    ∃ v, vbRS e2 = some v ∧ 0 ≤ v := by
  obtain ⟨hth, ⟨m, a, b, hss⟩, hu, hmin, hmax, hu0, hmax0, hmin0⟩ :=
    rings_ready pickSet prob strategy eps level e e1 e2 hs hnn h1 h2
  have hpos : ∀ x ∈ e2.w_mins, (0 : ℚ) < x := by
    intro x hx
    have := hmin0 x hx
    rw [hth] at this
    exact lt_of_lt_of_le (by norm_num) this
  refine ⟨hth, ?_, ?_⟩
  · intro j hj
    obtain ⟨w, hw, hwm⟩ := read_some e2.w_mins j (by omega)
    exact ⟨w, hw, hmin0 w hwm, ne_of_gt (hpos w hwm)⟩
  · apply vbRS_nonneg e2 (by simp [hss]) hu hmin hmax hu0 hmax0 hpos
    intro s0 s1 h0 h1
    simp only [hss, List.getElem?_cons_zero, List.getElem?_cons_succ, Option.some.injEq] at h0 h1
    omega

theorem sixRecord_getConstants_isSome :
    (getConstants idlePick (blankEstimator 6 1 [1] [0, 1, 2, 3, 4, 5]
      [1 / 10, 2 / 10, 3 / 10, 4 / 10, 5 / 10, 6 / 10])).isSome = true := by
  decide!

theorem sixRecord_findRings_isSome :
    (findRings unitProb 1 (1 / 2) 0
      ((getConstants idlePick (blankEstimator 6 1 [1] [0, 1, 2, 3, 4, 5]
        [1 / 10, 2 / 10, 3 / 10, 4 / 10, 5 / 10, 6 / 10])).get
          sixRecord_getConstants_isSome)).isSome = true := by
  decide!

/-- Witness of C5: six contributions `0.1 .. 0.6`, strategy 1, `eps = 0.5`. -/
theorem vbRS_nonneg_after_findRings_witness :
    ∃ e1 e2 : Estimator,
      getConstants idlePick (blankEstimator 6 1 [1] [0, 1, 2, 3, 4, 5]
        [1 / 10, 2 / 10, 3 / 10, 4 / 10, 5 / 10, 6 / 10]) = some e1 ∧
      findRings unitProb 1 (1 / 2) 0 e1 = some e2 ∧
      e2.thresh = 1 / 10000000000 ∧
      (∀ j, j < 4 → ∃ w, e2.w_mins[j]? = some w ∧ e2.thresh ≤ w ∧ w ≠ 0) ∧
      ∃ v, vbRS e2 = some v ∧ 0 ≤ v :=
  ⟨_, _, (Option.some_get sixRecord_getConstants_isSome).symm,
    (Option.some_get sixRecord_findRings_isSome).symm,
    vbRS_nonneg_after_findRings idlePick unitProb 1 (1 / 2) 0 _ _ _ (Or.inr rfl)
      (by intro c hc; simp [blankEstimator] at hc; rcases hc with h | h | h | h | h | h <;>
            rw [h] <;> norm_num)
      (Option.some_get sixRecord_getConstants_isSome).symm
      (Option.some_get sixRecord_findRings_isSome).symm⟩

/-! ## C10: the level count of buildLevels -/

theorem levelStep_frame (gamma : ℝ) (randomRelVar : ℝ → ℝ) (eps : ℝ) (lv : Levels) (i : Nat) :
    (levelStep gamma randomRelVar eps lv i).I = lv.I ∧
    (levelStep gamma randomRelVar eps lv i).mui.length = lv.mui.length ∧
    (levelStep gamma randomRelVar eps lv i).Mi.length = lv.Mi.length ∧
    (levelStep gamma randomRelVar eps lv i).ti.length = lv.ti.length ∧
    (levelStep gamma randomRelVar eps lv i).ki.length = lv.ki.length ∧
    (levelStep gamma randomRelVar eps lv i).wi.length = lv.wi.length := by
  simp [levelStep]

theorem levelLoop_frame (gamma : ℝ) (randomRelVar : ℝ → ℝ) (eps : ℝ) :
    ∀ (idxs : List Nat) (lv : Levels),
      (idxs.foldl (levelStep gamma randomRelVar eps) lv).I = lv.I ∧
      (idxs.foldl (levelStep gamma randomRelVar eps) lv).mui.length = lv.mui.length ∧
      (idxs.foldl (levelStep gamma randomRelVar eps) lv).Mi.length = lv.Mi.length ∧
      (idxs.foldl (levelStep gamma randomRelVar eps) lv).ti.length = lv.ti.length ∧
      (idxs.foldl (levelStep gamma randomRelVar eps) lv).ki.length = lv.ki.length ∧
      (idxs.foldl (levelStep gamma randomRelVar eps) lv).wi.length = lv.wi.length := by
  intro idxs
  induction idxs with
  | nil => intro lv; simp
  | cons i rest ih =>
    intro lv
    have h1 := ih (levelStep gamma randomRelVar eps lv i)
    have h2 := levelStep_frame gamma randomRelVar eps lv i
    simp only [List.foldl_cons]
    refine ⟨h1.1.trans h2.1, h1.2.1.trans h2.2.1, h1.2.2.1.trans h2.2.2.1,
      h1.2.2.2.1.trans h2.2.2.2.1, h1.2.2.2.2.1.trans h2.2.2.2.2.1,
      h1.2.2.2.2.2.trans h2.2.2.2.2.2⟩

/-- The real number `log(1/tau)/log 2` is at most `n` exactly when
`1/tau ≤ 2^n`. -/
theorem log_ratio_le_iff (tau : ℝ) (h0 : 0 < tau) (n : ℕ) :
    Real.log (1 / tau) / Real.log 2 ≤ (n : ℝ) ↔ 1 / tau ≤ (2 : ℝ) ^ n := by
  have hlog2 : 0 < Real.log 2 := Real.log_pos (by norm_num)
  have hpos : 0 < 1 / tau := by positivity
  rw [div_le_iff₀ hlog2, ← Real.log_pow, Real.log_le_log_iff hpos (by positivity)]

/-- The level count over exact reals: for `tau` in `(0,1)` and `eps > 0`,
`buildLevels` returns with `I = ceil(log(1/tau)/log 2)`; this `I` is the
least natural number with `2^I ≥ 1/tau` (for every natural `n`,
`1/tau ≤ 2^n` exactly when `I ≤ n`); `I ≥ 1`; and each of `mui`, `Mi`, `ti`,
`ki`, `wi` has exactly `I` entries. -/
theorem buildLevels_level_count (gamma : ℝ) (randomRelVar : ℝ → ℝ) (tau eps : ℝ)
    (h0 : 0 < tau) (h1 : tau < 1) (heps : 0 < eps) :
    ∃ lv : Levels, buildLevels gamma randomRelVar tau eps = some lv ∧
      lv.I = ⌈Real.log (1 / tau) / Real.log 2⌉ ∧
      (∀ n : ℕ, (1 / tau ≤ (2 : ℝ) ^ n ↔ lv.I ≤ (n : Int))) ∧
      1 ≤ lv.I ∧
      (lv.mui.length : Int) = lv.I ∧ (lv.Mi.length : Int) = lv.I ∧
      (lv.ti.length : Int) = lv.I ∧ (lv.ki.length : Int) = lv.I ∧
      (lv.wi.length : Int) = lv.I := by
  have _ := heps
  have hlog2 : 0 < Real.log 2 := Real.log_pos (by norm_num)
  have hlog : 0 < Real.log (1 / tau) := by
    apply Real.log_pos
    rw [lt_div_iff₀ h0]
    linarith
  have hI : (1 : Int) ≤ ⌈Real.log (1 / tau) / Real.log 2⌉ := by
    have : (0 : Int) < ⌈Real.log (1 / tau) / Real.log 2⌉ := Int.ceil_pos.mpr (div_pos hlog hlog2)
    omega
  have hnot : ¬ (⌈Real.log (1 / tau) / LOG2⌉ < 0) := by
    unfold LOG2
    omega
  have hframe := levelLoop_frame gamma randomRelVar eps
    (List.range (⌈Real.log (1 / tau) / Real.log 2⌉).toNat)
    { r := Real.sqrt (Real.log (1 / tau)), I := ⌈Real.log (1 / tau) / Real.log 2⌉,
      mui := List.replicate (⌈Real.log (1 / tau) / Real.log 2⌉).toNat 0,
      Mi := List.replicate (⌈Real.log (1 / tau) / Real.log 2⌉).toNat 0,
      ti := List.replicate (⌈Real.log (1 / tau) / Real.log 2⌉).toNat 0,
      ki := List.replicate (⌈Real.log (1 / tau) / Real.log 2⌉).toNat 0,
      wi := List.replicate (⌈Real.log (1 / tau) / Real.log 2⌉).toNat 0 }
  simp only [List.length_replicate] at hframe
  have hcast : (((⌈Real.log (1 / tau) / Real.log 2⌉).toNat : Nat) : Int)
      = ⌈Real.log (1 / tau) / Real.log 2⌉ := Int.toNat_of_nonneg (by omega)
  refine ⟨_, ?_, hframe.1, ?_, ?_, ?_, ?_, ?_, ?_, ?_⟩
  · simp only [buildLevels]
    rw [if_neg hnot]
    rfl
  · intro n
    rw [hframe.1, Int.ceil_le, ← log_ratio_le_iff tau h0 n]
    simp
  · rw [hframe.1]; exact hI
  · rw [hframe.2.1, hframe.1]; exact hcast
  · rw [hframe.2.2.1, hframe.1]; exact hcast
  · rw [hframe.2.2.2.1, hframe.1]; exact hcast
  · rw [hframe.2.2.2.2.1, hframe.1]; exact hcast
  · rw [hframe.2.2.2.2.2, hframe.1]; exact hcast

/-- An instance over exact reals: `tau = 0.01` gives `I = 7` and seven
entries per array. -/
theorem buildLevels_level_count_witness :
    ∃ lv : Levels, buildLevels (1 / 2) (fun mu => 1 / mu) (1 / 100) (1 / 10) = some lv ∧
      lv.I = 7 ∧ lv.mui.length = 7 ∧ lv.Mi.length = 7 ∧ lv.ti.length = 7 ∧
      lv.ki.length = 7 ∧ lv.wi.length = 7 := by
  obtain ⟨lv, h, -, hleast, hone, l1, l2, l3, l4, l5⟩ :=
    buildLevels_level_count (1 / 2) (fun mu => 1 / mu) (1 / 100) (1 / 10)
      (by norm_num) (by norm_num) (by norm_num)
  have h7 : lv.I ≤ 7 := by
    have := (hleast 7).mp (by norm_num)
    simpa using this
  have h6 : ¬ lv.I ≤ 6 := by
    intro hle
    have := (hleast 6).mpr (by simpa using hle)
    norm_num at this
  have hI : lv.I = 7 := by omega
  refine ⟨lv, h, hI, ?_, ?_, ?_, ?_, ?_⟩ <;> omega

/-- Over exact reals `tau = 2^-29` gives `I = 29`. -/
theorem buildLevels_level_count_exact_at_29 :
    ∃ lv : Levels, buildLevels (1 / 2) (fun mu => 1 / mu) (1 / 536870912) (1 / 10) = some lv ∧
      lv.I = 29 := by
  obtain ⟨lv, h, -, hleast, -⟩ :=
    buildLevels_level_count (1 / 2) (fun mu => 1 / mu) (1 / 536870912) (1 / 10)
      (by norm_num) (by norm_num) (by norm_num)
  have h29 : lv.I ≤ 29 := by
    have := (hleast 29).mp (by norm_num)
    simpa using this
  have h28 : ¬ lv.I ≤ 28 := by
    intro hle
    have := (hleast 28).mpr (by simpa using hle)
    norm_num at this
  exact ⟨lv, h, by omega⟩

/-- The rounding `roundDouble` on some familiar values: `0.1` and `1/3`
round to the doubles `0x1.999999999999ap-4` and `0x1.5555555555555p-2`;
`2^53 + 1`, a tie, rounds to the even neighbour `2^53`, and `2^53 + 3`, a
tie as well, to `2^53 + 4`; a double is left as it is. -/
theorem roundDouble_examples :
    roundDouble (1 / 10) = 3602879701896397 / 36028797018963968 ∧
    roundDouble (1 / 3) = 6004799503160661 / 18014398509481984 ∧
    roundDouble (-1 / 3) = -6004799503160661 / 18014398509481984 ∧
    roundDouble 9007199254740993 = 9007199254740992 ∧
    roundDouble 9007199254740995 = 9007199254740996 ∧
    roundDouble (3602879701896397 / 36028797018963968)
      = 3602879701896397 / 36028797018963968 ∧
    roundDouble (3 / 2) = 3 / 2 := by
  decide!

/-- The double taken for `LOG2` agrees with `log 2` to nine decimals. -/
theorem LOG2_double_near : |((LOG2_double : ℚ) : ℝ) - LOG2| < 1 / 10 ^ 9 := by
  have h1 := Real.log_two_gt_d9
  have h2 := Real.log_two_lt_d9
  unfold LOG2_double LOG2
  push_cast
  rw [abs_lt]
  constructor <;> norm_num at h1 h2 ⊢ <;> linarith

/-- The double taken for `log(2^29)` agrees with it to seven decimals. -/
theorem log_of_two_pow_29_near :
    |((log_of_two_pow_29 : ℚ) : ℝ) - Real.log (1 / (1 / 536870912))| < 1 / 10 ^ 7 := by
  have h1 := Real.log_two_gt_d9
  have h2 := Real.log_two_lt_d9
  have h3 : Real.log (1 / (1 / 536870912)) = 29 * Real.log 2 := by
    rw [one_div_one_div]
    have : (536870912 : ℝ) = 2 ^ 29 := by norm_num
    rw [this, Real.log_pow]
    norm_num
  rw [h3]
  unfold log_of_two_pow_29
  push_cast
  rw [abs_lt]
  constructor <;> norm_num at h1 h2 ⊢ <;> linarith

/-- C10: at `tau = 2^-29` the least `I` with `2^I ≥ 1/tau` is 29
(`2^29 = 1/tau`, `2^28 < 1/tau`), but line 13 works on doubles: `log(2^29)`
is the double `0x1.419ecb712c481p+4` and `LOG2` the double
`0x1.62e42fefa39efp-1`; their quotient exceeds 29 and rounds to
`29 + 2^-48` (printed `29.000000000000004`), so `ceil` gives `I = 30`. -/
theorem buildLevels_level_count_on_doubles :
    ((2 ^ 29 : Nat) : ℚ) = 1 / (1 / 536870912) ∧
    ((2 ^ 28 : Nat) : ℚ) < 1 / (1 / 536870912) ∧
    29 < log_of_two_pow_29 / LOG2_double ∧
    roundDouble (log_of_two_pow_29 / LOG2_double) = 29 + 1 / 281474976710656 ∧
    levelCountD log_of_two_pow_29 LOG2_double = 30 := by
  decide!

/-! ## C6 and C7: vbHBE on concrete records -/

/-- C6, at the record with contributions `1e-11, 1e-11, 0.9` (collision
probability `1`, strategy `0`): `getConstants` and `findRings` complete with
offsets `[0, 2, 2, 2, 3]`; ring 3 is `[0, 2)` and both its contributions are
below `thresh = 1e-10`, so `w_ps[3]` is empty; `vbRS` returns, but `vbHBE`
reads `w_ps[3][w_ps[3].size() - 1]` out of range. -/
theorem vbHBE_reads_empty_noise_ring :
    (analyse [0, 1, 2] [1 / 100000000000, 1 / 100000000000, 9 / 10] 0 (1 / 2)).map
      (fun e => (e.set_start, e.w_ps, (vbRS e).isSome, vbHBE e))
      = some ([0, 2, 2, 2, 3], [[9 / 10], [], [], []], true, none) := by
  decide!

/-- C7, at the record with contributions `0.1, 0.1, 0.1, 0.9` (collision
probability `1` for every point, strategy `1`, `eps = 0.5`): the offsets are
`[0, 3, 4, 3, 4]`; rings 0, 2 and 3 each hold a contribution above `thresh`
and ring 1, `[4, 3)`, holds none; `vbRS` returns `411/800`, but `vbHBE`,
which does not skip ring 1 because `set_start[2] ≠ set_start[3]`, reads the
empty `w_ps[1]` out of range. -/
theorem vbHBE_differs_from_vbRS_at_unit_prob :
    (analyse [0, 1, 2, 3] [1 / 10, 1 / 10, 1 / 10, 9 / 10] 1 (1 / 2)).map
      (fun e => (e.set_start, e.w_ps, vbRS e, vbHBE e))
      = some ([0, 3, 4, 3, 4], [[9 / 10], [], [9 / 10], [1 / 10, 1 / 10, 1 / 10]],
          some (411 / 800), none) := by
  decide!

/-! ## Sortedness of the retained record -/

theorem gatherPicked_some (tmp_samples : List Int) (tmp_weights : List ℚ) :
    ∀ (idxs : List Nat) (acc r : List Int × List ℚ),
      gatherPicked tmp_samples tmp_weights idxs acc = some r →
      r.2 = acc.2 ++ idxs.map (fun i => tmp_weights.getD i 0) ∧
      ∀ i ∈ idxs, i < tmp_weights.length := by
  intro idxs
  induction idxs with
  | nil =>
    intro acc r h
    simp only [gatherPicked, Option.some.injEq] at h
    subst h
    simp
  | cons i rest ih =>
    intro acc r h
    simp only [gatherPicked] at h
    cases hs : tmp_samples[i]? with
    | none => rw [hs] at h; simp at h
    | some smp =>
      rw [hs] at h
      simp only at h
      cases hc : tmp_weights[i]? with
      | none => rw [hc] at h; simp at h
      | some c =>
        rw [hc] at h
        simp only at h
        obtain ⟨h1, h2⟩ := ih _ _ h
        have hi : i < tmp_weights.length := by
          by_contra hge
          rw [List.getElem?_eq_none (not_lt.mp hge)] at hc
          simp at hc
        have hget : tmp_weights.getD i 0 = c := by
          rw [List.getD_eq_getElem?_getD, hc]; rfl
        refine ⟨?_, ?_⟩
        · rw [h1, List.map_cons, hget]; simp
        · intro j hj
          rcases List.mem_cons.mp hj with h0 | h0
          · rw [h0]; exact hi
          · exact h2 j h0

theorem sorted_getD_mono (l : List ℚ) (hs : l.Sorted (fun a b => a ≤ b)) (i j : Nat)
    (hij : i ≤ j) (hj : j < l.length) : l.getD i 0 ≤ l.getD j 0 := by
  rw [List.getD_eq_getElem _ _ hj, List.getD_eq_getElem _ _ (lt_of_le_of_lt hij hj)]
  rcases Nat.eq_or_lt_of_le hij with h | h
  · subst h; exact le_refl _
  · exact List.pairwise_iff_getElem.mp hs i j _ _ h

/-- The retained contributions are in ascending order and below 1, whatever
the subset sampler returns. -/
theorem retain_sorted (pickSet : Nat → Nat → (Nat → Nat) → List Nat × (Nat → Nat))
    (e : Estimator) (hlen : e.samples.length = e.contrib.length)
    (g : Nat → Nat) (smp : List Int) (ctr : List ℚ)
    (h : retain pickSet e = some (g, smp, ctr)) :
    ctr.Sorted (fun a b => a ≤ b) ∧ ∀ c ∈ ctr, c < 1 := by
  unfold retain at h
  rw [collect_sorted e.samples e.contrib hlen] at h
  simp only at h
  have htmp_sorted : (((sort_indexes e.contrib).filter
      (fun i => decide (e.contrib.getD i 0 < 1))).map (fun i => e.contrib.getD i 0)).Sorted
        (fun a b => a ≤ b) := by
    rw [kept_values]; exact List.sorted_insertionSort _ _
  have htmp_lt : ∀ c ∈ ((sort_indexes e.contrib).filter
      (fun i => decide (e.contrib.getD i 0 < 1))).map (fun i => e.contrib.getD i 0), c < 1 := by
    intro c hc
    obtain ⟨i, hi, rfl⟩ := List.mem_map.mp hc
    simpa using (List.mem_filter.mp hi).2
  split at h
  · cases hg : gatherPicked
        (((sort_indexes e.contrib).filter (fun i => decide (e.contrib.getD i 0 < 1))).map
          (fun i => e.samples.getD i 0))
        (((sort_indexes e.contrib).filter (fun i => decide (e.contrib.getD i 0 < 1))).map
          (fun i => e.contrib.getD i 0))
        ((pickSet (((sort_indexes e.contrib).filter
            (fun i => decide (e.contrib.getD i 0 < 1))).map
              (fun i => e.samples.getD i 0)).length 50000 e.rng).1.insertionSort
          (fun a b => a ≤ b)) ([], []) with
    | none => rw [hg] at h; simp at h
    | some r =>
      rw [hg] at h
      simp only [Option.map_some', Option.some.injEq, Prod.mk.injEq] at h
      obtain ⟨hr, hrange⟩ := gatherPicked_some _ _ _ _ _ hg
      simp only [List.nil_append] at hr
      rw [← h.2.2, hr]
      refine ⟨?_, ?_⟩
      · apply List.pairwise_map.mpr
        refine List.Pairwise.imp_of_mem ?_
          (List.sorted_insertionSort (fun a b : Nat => a ≤ b) _)
        intro a b _ hb hab
        exact sorted_getD_mono _ htmp_sorted a b hab (hrange b hb)
      · intro c hc
        obtain ⟨i, hi, rfl⟩ := List.mem_map.mp hc
        apply htmp_lt
        rw [List.getD_eq_getElem _ _ (hrange i hi)]
        exact List.getElem_mem _
  · simp only [Option.some.injEq, Prod.mk.injEq] at h
    rw [← h.2.2]
    exact ⟨htmp_sorted, htmp_lt⟩

theorem sort_indexes_of_sorted (v : List ℚ) (hs : v.Sorted (fun a b => a ≤ b)) :
    sort_indexes v = List.range v.length := by
  unfold sort_indexes
  apply List.Sorted.insertionSort_eq
  rw [List.Sorted, List.pairwise_iff_getElem]
  intro i j hi hj hij
  simp only [List.length_range] at hi hj
  simp only [List.getElem_range]
  exact sorted_getD_mono v hs i j (le_of_lt hij) hj

/-! ## Ring statistics at collision probability 1 -/

theorem ringStep_unit (samples : List Int) (contrib : List ℚ) (thresh : ℚ)
    (hsorted : contrib.Sorted (fun a b => a ≤ b)) (hlt : ∀ c ∈ contrib, c < 1)
    (hth : 0 < thresh) (lo0 s : Nat) (acc b : RingAcc)
    (hQ : UnitScanInv contrib thresh lo0 s acc)
    (h : ringStep (fun _ => 1) samples contrib thresh acc s = some b) :
    UnitScanInv contrib thresh lo0 (s + 1) b := by
  obtain ⟨q1, q2, q3, q4, q5, q6, q7, q8⟩ := hQ
  unfold ringStep at h
  cases hc : contrib[s]? with
  | none => rw [hc] at h; simp at h
  | some c =>
    rw [hc] at h
    simp only at h
    have hs : s < contrib.length := by
      by_contra hge
      rw [List.getElem?_eq_none (not_lt.mp hge)] at hc
      simp at hc
    have hget : contrib.getD s 0 = c := by
      rw [List.getD_eq_getElem?_getD, hc]; rfl
    have hc1 : c < 1 := hlt c (List.getElem?_mem hc)
    by_cases hlow : c < thresh
    · rw [if_pos hlow] at h
      simp only [Option.some.injEq] at h
      subst h
      refine ⟨q1, q2, q3, ?_, q5, q6, ?_, ?_⟩
      · intro x hx j hj hjl
        exact q4 x hx j (by omega) hjl
      · intro j hj1 hj2 hj3
        rcases Nat.eq_or_lt_of_le (Nat.le_of_lt_succ hj2) with hjs | hjs
        · subst hjs
          rw [hget] at hj3
          exact absurd hlow (not_lt.mpr hj3)
        · exact q7 j hj1 hjs hj3
      · simp only; omega
    · rw [if_neg hlow] at h
      cases hsm : samples[s]? with
      | none => rw [hsm] at h; simp at h
      | some idx =>
        rw [hsm] at h
        simp only [Option.some.injEq] at h
        subst h
        have hcth : thresh ≤ c := not_lt.mp hlow
        have hcpos : 0 < c := lt_of_lt_of_le hth hcth
        have hall : ∀ x ∈ acc.wp, x ≤ c := by
          intro x hx
          have := q4 x hx s (le_refl _) hs
          rwa [hget] at this
        refine ⟨?_, ?_, ?_, ?_, ?_, ?_, ?_, ?_⟩
        · simp only [div_one, q1]
        · simp only [div_one]
          rw [List.Sorted, List.pairwise_append]
          refine ⟨q2, List.pairwise_singleton _ _, ?_⟩
          intro x hx y hy
          simp only [List.mem_singleton] at hy
          subst hy
          exact hall x hx
        · intro x hx
          simp only [div_one, List.mem_append, List.mem_singleton] at hx
          rcases hx with hx | hx
          · exact q3 x hx
          · subst hx; exact ⟨hcth, hc1⟩
        · intro x hx j hj hjl
          simp only [div_one, List.mem_append, List.mem_singleton] at hx
          rcases hx with hx | hx
          · exact q4 x hx j (by omega) hjl
          · subst hx
            rw [← hget]
            exact sorted_getD_mono contrib hsorted s j (by omega) hjl
        · simp only [q5, min_self]
        · right
          simp only [div_one]
          rcases q6 with ⟨e1, e2, e3, e4⟩ | ⟨e1, e2, e3⟩
          · rw [e1, e2, e3, e4]
            refine ⟨?_, ?_, ?_⟩
            · simp [max_eq_left (le_of_lt hcpos)]
            · simp [min_eq_left (le_of_lt hc1)]
            · simp
          · have hwmax : acc.w_max ≤ c := hall _ (List.mem_of_getLast?_eq_some e1)
            have hwmin : acc.w_min ≤ c := hall _ (List.mem_of_mem_head? e2)
            refine ⟨?_, ?_, ?_⟩
            · simp [max_eq_left hwmax]
            · rw [List.head?_append_of_ne_nil _ (by intro hnil; rw [hnil] at e2; simp at e2), e2,
                min_eq_right hwmin]
            · rw [e3]; simp
        · intro _ _ _ _
          simp
        · simp only [div_one, List.length_append, List.length_singleton]
          omega

theorem ringScan_unit (samples : List Int) (contrib : List ℚ) (thresh : ℚ)
    (hsorted : contrib.Sorted (fun a b => a ≤ b)) (hlt : ∀ c ∈ contrib, c < 1)
    (hth : 0 < thresh) (lo0 : Nat) :
    ∀ (len s : Nat) (acc r : RingAcc), UnitScanInv contrib thresh lo0 s acc →
      (List.range' s len).foldlM (ringStep (fun _ => 1) samples contrib thresh) acc = some r →
      UnitScanInv contrib thresh lo0 (s + len) r := by
  intro len
  induction len with
  | zero =>
    intro s acc r hQ h
    simp only [List.range'_zero, List.foldlM_nil] at h
    cases h
    exact hQ
  | succ len ih =>
    intro s acc r hQ h
    simp only [List.range'_succ, List.foldlM_cons] at h
    cases hb : ringStep (fun _ => 1) samples contrib thresh acc s with
    | none => rw [hb] at h; simp at h
    | some b =>
      rw [hb] at h
      have := ih (s + 1) b r
        (ringStep_unit samples contrib thresh hsorted hlt hth lo0 s acc b hQ hb) h
      rwa [show s + 1 + len = s + (len + 1) by omega] at this

theorem ringStats_unit (samples : List Int) (contrib : List ℚ) (thresh : ℚ)
    (hsorted : contrib.Sorted (fun a b => a ≤ b)) (hlt : ∀ c ∈ contrib, c < 1)
    (hth : 0 < thresh) (n : Nat) (ss : List Nat) (i lo hi : Nat)
    (r : RingAcc × List Nat × List ℚ × List Nat × List ℚ)
    (hlo : ss[3 - i]? = some lo) (hhi : ss[4 - i]? = some hi)
    (h : ringStats (fun _ => 1) samples contrib thresh n ss i = some r) :
    UnitRing thresh r ∧
    (∀ j, lo ≤ j → j < hi → thresh ≤ contrib.getD j 0 → r.1.wp ≠ []) ∧
    r.1.wp.length ≤ hi - lo := by
  unfold ringStats at h
  rw [hlo, hhi] at h
  simp only at h
  cases hscan : ringScan (fun _ => 1) samples contrib thresh lo hi with
  | none => rw [hscan] at h; simp at h
  | some acc =>
    rw [hscan] at h
    simp only [Option.some.injEq] at h
    subst h
    have hinit : UnitScanInv contrib thresh lo lo
        { u := 0, w_max := 0, w_min := 1, pmin := 1, pmax := 0, wpp := [], wp := [] } := by
      refine ⟨rfl, List.sorted_nil, ?_, ?_, rfl, Or.inl ⟨rfl, rfl, rfl, rfl⟩, ?_, ?_⟩
      · intro x hx; simp at hx
      · intro x hx; simp at hx
      · intro j h1 h2; omega
      · simp
    obtain ⟨q1, q2, q3, -, q5, q6, q7, q8⟩ :=
      ringScan_unit samples contrib thresh hsorted hlt hth lo (hi - lo) lo _ acc hinit hscan
    refine ⟨⟨?_, ?_, ?_, ?_, q2, q3, q5, q6⟩, ?_, ?_⟩
    · simp only
      exact sort_indexes_of_sorted acc.wp q2
    · simp only
      rw [sort_indexes_of_sorted acc.wp q2]
      exact map_getD_range acc.wp 0
    · simp only
      rw [q1, sort_indexes_of_sorted acc.wp q2]
    · simp only
      rw [q1, sort_indexes_of_sorted acc.wp q2, map_getD_range acc.wp 0]
    · intro j h1 h2 h3
      exact q7 j h1 (by omega) h3
    · simp only
      omega

theorem subSize_one (n : Nat) (h1 : 1 ≤ n) (h2 : n < 2 ^ 64) : subSize n 1 = n - 1 := by
  unfold subSize
  have : n + 2 ^ 64 - 1 = (n - 1) + 2 ^ 64 := by omega
  rw [this, Nat.add_mod_right, Nat.mod_eq_of_lt (by omega)]

/-- The ends of a sorted non-empty array of values in `[thresh, 1)`. -/
theorem unit_ends (thresh : ℚ) (hth : 0 < thresh) (wp : List ℚ) (wmax wmin : ℚ)
    (hs : wp.Sorted (fun a b => a ≤ b)) (hb : ∀ x ∈ wp, thresh ≤ x ∧ x < 1)
    (hlast : wp.getLast? = some wmax) (hhead : wp.head? = some wmin) :
    0 < wmin ∧ wmin ≤ wmax ∧ 0 < wp.length := by
  have hmin_mem : wmin ∈ wp := List.mem_of_mem_head? hhead
  have hpos : 0 < wmin := lt_of_lt_of_le hth (hb wmin hmin_mem).1
  have hlen : 0 < wp.length := List.length_pos_of_mem hmin_mem
  refine ⟨hpos, ?_, hlen⟩
  rw [List.getLast?_eq_getElem?, List.getElem?_eq_getElem (by omega)] at hlast
  rw [List.head?_eq_getElem?, List.getElem?_eq_getElem hlen] at hhead
  simp only [Option.some.injEq] at hlast hhead
  have := sorted_getD_mono wp hs 0 (wp.length - 1) (Nat.zero_le _) (by omega)
  rw [List.getD_eq_getElem _ _ hlen, List.getD_eq_getElem _ _ (by omega), hlast, hhead] at this
  exact this

theorem diag_unit (wp : List ℚ) (wmax wmin : ℚ)
    (hlast : wp.getLast? = some wmax) (hhead : wp.head? = some wmin)
    (hle : wmin ≤ wmax) (hpos : 0 < wmin) (hlen : 0 < wp.length) :
    diagOuter (List.range wp.length) (List.range wp.length).reverse wp wp.reverse 10 0 (1 / 1)
      = some (wmax / wmin) := by
  obtain ⟨k, hk⟩ : ∃ k, wp.length = k + 1 := ⟨wp.length - 1, by omega⟩
  have hpp : (List.range wp.length).reverse[0]? = some k := by
    rw [hk, List.range_succ, List.reverse_append]
    simp
  have hinner : diagInner k (List.range wp.length) 0 = some 0 := by
    rw [hk, List.range_succ_eq_map]
    simp [diagInner]
  have hpps : wp.reverse[0]? = some wmax := by
    rw [← List.head?_eq_getElem?, List.head?_reverse, hlast]
  have hps : wp[0]? = some wmin := by
    rw [← List.head?_eq_getElem?, hhead]
  have hp0 : (List.range wp.length)[0]? = some 0 := by
    rw [hk, List.range_succ_eq_map]
    simp
  have hone : (1 : ℚ) ≤ wmax / wmin := by
    rw [le_div_iff₀ hpos]
    linarith
  simp only [diagOuter, hpp, hinner, hpps, hps, hp0, and_self, true_or, if_true]
  rw [div_one, max_eq_right hone]

theorem sup1Of_unit (e : Estimator) (thresh : ℚ) (hth : 0 < thresh) (i j : Nat)
    (ri rj : RingAcc × List Nat × List ℚ × List Nat × List ℚ)
    (hi : RingOf e i ri) (hj : RingOf e j rj)
    (ui : UnitRing thresh ri) (uj : UnitRing thresh rj)
    (nei : ri.1.wp ≠ []) (nej : rj.1.wp ≠ []) (hsize : ri.1.wp.length < 2 ^ 64) :
    sup1Of e i j = some (ri.1.w_max / rj.1.w_min) := by
  obtain ⟨a1, a2, a3, a4, a5, a6, a7, a8⟩ := hi
  obtain ⟨b1, b2, b3, b4, b5, b6, b7, b8⟩ := hj
  obtain ⟨c1, c2, c3, c4, c5, c6, c7, c8⟩ := ui
  obtain ⟨d1, d2, d3, d4, d5, d6, d7, d8⟩ := uj
  rcases c8 with ⟨hnil, -⟩ | ⟨ilast, ihead, -⟩
  · exact absurd hnil nei
  rcases d8 with ⟨hnil, -⟩ | ⟨jlast, jhead, -⟩
  · exact absurd hnil nej
  obtain ⟨ipos, ile, ilen⟩ := unit_ends thresh hth _ _ _ c5 c6 ilast ihead
  obtain ⟨jpos, jle, jlen⟩ := unit_ends thresh hth _ _ _ d5 d6 jlast jhead
  unfold sup1Of
  by_cases hij : i = j
  · subst hij
    have hw : rj.1.w_min = ri.1.w_min := by
      rw [a7] at b7
      simpa using b7.symm
    rw [if_pos rfl, a5, a1, a3, a2, a4]
    simp only
    rw [c1, c3, c2, c4, c7, hw]
    exact diag_unit _ _ _ ilast ihead ile ipos ilen
  · rw [if_neg hij]
    by_cases hlt : i < j
    · rw [if_pos hlt, a4, b2]
      simp only
      rw [c4, d2]
      have h1 : ri.1.wp.reverse[0]? = some ri.1.w_max := by
        rw [← List.head?_eq_getElem?, List.head?_reverse, ilast]
      have h2 : rj.1.wp[0]? = some rj.1.w_min := by
        rw [← List.head?_eq_getElem?, jhead]
      rw [h1, h2]
    · rw [if_neg hlt, a2, b7]
      simp only
      rw [c2, subSize_one _ (by omega) hsize, ← List.getLast?_eq_getElem?, ilast]

theorem foldlM_option_congr {α β : Type} (f g : β → α → Option β) :
    ∀ (l : List α) (a : β), (∀ b x, x ∈ l → f b x = g b x) → l.foldlM f a = l.foldlM g a := by
  intro l
  induction l with
  | nil => intro a _; rfl
  | cons x t ih =>
    intro a h
    simp only [List.foldlM_cons]
    rw [h a x (List.mem_cons_self _ _)]
    cases hg : g a x with
    | none => rfl
    | some b => exact ih b (fun b y hy => h b y (List.mem_cons_of_mem _ hy))

theorem vbInner_unit (e : Estimator) (thresh : ℚ) (hth : 0 < thresh)
    (R : Nat → RingAcc × List Nat × List ℚ × List Nat × List ℚ)
    (hR : ∀ i, i < 4 → RingOf e i (R i) ∧ UnitRing thresh (R i) ∧ (R i).1.wp.length < 2 ^ 64)
    (hne : ∀ i, i < 3 → ringSkipped e i = some false → (R i).1.wp ≠ [])
    (hu : e.u.length = 4) (i : Nat) (hi : i < 3) (hski : ringSkipped e i = some false)
    (up : ℚ) (j : Nat) (hj : j ∈ [0, 1, 2]) :
    vbHBEInner e i up j = vbRSInner e i up j := by
  have hj3 : j < 3 := by simp at hj; omega
  unfold vbHBEInner vbRSInner
  cases hskj : ringSkipped e j with
  | none => rfl
  | some b =>
    cases b with
    | true => rfl
    | false =>
      obtain ⟨ri, ui, si⟩ := hR i (by omega)
      obtain ⟨rj, uj, _⟩ := hR j (by omega)
      have hsup := sup1Of_unit e thresh hth i j _ _ ri rj ui uj (hne i hi hski)
        (hne j hj3 hskj) si
      obtain ⟨x, hx, -⟩ := read_some e.u i (by omega)
      obtain ⟨y, hy, -⟩ := read_some e.u j (by omega)
      simp only [hsup, hx, hy, ri.2.2.2.2.2.2.2, rj.2.2.2.2.2.2.1]

theorem vbOuter_unit (e : Estimator) (thresh : ℚ) (hth : 0 < thresh)
    (R : Nat → RingAcc × List Nat × List ℚ × List Nat × List ℚ)
    (hR : ∀ i, i < 4 → RingOf e i (R i) ∧ UnitRing thresh (R i) ∧ (R i).1.wp.length < 2 ^ 64)
    (hne : ∀ i, i < 3 → ringSkipped e i = some false → (R i).1.wp ≠ [])
    (hne3 : (R 3).1.wp ≠ [])
    (hu : e.u.length = 4) (t2 up : ℚ) (i : Nat) (hi : i ∈ [0, 1, 2]) :
    vbHBEOuter e t2 up i = vbRSOuter e t2 up i := by
  have hi3 : i < 3 := by simp at hi; omega
  unfold vbHBEOuter vbRSOuter
  cases hski : ringSkipped e i with
  | none => rfl
  | some b =>
    cases b with
    | true => rfl
    | false =>
      simp only
      rw [foldlM_option_congr (vbHBEInner e i) (vbRSInner e i) [0, 1, 2] up
        (fun b x hx => vbInner_unit e thresh hth R hR hne hu i hi3 hski b x hx)]
      cases hfold : [0, 1, 2].foldlM (vbRSInner e i) up with
      | none => rfl
      | some up1 =>
        obtain ⟨ri, ui, _⟩ := hR i (by omega)
        obtain ⟨r3, u3, _⟩ := hR 3 (by omega)
        obtain ⟨x, hx, -⟩ := read_some e.u i (by omega)
        have hlast_i : (R i).1.wp.getLast? = some (R i).1.w_max := by
          rcases ui.2.2.2.2.2.2.2 with ⟨hnil, -⟩ | ⟨h1, -, -⟩
          · exact absurd hnil (hne i hi3 hski)
          · exact h1
        have hpmax3 : (R 3).1.pmax = 1 := by
          rcases u3.2.2.2.2.2.2.2 with ⟨hnil, -⟩ | ⟨-, -, h1⟩
          · exact absurd hnil hne3
          · exact h1
        have hpps0 : (R i).2.2.2.2[0]? = some (R i).1.w_max := by
          rw [ui.2.2.2.1, ← List.head?_eq_getElem?, List.head?_reverse, hlast_i]
        simp only [ri.2.2.2.1, r3.2.2.2.2.2.1, hx, hpps0, ri.2.2.2.2.2.2.2, hpmax3, mul_one]

/-- When every ring holds the statistics of collision probability `1`, ring
3 and every ring that is not skipped hold a value of at least `thresh`, then
`vbHBE` and `vbRS` compute the same thing. -/
theorem vbHBE_eq_vbRS_unit (e : Estimator) (thresh : ℚ) (hth : 0 < thresh)
    (R : Nat → RingAcc × List Nat × List ℚ × List Nat × List ℚ)
    (hR : ∀ i, i < 4 → RingOf e i (R i) ∧ UnitRing thresh (R i) ∧ (R i).1.wp.length < 2 ^ 64)
    (hne : ∀ i, i < 3 → ringSkipped e i = some false → (R i).1.wp ≠ [])
    (hne3 : (R 3).1.wp ≠ []) (hu : e.u.length = 4) :
    vbHBE e = vbRS e := by
  obtain ⟨r3, u3, s3⟩ := hR 3 (by omega)
  have hlast : (R 3).1.wp.getLast? = some (R 3).1.w_max := by
    rcases u3.2.2.2.2.2.2.2 with ⟨hnil, -⟩ | ⟨h1, -, -⟩
    · exact absurd hnil hne3
    · exact h1
  have hlen : 0 < (R 3).1.wp.length := List.length_pos.mpr hne3
  unfold vbHBE vbRS
  rw [r3.2.1, r3.2.2.2.2.2.2.2]
  simp only
  rw [u3.2.1, subSize_one _ (by omega) s3, ← List.getLast?_eq_getElem?, hlast]
  cases hu3 : e.u[3]? with
  | none => rfl
  | some x =>
    cases ht : t2Factor e with
    | none => rfl
    | some t2 =>
      simp only
      exact foldlM_option_congr _ _ _ _
        (fun b i hi => vbOuter_unit e thresh hth R hR hne hne3 hu t2 b i hi)

/-! ## The equality of vbHBE and vbRS on states with non-decreasing offsets -/

/-- The equality of C7 on every state with non-decreasing offsets: after
`getConstants` and `findRings` (strategy 0 or 1) on a record of non-negative
kernel values, if every collision probability is `1`, the five offsets are
non-decreasing, ring 3 holds a contribution of at least `thresh`, and so does
every ring among 0, 1, 2 whose span is not empty, then `vbRS` and `vbHBE`
return the same value. -/
theorem vbHBE_eq_vbRS_of_monotone_offsets
    (pickSet : Nat → Nat → (Nat → Nat) → List Nat × (Nat → Nat))
    (prob : ℚ → Int → Int → ℚ) (strategy : Int) (eps : ℚ) (level : Nat)
    (e e1 e2 : Estimator) (hlen : e.samples.length = e.contrib.length)
    (hs : strategy = 0 ∨ strategy = 1) (hnn : ∀ c ∈ e.contrib, (0 : ℚ) ≤ c)
    (h1 : getConstants pickSet e = some e1)
    (h2 : findRings prob strategy eps level e1 = some e2)
    (hprob : ∀ w k idx, prob w k idx = 1)
    (hsize : e1.contrib.length < 2 ^ 64)
    (hmono : ∀ k x y, k < 4 → e2.set_start[k]? = some x → e2.set_start[k + 1]? = some y → x ≤ y)
    (hring3 : ∃ lo hi j, e2.set_start[0]? = some lo ∧ e2.set_start[1]? = some hi ∧
      lo ≤ j ∧ j < hi ∧ e2.thresh ≤ e1.contrib.getD j 0)
    (hrings : ∀ i lo hi, i < 3 → e2.set_start[3 - i]? = some lo →
      e2.set_start[4 - i]? = some hi → lo < hi →
      ∃ j, lo ≤ j ∧ j < hi ∧ e2.thresh ≤ e1.contrib.getD j 0) :
    ∃ v, vbRS e2 = some v ∧ vbHBE e2 = some v := by
  obtain ⟨v, hv, -⟩ : ∃ v, vbRS e2 = some v ∧ 0 ≤ v := by
    obtain ⟨hth, ⟨m, a, b, hss⟩, hu, hmin, hmax, hu0, hmax0, hmin0⟩ :=
      rings_ready pickSet prob strategy eps level e e1 e2 hs hnn h1 h2
    apply vbRS_nonneg e2 (by simp [hss]) hu hmin hmax hu0 hmax0
    · intro x hx
      have := hmin0 x hx
      rw [hth] at this
      exact lt_of_lt_of_le (by norm_num) this
    · intro s0 s1 h0 h1
      simp only [hss, List.getElem?_cons_zero, List.getElem?_cons_succ,
        Option.some.injEq] at h0 h1
      omega
  refine ⟨v, hv, ?_⟩
  rw [← hv]
  obtain ⟨g, smp, ctr, m, u3, hret, -, rfl⟩ := getConstants_eq_some pickSet e e1 h1
  obtain ⟨hsorted, hlt⟩ := retain_sorted pickSet e hlen g smp ctr hret
  obtain ⟨lam, lv, ss, w, k, r0, r1, r2, r3, hb, -, hr0, hr1, hr2, hr3, rfl⟩ :=
    findRings_eq_some prob strategy eps level _ e2 h2
  obtain ⟨a, b, hss⟩ := ringBounds_shape strategy eps _ lam lv ss hs hb
  have hp : prob w k = fun _ => 1 := funext (fun idx => hprob w k idx)
  simp only at hr0 hr1 hr2 hr3 hss hsize hmono hring3 hrings
  rw [hp] at hr0 hr1 hr2 hr3
  have hss' : ss = [0, m, a, b, ctr.length] := by rw [hss]; rfl
  subst hss'
  have hth : (0 : ℚ) < 1 / 10000000000 := by norm_num
  have m1 : m ≤ a := hmono 1 m a (by omega) rfl rfl
  have m2 : a ≤ b := hmono 2 a b (by omega) rfl rfl
  have m3 : b ≤ ctr.length := hmono 3 b ctr.length (by omega) rfl rfl
  obtain ⟨U0, N0, L0⟩ := ringStats_unit smp ctr _ hsorted hlt hth _ _ 0 b ctr.length r0 rfl rfl hr0
  obtain ⟨U1, N1, L1⟩ := ringStats_unit smp ctr _ hsorted hlt hth _ _ 1 a b r1 rfl rfl hr1
  obtain ⟨U2, N2, L2⟩ := ringStats_unit smp ctr _ hsorted hlt hth _ _ 2 m a r2 rfl rfl hr2
  obtain ⟨U3, N3, L3⟩ := ringStats_unit smp ctr _ hsorted hlt hth _ _ 3 0 m r3 rfl rfl hr3
  apply vbHBE_eq_vbRS_unit _ (1 / 10000000000) hth
    (fun i => match i with
      | 0 => r0
      | 1 => r1
      | 2 => r2
      | _ => r3)
  · intro i hi
    match i, hi with
    | 0, _ =>
      exact ⟨⟨rfl, rfl, rfl, rfl, rfl, rfl, rfl, rfl⟩, U0,
        by show r0.1.wp.length < 2 ^ 64; omega⟩
    | 1, _ =>
      exact ⟨⟨rfl, rfl, rfl, rfl, rfl, rfl, rfl, rfl⟩, U1,
        by show r1.1.wp.length < 2 ^ 64; omega⟩
    | 2, _ =>
      exact ⟨⟨rfl, rfl, rfl, rfl, rfl, rfl, rfl, rfl⟩, U2,
        by show r2.1.wp.length < 2 ^ 64; omega⟩
    | 3, _ =>
      exact ⟨⟨rfl, rfl, rfl, rfl, rfl, rfl, rfl, rfl⟩, U3,
        by show r3.1.wp.length < 2 ^ 64; omega⟩
  · intro i hi hsk
    match i, hi with
    | 0, _ =>
      have hne : b ≠ ctr.length := by simpa [ringSkipped] using hsk
      obtain ⟨j, j1, j2, j3⟩ := hrings 0 b ctr.length (by omega) rfl rfl (by omega)
      exact N0 j j1 j2 j3
    | 1, _ =>
      have hne : a ≠ b := by simpa [ringSkipped] using hsk
      obtain ⟨j, j1, j2, j3⟩ := hrings 1 a b (by omega) rfl rfl (by omega)
      exact N1 j j1 j2 j3
    | 2, _ =>
      have hne : m ≠ a := by simpa [ringSkipped] using hsk
      obtain ⟨j, j1, j2, j3⟩ := hrings 2 m a (by omega) rfl rfl (by omega)
      exact N2 j j1 j2 j3
  · obtain ⟨lo, hi, j, hlo, hhi, j1, j2, j3⟩ := hring3
    simp only [List.getElem?_cons_zero, List.getElem?_cons_succ, Option.some.injEq] at hlo hhi
    subst hlo
    subst hhi
    exact N3 j j1 j2 j3
  · simp


theorem sixRecord_offsets :
    ((findRings unitProb 1 (1 / 2) 0
      ((getConstants idlePick (blankEstimator 6 1 [1] [0, 1, 2, 3, 4, 5]
        [1 / 10, 2 / 10, 3 / 10, 4 / 10, 5 / 10, 6 / 10])).get
          sixRecord_getConstants_isSome)).get sixRecord_findRings_isSome).set_start
      = [0, 3, 4, 5, 6] := by
  decide!

theorem sixRecord_contrib :
    ((getConstants idlePick (blankEstimator 6 1 [1] [0, 1, 2, 3, 4, 5]
        [1 / 10, 2 / 10, 3 / 10, 4 / 10, 5 / 10, 6 / 10])).get
          sixRecord_getConstants_isSome).contrib
      = [1 / 10, 2 / 10, 3 / 10, 4 / 10, 5 / 10, 6 / 10] := by
  decide!

theorem sixRecord_thresh :
    ((findRings unitProb 1 (1 / 2) 0
      ((getConstants idlePick (blankEstimator 6 1 [1] [0, 1, 2, 3, 4, 5]
        [1 / 10, 2 / 10, 3 / 10, 4 / 10, 5 / 10, 6 / 10])).get
          sixRecord_getConstants_isSome)).get sixRecord_findRings_isSome).thresh
      = 1 / 10000000000 := by
  decide!

/-- The equality of C7 on six contributions `0.1 .. 0.6` (strategy 1,
`eps = 0.5`, offsets `[0, 3, 4, 5, 6]`). -/
theorem vbHBE_eq_vbRS_of_monotone_offsets_example :
    ∃ e1 e2 : Estimator,
      getConstants idlePick (blankEstimator 6 1 [1] [0, 1, 2, 3, 4, 5]
        [1 / 10, 2 / 10, 3 / 10, 4 / 10, 5 / 10, 6 / 10]) = some e1 ∧
      findRings unitProb 1 (1 / 2) 0 e1 = some e2 ∧
      ∃ v, vbRS e2 = some v ∧ vbHBE e2 = some v := by
  refine ⟨_, _, (Option.some_get sixRecord_getConstants_isSome).symm,
    (Option.some_get sixRecord_findRings_isSome).symm, ?_⟩
  apply vbHBE_eq_vbRS_of_monotone_offsets idlePick unitProb 1 (1 / 2) 0
    (blankEstimator 6 1 [1] [0, 1, 2, 3, 4, 5]
      [1 / 10, 2 / 10, 3 / 10, 4 / 10, 5 / 10, 6 / 10]) _ _ rfl (Or.inr rfl) _
    (Option.some_get sixRecord_getConstants_isSome).symm
    (Option.some_get sixRecord_findRings_isSome).symm (fun _ _ _ => rfl)
  · rw [sixRecord_contrib]; norm_num
  · intro k x y hk hx hy
    rw [sixRecord_offsets] at hx hy
    interval_cases k <;> simp at hx hy <;> omega
  · refine ⟨0, 3, 0, ?_, ?_, le_refl _, by norm_num, ?_⟩
    · rw [sixRecord_offsets]; rfl
    · rw [sixRecord_offsets]; rfl
    · rw [sixRecord_thresh, sixRecord_contrib]; norm_num
  · intro i lo hi hi3 hlo hhi hlt
    rw [sixRecord_offsets] at hlo hhi
    rw [sixRecord_thresh, sixRecord_contrib]
    interval_cases i <;> simp at hlo hhi <;> subst hlo <;> subst hhi
    · exact ⟨5, by norm_num, by norm_num, by norm_num⟩
    · exact ⟨4, by norm_num, by norm_num, by norm_num⟩
    · exact ⟨3, by norm_num, by norm_num, by norm_num⟩
  · intro c hc
    simp [blankEstimator] at hc
    rcases hc with h | h | h | h | h | h <;> rw [h] <;> norm_num

/-! ## The ring offsets in general -/

theorem s4Scan_bounds (contrib : List ℚ) (u_global : ℚ) :
    ∀ (fuel i : Nat) (u3 : ℚ) (m : Nat) (u : ℚ),
      s4Scan contrib u_global fuel i u3 = some (m, u) →
      i ≤ m ∧ m < contrib.length ∧ subSize m 1 < contrib.length := by
  intro fuel
  induction fuel with
  | zero => intro i u3 m u h; simp [s4Scan] at h
  | succ fuel ih =>
    intro i u3 m u h
    simp only [s4Scan] at h
    cases hc : contrib[i]? with
    | none => rw [hc] at h; simp at h
    | some c =>
      rw [hc] at h
      simp only at h
      have hi : i < contrib.length := by
        by_contra hge
        rw [List.getElem?_eq_none (not_lt.mp hge)] at hc
        simp at hc
      split at h
      · obtain ⟨h1, h2, h3⟩ := ih _ _ _ _ h
        exact ⟨by omega, h2, h3⟩
      · cases hp : contrib[subSize i 1]? with
        | none => rw [hp] at h; simp at h
        | some p =>
          rw [hp] at h
          simp only at h
          have hprev : subSize i 1 < contrib.length := by
            by_contra hge
            rw [List.getElem?_eq_none (not_lt.mp hge)] at hp
            simp at hp
          split at h
          · simp only [Option.some.injEq, Prod.mk.injEq] at h
            obtain ⟨rfl, -⟩ := h
            exact ⟨le_refl _, hi, hprev⟩
          · obtain ⟨h1, h2, h3⟩ := ih _ _ _ _ h
            exact ⟨by omega, h2, h3⟩

theorem fwdScan_bounds (sample_count : Nat) (min_u : ℚ) :
    ∀ (l : List ℚ) (i : Nat) (s : ℚ),
      i ≤ (fwdScan sample_count min_u l i s).1 ∧
      (fwdScan sample_count min_u l i s).1 ≤ i + l.length := by
  intro l
  induction l with
  | nil => intro i s; simp [fwdScan]
  | cons c rest ih =>
    intro i s
    simp only [fwdScan]
    split
    · obtain ⟨h1, h2⟩ := ih (i + 1) (s + c / (sample_count : ℚ))
      simp only [List.length_cons]
      exact ⟨by omega, by omega⟩
    · simp

theorem bwdScan_bounds (contrib : List ℚ) (sample_count : Nat) (min_u : ℚ) (lo : Nat)
    (hlo : 1 ≤ lo) (hsize : contrib.length < 2 ^ 64) :
    ∀ (fuel i : Nat) (s : ℚ) (r : Nat × ℚ), i < contrib.length → lo ≤ i + 1 →
      bwdScan contrib sample_count min_u lo fuel i s = some r →
      lo ≤ r.1 + 1 ∧ r.1 ≤ i := by
  intro fuel
  induction fuel with
  | zero => intro i s r _ _ h; simp [bwdScan] at h
  | succ fuel ih =>
    intro i s r hi hle h
    simp only [bwdScan] at h
    split at h
    · rename_i hcond
      cases hc : contrib[i]? with
      | none => rw [hc] at h; simp at h
      | some c =>
        rw [hc] at h
        simp only at h
        have hsub : subSize i 1 = i - 1 := subSize_one i (by omega) (by omega)
        rw [hsub] at h
        obtain ⟨h1, h2⟩ := ih (i - 1) _ r (by omega) (by omega) h
        exact ⟨h1, by omega⟩
    · simp only [Option.some.injEq] at h
      subst h
      exact ⟨hle, le_refl _⟩

theorem subSize_two (n : Nat) (h1 : 2 ≤ n) (h2 : n < 2 ^ 64) : subSize n 2 = n - 2 := by
  unfold subSize
  have : n + 2 ^ 64 - 2 = (n - 2) + 2 ^ 64 := by omega
  rw [this, Nat.add_mod_right, Nat.mod_eq_of_lt (by omega)]

/-- The offsets that `findRings` (strategy 0 or 1) builds on top of
`set_start = [0, m]` with `1 ≤ m < n`: they are `[0, m, a, b, n]` with
`m ≤ a ≤ n` and `b ≤ n - 1`, and `a ≤ b` unless the forward scan has run to
the end of the array (`a = n`). -/
theorem ringBounds_offsets (strategy : Int) (eps : ℚ) (e : Estimator) (lam lv : ℚ)
    (ss : List Nat) (m : Nat) (hs : strategy = 0 ∨ strategy = 1)
    (hstart : e.set_start = [0, m]) (hm1 : 1 ≤ m) (hm2 : m < e.contrib.length)
    (hsize : e.contrib.length < 2 ^ 64)
    (h : ringBounds strategy eps e = some (lam, lv, ss)) :
    ∃ a b, ss = [0, m, a, b, e.contrib.length] ∧ m ≤ a ∧ a ≤ e.contrib.length ∧
      b + 1 ≤ e.contrib.length ∧ (a < e.contrib.length → a ≤ b) ∧
      (strategy = 0 → a = m ∧ b = m) := by
  unfold ringBounds at h
  rw [hstart] at h
  split at h
  · rename_i hcond
    simp only [List.getElem?_cons_succ, List.getElem?_cons_zero, Option.some.injEq,
      Prod.mk.injEq] at h
    refine ⟨m, m, ?_, le_refl _, by omega, by omega, fun _ => le_refl _, fun _ => ⟨rfl, rfl⟩⟩
    rw [← h.2.2]; rfl
  · rename_i hcond
    have hs1 : strategy = 1 := by
      rcases hs with h0 | h1
      · exact absurd (Or.inl h0) hcond
      · exact h1
    rw [if_pos hs1] at h
    split at h
    · rename_i u3 s1 hu3 hs1'
      simp only [List.getElem?_cons_succ, List.getElem?_cons_zero, Option.some.injEq] at hs1'
      subst hs1'
      simp only at h
      split at h
      · simp at h
      · split at h
        · simp at h
        · rename_i s2 hs2
          simp only [List.cons_append, List.nil_append, List.getElem?_cons_succ,
            List.getElem?_cons_zero, Option.some.injEq] at hs2
          split at h
          · simp at h
          · rename_i b' hb'
            split at h
            · simp at h
            · simp only [Option.some.injEq, Prod.mk.injEq] at h
              obtain ⟨f1, f2⟩ := fwdScan_bounds e.sample_count ((eps * e.u_global - u3) / 2)
                (e.contrib.drop m) m 0
              rw [List.length_drop] at f2
              rw [hs2] at f1 f2
              have hn1 : subSize e.contrib.length 1 = e.contrib.length - 1 :=
                subSize_one _ (by omega) hsize
              have hn2 : subSize e.contrib.length 2 = e.contrib.length - 2 :=
                subSize_two _ (by omega) hsize
              rw [hn1] at hb'
              obtain ⟨g1, g2⟩ := bwdScan_bounds e.contrib e.sample_count _ s2 (by omega) hsize
                _ _ _ b' (by omega) (by omega) hb'
              rw [hn2, hs2] at h
              refine ⟨s2, min (e.contrib.length - 2) b'.1 + 1, ?_, f1, by omega, ?_, ?_, ?_⟩
              · rw [← h.2.2]; rfl
              · have := min_le_left (e.contrib.length - 2) b'.1
                omega
              · intro ha
                rcases le_total (e.contrib.length - 2) b'.1 with hle | hle
                · rw [min_eq_left hle]; omega
                · rw [min_eq_right hle]; omega
              · intro h0
                rw [h0] at hs1
                exact absurd hs1 (by decide)
    · simp at h

/-- The offsets after `getConstants` and `findRings` (strategy 0 or 1), on
arrays that fit the address space: `[0, m, a, b, n]` with `n` the number of
retained contributions, `1 ≤ m ≤ a ≤ n`, `b ≤ n - 1`, and `a ≤ b` unless
`a = n`. -/
theorem findRings_offsets (pickSet : Nat → Nat → (Nat → Nat) → List Nat × (Nat → Nat))
    (prob : ℚ → Int → Int → ℚ) (strategy : Int) (eps : ℚ) (level : Nat)
    (e e1 e2 : Estimator) (hs : strategy = 0 ∨ strategy = 1)
    (h1 : getConstants pickSet e = some e1)
    (h2 : findRings prob strategy eps level e1 = some e2)
    (hsize : e1.contrib.length < 2 ^ 64) :
    ∃ m a b, e2.set_start = [0, m, a, b, e1.contrib.length] ∧ e2.contrib = e1.contrib ∧
      1 ≤ m ∧ m ≤ a ∧ a ≤ e1.contrib.length ∧ b + 1 ≤ e1.contrib.length ∧
      (a < e1.contrib.length → a ≤ b) ∧ (strategy = 0 → a = m ∧ b = m) := by
  obtain ⟨g, smp, ctr, m, u3, -, hscan, rfl⟩ := getConstants_eq_some pickSet e e1 h1
  obtain ⟨-, hm2, hm3⟩ := s4Scan_bounds _ _ _ _ _ _ _ hscan
  simp only at hsize
  have hm1 : 1 ≤ m := by
    by_contra h0
    have hz : m = 0 := by omega
    rw [hz] at hm3
    have : subSize 0 1 = 2 ^ 64 - 1 := by decide
    omega
  obtain ⟨lam, lv, ss, w, k, r0, r1, r2, r3, hb, -, -, -, -, -, rfl⟩ :=
    findRings_eq_some prob strategy eps level _ e2 h2
  obtain ⟨a, b, hss, p1, p2, p3, p4, p5⟩ :=
    ringBounds_offsets strategy eps _ lam lv ss m hs rfl hm1 hm2 hsize hb
  exact ⟨m, a, b, hss, rfl, hm1, p1, p2, p3, p4, p5⟩

/-! ## C11: the level confidence targets -/

/-- For `tau` in `(0,1)` the call of `buildLevels` returns, with `n ≥ 1`
levels laid out by the loop. -/
theorem buildLevels_returns (gamma : ℝ) (randomRelVar : ℝ → ℝ) (tau eps : ℝ)
    (h0 : 0 < tau) (h1 : tau < 1) :
    ∃ n : Nat, 1 ≤ n ∧ (n : Int) = ⌈Real.log (1 / tau) / Real.log 2⌉ ∧
      buildLevels gamma randomRelVar tau eps
        = some ((List.range n).foldl (levelStep gamma randomRelVar eps)
            { r := Real.sqrt (Real.log (1 / tau)), I := (n : Int),
              mui := List.replicate n 0, Mi := List.replicate n 0,
              ti := List.replicate n 0, ki := List.replicate n 0,
              wi := List.replicate n 0 }) := by
  have hlog2 : 0 < Real.log 2 := Real.log_pos (by norm_num)
  have hlog : 0 < Real.log (1 / tau) := by
    apply Real.log_pos
    rw [lt_div_iff₀ h0]
    linarith
  have hI : (0 : Int) < ⌈Real.log (1 / tau) / Real.log 2⌉ :=
    Int.ceil_pos.mpr (div_pos hlog hlog2)
  have hcast : (((⌈Real.log (1 / tau) / Real.log 2⌉).toNat : Nat) : Int)
      = ⌈Real.log (1 / tau) / Real.log 2⌉ := Int.toNat_of_nonneg (by omega)
  refine ⟨(⌈Real.log (1 / tau) / Real.log 2⌉).toNat, by omega, hcast, ?_⟩
  simp only [buildLevels, LOG2]
  rw [if_neg (by omega), hcast]

/-- When `samples ≥ N` the five-argument constructor assigns neither `lb`
nor the exponential-kernel parameters: they keep the values `raw` they had,
whereas the four-argument constructor sets `lb = tau` and, for the
exponential kernel, the parameters derived from the diameter.  Dataset,
kernel, point count and levels agree. -/
theorem construct5_early_return {Row Kern : Type} (c : Collab Row Kern) (seed seed2 : Nat)
    (raw : Scalars) (data : List Row) (k : Kern) (samples : Int) (tau eps : ℝ)
    (h0 : 0 < tau) (h1 : tau < 1) (hs : samples ≥ (data.length : Int)) :
    ∃ lv : Levels,
      construct4 c seed raw data k tau eps
        = some { rng := seed, X := data, kernel := k, numPoints := (data.length : Int),
                 exp_k := (expParams c raw data k tau).1,
                 exp_w := (expParams c raw data k tau).2,
                 lb := tau, levels := lv, samples := [], contrib := [] } ∧
      construct5 c seed seed2 raw data k samples tau eps
        = some { rng := seed, X := data, kernel := k, numPoints := (data.length : Int),
                 exp_k := raw.exp_k, exp_w := raw.exp_w, lb := raw.lb, levels := lv,
                 samples := [], contrib := [] } := by
  obtain ⟨n, -, -, hb⟩ := buildLevels_returns c.gamma c.randomRelVar tau eps h0 h1
  refine ⟨(List.range n).foldl (levelStep c.gamma c.randomRelVar eps)
    { r := Real.sqrt (Real.log (1 / tau)), I := (n : Int),
      mui := List.replicate n 0, Mi := List.replicate n 0,
      ti := List.replicate n 0, ki := List.replicate n 0,
      wi := List.replicate n 0 }, ?_, ?_⟩
  · simp only [construct4, hb]
  · simp only [construct5, hb]
    rw [if_pos hs]

/-- C14, at a dataset of three rows with the exponential kernel,
`subsampleCount = 3`, `tau = 0.01`, `eps = 0.1`: the four-argument
constructor leaves `lb = 0.01`, `exp_k = 2`, `exp_w = 3` (the values derived
by the helpers), whereas the five-argument constructor returns early and
leaves `lb`, `exp_k`, `exp_w` as it found them (here `0`); dataset, kernel
and point count agree. -/
theorem construct5_skips_lb_and_exp_params :
    (construct4 plainCollab 0 zeroScalars [0, 1, 2] true (1 / 100) (1 / 10)).map
        (fun b => (b.X, b.kernel, b.numPoints, b.lb, b.exp_k, b.exp_w))
      = some ([0, 1, 2], true, 3, 1 / 100, 2, 3) ∧
    (construct5 plainCollab 0 0 zeroScalars [0, 1, 2] true 3 (1 / 100) (1 / 10)).map
        (fun b => (b.X, b.kernel, b.numPoints, b.lb, b.exp_k, b.exp_w))
      = some ([0, 1, 2], true, 3, 0, 0, 0) := by
  obtain ⟨lv, h4, h5⟩ := construct5_early_return plainCollab 0 0 zeroScalars [0, 1, 2] true 3
    (1 / 100) (1 / 10) (by norm_num) (by norm_num) (by norm_num)
  rw [h4, h5]
  simp [expParams, plainCollab, zeroScalars]

/-! ## C12: the two sequences of the record have equal length -/

theorem evaluateQuery_lengths (dens : Nat → ℚ) (median : List ℚ → ℚ) (level : Nat)
    (e : Estimator) (hlen : e.samples.length = e.contrib.length) (r : Option ℚ × ℚ)
    (e' : Estimator) (h : evaluateQuery dens median level e = some (r, e')) :
    e'.samples.length = e'.contrib.length := by
  cases hm : e.Mi[level]? with
  | none => simp [evaluateQuery, hm] at h
  | some m =>
    by_cases hbig : wrapInt ((e.L : Int) * m) > (e.numPoints : Int)
    · rw [evaluateQuery_exact dens median level e m hm hbig] at h
      simp only [Option.some.injEq, Prod.mk.injEq] at h
      rw [← h.2]
      simp
    · by_cases hneg : wrapInt ((e.L : Int) * m) < 0
      · rw [evaluateQuery_negative dens median level e m hm hneg] at h
        simp at h
      · obtain ⟨r2, e2, h2, -, -, hs, hc, -⟩ :=
          evaluateQuery_sampling dens median level e m hm (not_lt.mp hbig) (not_lt.mp hneg)
        rw [h2] at h
        simp only [Option.some.injEq, Prod.mk.injEq] at h
        rw [← h.2, hs, hc]
        simp [hlen]

theorem collectBelowOne_lengths (samples : List Int) (contrib : List ℚ) :
    ∀ (idxs : List Nat) (acc r : List Int × List ℚ), acc.1.length = acc.2.length →
      collectBelowOne samples contrib idxs acc = some r → r.1.length = r.2.length := by
  intro idxs
  induction idxs with
  | nil =>
    intro acc r hacc h
    simp only [collectBelowOne, Option.some.injEq] at h
    subst h
    exact hacc
  | cons i rest ih =>
    intro acc r hacc h
    simp only [collectBelowOne] at h
    split at h
    · simp at h
    · split at h
      · split at h
        · simp at h
        · exact ih _ _ (by simp [hacc]) h
      · simp only [Option.some.injEq] at h
        subst h
        exact hacc

theorem gatherPicked_lengths (tmp_samples : List Int) (tmp_weights : List ℚ) :
    ∀ (idxs : List Nat) (acc r : List Int × List ℚ), acc.1.length = acc.2.length →
      gatherPicked tmp_samples tmp_weights idxs acc = some r → r.1.length = r.2.length := by
  intro idxs
  induction idxs with
  | nil =>
    intro acc r hacc h
    simp only [gatherPicked, Option.some.injEq] at h
    subst h
    exact hacc
  | cons i rest ih =>
    intro acc r hacc h
    simp only [gatherPicked] at h
    split at h
    · simp at h
    · split at h
      · simp at h
      · exact ih _ _ (by simp [hacc]) h

/-- Both branches of lines 163-178 leave as many point indices as kernel
values, whatever the record and the sampler are. -/
theorem retain_lengths (pickSet : Nat → Nat → (Nat → Nat) → List Nat × (Nat → Nat))
    (e : Estimator) (g : Nat → Nat) (smp : List Int) (ctr : List ℚ)
    (h : retain pickSet e = some (g, smp, ctr)) : smp.length = ctr.length := by
  unfold retain at h
  split at h
  · simp at h
  · rename_i tmp htmp
    have h1 := collectBelowOne_lengths _ _ _ _ _ rfl htmp
    split at h
    · simp only at h
      cases hg : gatherPicked tmp.1 tmp.2
          ((pickSet tmp.1.length 50000 e.rng).1.insertionSort (fun a b => a ≤ b)) ([], []) with
      | none => rw [hg] at h; simp at h
      | some r =>
        rw [hg] at h
        simp only [Option.map_some', Option.some.injEq, Prod.mk.injEq] at h
        rw [← h.2.1, ← h.2.2]
        exact gatherPicked_lengths _ _ _ _ _ rfl hg
    · simp only [Option.some.injEq, Prod.mk.injEq] at h
      rw [← h.2.1, ← h.2.2]
      exact h1

theorem getConstants_lengths (pickSet : Nat → Nat → (Nat → Nat) → List Nat × (Nat → Nat))
    (e e' : Estimator) (h : getConstants pickSet e = some e') :
    e'.samples.length = e'.contrib.length ∧ e'.sample_count = e'.contrib.length := by
  obtain ⟨g, smp, ctr, m, u3, hret, -, rfl⟩ := getConstants_eq_some pickSet e e' h
  have := retain_lengths pickSet e g smp ctr hret
  exact ⟨this, this⟩

theorem findLevelLoop_lengths (dens : Nat → ℚ) (median : List ℚ → ℚ) (truth eps : ℚ) :
    ∀ (todo i : Nat) (e : Estimator) (r : Int) (e' : Estimator),
      e.samples.length = e.contrib.length →
      findLevelLoop dens median truth eps todo i e = some (r, e') →
      e'.samples.length = e'.contrib.length := by
  intro todo
  induction todo with
  | zero =>
    intro i e r e' hlen h
    simp only [findLevelLoop, Option.some.injEq, Prod.mk.injEq] at h
    rw [← h.2]
    exact hlen
  | succ todo ih =>
    intro i e r e' hlen h
    simp only [findLevelLoop] at h
    cases hev : evaluateQuery dens median i e with
    | none => rw [hev] at h; simp at h
    | some p =>
      obtain ⟨res, e1⟩ := p
      rw [hev] at h
      simp only at h
      have h1 := evaluateQuery_lengths dens median i e hlen res e1 hev
      split at h
      · simp only [Option.some.injEq, Prod.mk.injEq] at h
        rw [← h.2]
        exact h1
      · exact ih _ _ _ _ h1 h

theorem construct4_record {Row Kern : Type} (c : Collab Row Kern) (seed : Nat)
    (raw : Scalars) (data : List Row) (k : Kern) (tau eps : ℝ) (b : Built Row Kern)
    (h : construct4 c seed raw data k tau eps = some b) : b.samples = [] ∧ b.contrib = [] := by
  unfold construct4 at h
  split at h
  · simp at h
  · simp only [Option.some.injEq] at h
    subst h
    exact ⟨rfl, rfl⟩

theorem construct5_record {Row Kern : Type} (c : Collab Row Kern) (seed seed2 : Nat)
    (raw : Scalars) (data : List Row) (k : Kern) (samples : Int) (tau eps : ℝ)
    (b : Built Row Kern) (h : construct5 c seed seed2 raw data k samples tau eps = some b) :
    b.samples = [] ∧ b.contrib = [] := by
  unfold construct5 at h
  split at h
  · split at h
    · simp at h
    · simp only [Option.some.injEq] at h
      subst h
      exact ⟨rfl, rfl⟩
  · split at h
    · simp at h
    · simp only at h
      split at h
      · simp at h
      · split at h
        · simp at h
        · split at h
          · simp at h
          · simp only [Option.some.injEq] at h
            subst h
            exact ⟨rfl, rfl⟩

/-- C12: `samples.size() == contrib.size()` holds in the object either
constructor builds (both vectors are empty), and on every estimator where it
holds it still holds after `evaluateQuery` (either mode), after
`clearSamples`, after `getConstants` (with or without subsampling) and after
`findActualLevel`. -/
theorem record_lengths_agree {Row Kern : Type} (c : Collab Row Kern) (dens : Nat → ℚ)
    (median : List ℚ → ℚ) (pickSet : Nat → Nat → (Nat → Nat) → List Nat × (Nat → Nat))
    (truth eps : ℚ) (level : Nat) (e : Estimator)
    (hlen : e.samples.length = e.contrib.length) :
    (∀ seed raw data k tau eps' b, construct4 c seed raw data k tau eps' = some b →
      b.samples.length = b.contrib.length) ∧
    (∀ seed seed2 raw data k n tau eps' b,
      construct5 c seed seed2 raw data k n tau eps' = some b →
      b.samples.length = b.contrib.length) ∧
    (∀ r e', evaluateQuery dens median level e = some (r, e') →
      e'.samples.length = e'.contrib.length) ∧
    (clearSamples e).samples.length = (clearSamples e).contrib.length ∧
    (∀ e', getConstants pickSet e = some e' → e'.samples.length = e'.contrib.length) ∧
    (∀ r e', findActualLevel dens median truth eps e = some (r, e') →
      e'.samples.length = e'.contrib.length) := by
  refine ⟨?_, ?_, ?_, rfl, ?_, ?_⟩
  · intro seed raw data k tau eps' b h
    obtain ⟨h1, h2⟩ := construct4_record c seed raw data k tau eps' b h
    rw [h1, h2]
    rfl
  · intro seed seed2 raw data k n tau eps' b h
    obtain ⟨h1, h2⟩ := construct5_record c seed seed2 raw data k n tau eps' b h
    rw [h1, h2]
    rfl
  · intro r e' h
    exact evaluateQuery_lengths dens median level e hlen r e' h
  · intro e' h
    exact (getConstants_lengths pickSet e e' h).1
  · intro r e' h
    exact findLevelLoop_lengths dens median truth eps _ _ e r e' hlen h

/-- Witness of C12 on a record of three pairs. -/
theorem record_lengths_agree_witness :
    (∀ r e', evaluateQuery (fun _ => 1 / 2) midMedian 0
        (blankEstimator 3 1 [1, 5] [4, 5, 6] [1 / 2, 1 / 3, 1 / 4]) = some (r, e') →
      e'.samples.length = e'.contrib.length) ∧
    (∀ e', getConstants idlePick
        (blankEstimator 3 1 [1, 5] [4, 5, 6] [1 / 2, 1 / 3, 1 / 4]) = some e' →
      e'.samples.length = e'.contrib.length) :=
  ⟨(record_lengths_agree plainCollab (fun _ => 1 / 2) midMedian idlePick (1 / 2) (1 / 10) 0
      (blankEstimator 3 1 [1, 5] [4, 5, 6] [1 / 2, 1 / 3, 1 / 4]) rfl).2.2.1,
   (record_lengths_agree plainCollab (fun _ => 1 / 2) midMedian idlePick (1 / 2) (1 / 10) 0
      (blankEstimator 3 1 [1, 5] [4, 5, 6] [1 / 2, 1 / 3, 1 / 4]) rfl).2.2.2.2.1⟩

/-! ## C13: what evaluateQuery records -/

/-- The sampling-mode call of the witness, evaluated: the prior pair
`(7, 1/3)` is kept and two pairs are appended. -/
theorem evaluateQuery_sampling_keeps_prior_record :
    (evaluateQuery (fun _ => 1 / 2) midMedian 0 (blankEstimator 3 1 [2] [7] [1 / 3])).map
        (fun r => (r.1, r.2.samples, r.2.contrib))
      = some ((some (1 / 2), 2), [7, 0, 0], [1 / 3, 1 / 2, 1 / 2]) := by
  decide!

/-! ## C15: degenerate records -/

/-- With fewer than 3 retained contributions `findRings` takes the trivial
branch whatever the strategy: strategy 1 and strategy 0 give the same
result. -/
theorem findRings_degenerate (prob : ℚ → Int → Int → ℚ) (s1 s2 : Int) (eps1 eps2 : ℚ)
    (level : Nat) (e : Estimator) (h : e.sample_count < 3) :
    findRings prob s1 eps1 level e = findRings prob s2 eps2 level e := by
  have hb : ringBounds s1 eps1 e = ringBounds s2 eps2 e := by
    simp [ringBounds, h]
  simp only [findRings, hb]

/-- C15, at the degenerate records: with no retained contribution, with the
single retained contribution `0.5` (recorded next to a self value `1`, which
is discarded), and with the two equal retained contributions `0.5, 0.5`, the
S4 scan of `getConstants` reads `contrib[0]` of an empty array or
`contrib[i - 1]` at `i = 0`, out of range; with the two distinct
contributions `0.25, 0.5` it completes, and `findRings` then gives the
offsets `[0, 1, 1, 1, 2]` for strategy 1 as for strategy 0. -/
theorem getConstants_fails_on_degenerate_records :
    (getConstants idlePick (blankEstimator 2 1 [1] [] [])).isSome = false ∧
    (getConstants idlePick (blankEstimator 2 1 [1] [0, 1] [1, 1 / 2])).isSome = false ∧
    (getConstants idlePick (blankEstimator 2 1 [1] [0, 1] [1 / 2, 1 / 2])).isSome = false ∧
    (analyse [0, 1] [1 / 4, 1 / 2] 1 (1 / 2)).map (fun e => e.set_start)
      = some [0, 1, 1, 1, 2] ∧
    (analyse [0, 1] [1 / 4, 1 / 2] 0 (1 / 2)).map (fun e => e.set_start)
      = some [0, 1, 1, 1, 2] := by
  refine ⟨?_, ?_, ?_, ?_, ?_⟩ <;> decide!

/-! ## C16: constant densities at level 0 -/

theorem sampleGroup_Z_const (c : ℚ) (N cnt : Nat)
    (st : (Nat → Nat) × List Int × List ℚ × List ℚ) :
    (sampleGroup (fun _ => c) N cnt st).2.2.2 = st.2.2.2 ++ [(cnt : ℚ) * c] := by
  have hlen : ((drawIndices N cnt st.1).1.insertionSort (fun a b => a ≤ b)).length = cnt := by
    rw [List.length_insertionSort, drawIndices_length]
  simp only [sampleGroup, evalPoints_eq]
  congr 2
  rw [List.map_const', List.sum_replicate, hlen]
  simp

theorem sampleLoop_Z_const (c : ℚ) (N cnt : Nat) :
    ∀ (groups : Nat) (st : (Nat → Nat) × List Int × List ℚ × List ℚ),
      (sampleLoop (fun _ => c) N cnt groups st).2.2.2
        = st.2.2.2 ++ List.replicate groups ((cnt : ℚ) * c) := by
  intro groups
  induction groups with
  | zero => intro st; simp [sampleLoop]
  | succ g ih =>
    intro st
    simp only [sampleLoop]
    rw [ih, sampleGroup_Z_const, List.append_assoc]
    rfl

/-- On a dataset whose points all have density `c`, a call of
`evaluateQuery` that draws or visits at least one point (`int` product
`L * Mi[level] ≥ 1`, `N ≥ 1`) returns the estimate `c`, in either mode and
whatever the generator yields. -/
theorem evaluateQuery_const (c : ℚ) (median : List ℚ → ℚ) (level : Nat) (e : Estimator)
    (m : Int) (hmed : ∀ (n : Nat) (x : ℚ), 1 ≤ n → median (List.replicate n x) = x)
    (hm : e.Mi[level]? = some m) (hN : 1 ≤ e.numPoints)
    (hbudget : 0 < wrapInt ((e.L : Int) * m)) :
    ∃ (cnt : ℚ) (e' : Estimator),
      evaluateQuery (fun _ => c) median level e = some ((some c, cnt), e') := by
  by_cases hbig : wrapInt ((e.L : Int) * m) > (e.numPoints : Int)
  · have hNq : (e.numPoints : ℚ) ≠ 0 := by
      have : (0 : ℚ) < (e.numPoints : ℚ) := by exact_mod_cast hN
      exact ne_of_gt this
    have hsum : quotient ((List.range e.numPoints).map (fun _ => c)).sum (e.numPoints : ℚ)
        = some c := by
      unfold quotient
      rw [if_neg hNq, List.map_const', List.sum_replicate, List.length_range, nsmul_eq_mul]
      congr 1
      field_simp
    have h := evaluateQuery_exact (fun _ => c) median level e m hm hbig
    rw [hsum] at h
    exact ⟨_, _, h⟩
  · have hL : 1 ≤ e.L := by
      by_contra h0
      have h00 : e.L = 0 := by omega
      rw [h00] at hbudget
      simp [wrapInt] at hbudget
    have hcnt : 1 ≤ (wrapInt ((e.L : Int) * m)).toNat := by omega
    have hcq : (((wrapInt ((e.L : Int) * m)).toNat : Nat) : ℚ) ≠ 0 := by
      have : (0 : ℚ) < (((wrapInt ((e.L : Int) * m)).toNat : Nat) : ℚ) := by
        exact_mod_cast hcnt
      exact ne_of_gt this
    obtain ⟨r, e', h, hr1, -⟩ :=
      evaluateQuery_sampling (fun _ => c) median level e m hm (not_lt.mp hbig)
        (le_of_lt hbudget)
    rw [sampleLoop_Z_const, List.nil_append, hmed _ _ hL] at hr1
    have hq : quotient ((((wrapInt ((e.L : Int) * m)).toNat : Nat) : ℚ) * c)
        (((wrapInt ((e.L : Int) * m)).toNat : Nat) : ℚ) = some c := by
      unfold quotient
      rw [if_neg hcq, mul_div_cancel_left₀ _ hcq]
    rw [hq] at hr1
    refine ⟨r.2, e', ?_⟩
    rw [h, ← hr1]

/-- Constant densities as far as the level-0 call returns a number: on a
dataset all of whose points have the same density `c > 0`, with
`truth = c`, `eps > 0`, `I ≥ 1`, at least one point and an `int` product
`L * Mi[0]` of at least one, `evaluateQuery` at level 0 returns the
estimate `c` in exact mode and in sampling mode (the median of a constant
list being that constant), whatever the generator yields, and
`findActualLevel` returns level 0. -/
theorem constant_density_accepted_at_level_zero (c eps : ℚ) (median : List ℚ → ℚ)
    (e : Estimator) (m : Int) (hc : 0 < c) (heps : 0 < eps) (hI : 1 ≤ e.I)
    (hmed : ∀ (n : Nat) (x : ℚ), 1 ≤ n → median (List.replicate n x) = x)
    (hm : e.Mi[0]? = some m) (hN : 1 ≤ e.numPoints)
    (hbudget : 0 < wrapInt ((e.L : Int) * m)) :
    (∃ (cnt : ℚ) (e' : Estimator),
      evaluateQuery (fun _ => c) median 0 e = some ((some c, cnt), e')) ∧
    ∃ e'' : Estimator, findActualLevel (fun _ => c) median c eps e = some (0, e'') := by
  obtain ⟨cnt, e', hev⟩ := evaluateQuery_const c median 0 e m hmed hm hN hbudget
  refine ⟨⟨cnt, e', hev⟩, e', ?_⟩
  obtain ⟨k, hk⟩ : ∃ k, e.I.toNat = k + 1 := ⟨e.I.toNat - 1, by omega⟩
  have hacc : passes c eps (some c) := by
    unfold passes accepts
    exact ⟨ne_of_gt hc, by simpa using heps⟩
  simp only [findActualLevel, hk, findLevelLoop, hev, hacc, if_true]
  rfl

theorem midMedian_replicate (n : Nat) (x : ℚ) (hn : 1 ≤ n) :
    midMedian (List.replicate n x) = x := by
  have hs : (List.replicate n x).Sorted (fun a b => a ≤ b) := by
    rw [List.Sorted, List.pairwise_replicate]
    exact Or.inr (le_refl x)
  unfold midMedian
  rw [List.Sorted.insertionSort_eq hs, List.length_replicate,
    List.getD_eq_getElem _ _ (by rw [List.length_replicate]; exact Nat.div_lt_self hn (by decide))]
  simp

/-- An instance: three points of density `1/2`, one group, level 0 draws
two points. -/
theorem constant_density_accepted_at_level_zero_witness :
    (∃ (cnt : ℚ) (e' : Estimator),
      evaluateQuery (fun _ => 1 / 2) midMedian 0
        (blankEstimator 3 1 [2, 5] [] []) = some ((some (1 / 2), cnt), e')) ∧
    ∃ e'' : Estimator,
      findActualLevel (fun _ => 1 / 2) midMedian (1 / 2) (1 / 10)
        (blankEstimator 3 1 [2, 5] [] []) = some (0, e'') :=
  constant_density_accepted_at_level_zero (1 / 2) (1 / 10) midMedian
    (blankEstimator 3 1 [2, 5] [] []) 2 (by norm_num) (by norm_num) (by decide)
    midMedian_replicate rfl (by decide) (by decide)

/-- C16: three points, every one of density `c = 1/2`, `truth = 1/2`,
`eps = 1/10`, one level, `L = 3` groups and `Mi[0] = 10^9`.  The budget
`3 * 10^9` exceeds `N = 3`, so level 0 ought to run in exact mode, return
the estimate `1/2` and be accepted.  The `int` product of line 94 is
`-1294967296`: the call at level 0 takes the sampling path, sizes the
vector of line 112 negatively and throws; `evaluateQuery` returns no
estimate and `findActualLevel` returns no level.  The same happens with a
single group (`L = 1`) when `Mi[0]` is `-2147483648`, the value the cast of
line 26 yields for a count beyond the range of `int`. -/
theorem constant_density_not_accepted_on_overflow :
    (3 : Int) * 1000000000 > 3 ∧
    (evaluateQuery (fun _ => 1 / 2) midMedian 0
      (blankEstimator 3 3 [1000000000] [] [])).isSome = false ∧
    (findActualLevel (fun _ => 1 / 2) midMedian (1 / 2) (1 / 10)
      (blankEstimator 3 3 [1000000000] [] [])).isSome = false ∧
    (evaluateQuery (fun _ => 1 / 2) midMedian 0
      (blankEstimator 3 1 [-2147483648] [] [])).isSome = false ∧
    (findActualLevel (fun _ => 1 / 2) midMedian (1 / 2) (1 / 10)
      (blankEstimator 3 1 [-2147483648] [] [])).isSome = false := by
  decide!

/-- A level-0 count of zero on the same three points (`L = 1`,
`Mi = [0, 5]`): the call at level 0 evaluates no point and its estimate is
`0 / 0`, not `1/2`; level 0 fails the test and `findActualLevel` returns
level 1. -/
theorem constant_density_zero_budget :
    (evaluateQuery (fun _ => 1 / 2) midMedian 0 (blankEstimator 3 1 [0, 5] [] [])).map
        (fun r => r.1) = some (none, 0) ∧
    (findActualLevel (fun _ => 1 / 2) midMedian (1 / 2) (1 / 10)
        (blankEstimator 3 1 [0, 5] [] [])).map (fun r => r.1) = some 1 := by
  decide!

/-! ## C17: the trivial ring policy -/

/-- C17, counterexample: with contributions `0.1, 0.1, 0.1, 0.9` and
strategy 0 the offsets are `[0, 3, 3, 3, 4]`: rings 1 and 2 are empty at the
S4 boundary, but ring 0 is `[3, 4)`, since `set_start[3] = 3` differs from
`set_start[4] = 4`. -/
theorem findRings_trivial_ring0_not_empty :
    (analyse [0, 1, 2, 3] [1 / 10, 1 / 10, 1 / 10, 9 / 10] 0 (1 / 2)).map
      (fun e => (e.set_start, e.set_start[3]? == e.set_start[4]?))
      = some ([0, 3, 3, 3, 4], false) := by
  decide!

/-- The trivial branch of `findRings` on top of `set_start = [0, m]`. -/
theorem ringBounds_trivial (strategy : Int) (eps : ℚ) (e : Estimator) (lam lv : ℚ)
    (ss : List Nat) (m : Nat) (hs : strategy = 0 ∨ e.sample_count < 3)
    (hstart : e.set_start = [0, m])
    (h : ringBounds strategy eps e = some (lam, lv, ss)) :
    ss = [0, m, m, m, e.contrib.length] ∧ lam = e.u_global ∧ lv = e.u_global := by
  unfold ringBounds at h
  rw [if_pos hs, hstart] at h
  simp only [List.getElem?_cons_succ, List.getElem?_cons_zero, Option.some.injEq,
    Prod.mk.injEq] at h
  refine ⟨?_, h.1.symm, h.2.1.symm⟩
  rw [← h.2.2]
  rfl

/-- C17, amended: after `getConstants`, `findRings` called with strategy 0,
or with fewer than 3 retained contributions, leaves the offsets
`[0, m, m, m, n]` with `m < n`: rings 1 and 2 are empty spans at the S4
boundary (`set_start[1] = set_start[2] = set_start[3]`), ring 0 is the
non-empty span `[set_start[1], n)` of all contributions outside S4, and
`lambda = l = u_global`. -/
theorem findRings_trivial_policy
    (pickSet : Nat → Nat → (Nat → Nat) → List Nat × (Nat → Nat))
    (prob : ℚ → Int → Int → ℚ) (strategy : Int) (eps : ℚ) (level : Nat)
    (e e1 e2 : Estimator) (hs : strategy = 0 ∨ e1.contrib.length < 3)
    (h1 : getConstants pickSet e = some e1)
    (h2 : findRings prob strategy eps level e1 = some e2) :
    ∃ m, e2.set_start = [0, m, m, m, e1.contrib.length] ∧ m < e1.contrib.length ∧
      e2.lambda = e1.u_global ∧ e2.l = e1.u_global ∧ e2.u_global = e1.u_global := by
  have hcount := (getConstants_lengths pickSet e e1 h1).2
  obtain ⟨g, smp, ctr, m, u3, -, hscan, rfl⟩ := getConstants_eq_some pickSet e e1 h1
  obtain ⟨-, hm2, -⟩ := s4Scan_bounds _ _ _ _ _ _ _ hscan
  obtain ⟨lam, lv, ss, w, k, r0, r1, r2, r3, hb, -, -, -, -, -, rfl⟩ :=
    findRings_eq_some prob strategy eps level _ e2 h2
  simp only at hs hcount
  obtain ⟨p1, p2, p3⟩ := ringBounds_trivial strategy eps _ lam lv ss m
    (by rcases hs with h | h
        · exact Or.inl h
        · exact Or.inr (by simp only; omega)) rfl hb
  exact ⟨m, p1, hm2, p2, p3, rfl⟩

theorem fourRecord_getConstants_isSome :
    (getConstants idlePick
      (blankEstimator 4 1 [1] [0, 1, 2, 3] [1 / 10, 1 / 10, 1 / 10, 9 / 10])).isSome = true := by
  decide!

theorem fourRecord_findRings0_isSome :
    (findRings unitProb 0 (1 / 2) 0
      ((getConstants idlePick
        (blankEstimator 4 1 [1] [0, 1, 2, 3] [1 / 10, 1 / 10, 1 / 10, 9 / 10])).get
          fourRecord_getConstants_isSome)).isSome = true := by
  decide!

theorem fourRecord_findRings1_isSome :
    (findRings unitProb 1 (1 / 2) 0
      ((getConstants idlePick
        (blankEstimator 4 1 [1] [0, 1, 2, 3] [1 / 10, 1 / 10, 1 / 10, 9 / 10])).get
          fourRecord_getConstants_isSome)).isSome = true := by
  decide!

/-- Witness of the amended C17: contributions `0.1, 0.1, 0.1, 0.9`,
strategy 0. -/
theorem findRings_trivial_policy_witness :
    ∃ e1 e2 : Estimator,
      getConstants idlePick
        (blankEstimator 4 1 [1] [0, 1, 2, 3] [1 / 10, 1 / 10, 1 / 10, 9 / 10]) = some e1 ∧
      findRings unitProb 0 (1 / 2) 0 e1 = some e2 ∧
      ∃ m, e2.set_start = [0, m, m, m, e1.contrib.length] ∧ m < e1.contrib.length ∧
        e2.lambda = e1.u_global ∧ e2.l = e1.u_global ∧ e2.u_global = e1.u_global :=
  ⟨_, _, (Option.some_get fourRecord_getConstants_isSome).symm,
    (Option.some_get fourRecord_findRings0_isSome).symm,
    findRings_trivial_policy idlePick unitProb 0 (1 / 2) 0 _ _ _ (Or.inl rfl)
      (Option.some_get fourRecord_getConstants_isSome).symm
      (Option.some_get fourRecord_findRings0_isSome).symm⟩

/-! ## C20: ring 0 is never empty -/

/-- C20: on every state on which `getConstants` completed with `n ≥ 2`
retained contributions (a well-formed record, an array that fits the
address space), after `findRings` with strategy 0 or 1 and any `eps`,
`set_start[3] ≤ n - 1` and `set_start[4] = n`, so the span
`[set_start[3], set_start[4])` of ring 0 contains position `n - 1`, which
holds the largest retained contribution. -/
theorem ring0_never_empty (pickSet : Nat → Nat → (Nat → Nat) → List Nat × (Nat → Nat))
    (prob : ℚ → Int → Int → ℚ) (strategy : Int) (eps : ℚ) (level : Nat)
    (e e1 e2 : Estimator) (hlen : e.samples.length = e.contrib.length)
    (hs : strategy = 0 ∨ strategy = 1)
    (h1 : getConstants pickSet e = some e1)
    (h2 : findRings prob strategy eps level e1 = some e2)
    (hn : 2 ≤ e1.contrib.length) (hsize : e1.contrib.length < 2 ^ 64) :
    ∃ (s3 : Nat) (top : ℚ),
      e2.set_start[3]? = some s3 ∧ e2.set_start[4]? = some e1.contrib.length ∧
      s3 ≤ e1.contrib.length - 1 ∧ e1.contrib.length - 1 < e1.contrib.length ∧
      e2.contrib[e1.contrib.length - 1]? = some top ∧ ∀ c ∈ e2.contrib, c ≤ top := by
  obtain ⟨m, a, b, hss, hc, -, -, -, hb, -, -⟩ :=
    findRings_offsets pickSet prob strategy eps level e e1 e2 hs h1 h2 hsize
  obtain ⟨g, smp, ctr, m', u3, hret, -, he1⟩ := getConstants_eq_some pickSet e e1 h1
  have hctr : e1.contrib = ctr := by rw [he1]
  obtain ⟨hsorted, -⟩ := retain_sorted pickSet e hlen g smp ctr hret
  rw [← hctr] at hsorted
  have hlast : e1.contrib.length - 1 < e1.contrib.length := by omega
  refine ⟨b, e1.contrib[e1.contrib.length - 1], by rw [hss]; rfl, by rw [hss]; rfl,
    by omega, hlast, by rw [hc]; exact List.getElem?_eq_getElem hlast, ?_⟩
  intro c hcmem
  rw [hc] at hcmem
  obtain ⟨i, hi, rfl⟩ := List.getElem_of_mem hcmem
  have := sorted_getD_mono e1.contrib hsorted i (e1.contrib.length - 1) (by omega) hlast
  rwa [List.getD_eq_getElem _ _ hi, List.getD_eq_getElem _ _ hlast] at this

theorem fourRecord_contrib :
    ((getConstants idlePick
        (blankEstimator 4 1 [1] [0, 1, 2, 3] [1 / 10, 1 / 10, 1 / 10, 9 / 10])).get
          fourRecord_getConstants_isSome).contrib
      = [1 / 10, 1 / 10, 1 / 10, 9 / 10] := by
  decide!

/-- Witness of C20: contributions `0.1, 0.1, 0.1, 0.9`, strategy 1,
`eps = 0.5`. -/
theorem ring0_never_empty_witness :
    ∃ e1 e2 : Estimator,
      getConstants idlePick
        (blankEstimator 4 1 [1] [0, 1, 2, 3] [1 / 10, 1 / 10, 1 / 10, 9 / 10]) = some e1 ∧
      findRings unitProb 1 (1 / 2) 0 e1 = some e2 ∧
      ∃ (s3 : Nat) (top : ℚ),
        e2.set_start[3]? = some s3 ∧ e2.set_start[4]? = some e1.contrib.length ∧
        s3 ≤ e1.contrib.length - 1 ∧ e1.contrib.length - 1 < e1.contrib.length ∧
        e2.contrib[e1.contrib.length - 1]? = some top ∧ ∀ c ∈ e2.contrib, c ≤ top :=
  ⟨_, _, (Option.some_get fourRecord_getConstants_isSome).symm,
    (Option.some_get fourRecord_findRings1_isSome).symm,
    ring0_never_empty idlePick unitProb 1 (1 / 2) 0
      (blankEstimator 4 1 [1] [0, 1, 2, 3] [1 / 10, 1 / 10, 1 / 10, 9 / 10]) _ _ rfl
      (Or.inr rfl)
      (Option.some_get fourRecord_getConstants_isSome).symm
      (Option.some_get fourRecord_findRings1_isSome).symm
      (by rw [fourRecord_contrib]; decide) (by rw [fourRecord_contrib]; decide)⟩

/-! ## The S4 scan on an ascending array -/

/-- In an ascending list the values below a bound form a prefix. -/
theorem sorted_filter_prefix (ug : ℚ) :
    ∀ l : List ℚ, l.Sorted (fun a b => a ≤ b) →
      l.filter (fun c => decide (c < ug))
          = l.take (l.filter (fun c => decide (c < ug))).length ∧
      ∀ j (hj : j < l.length),
        (l[j] < ug ↔ j < (l.filter (fun c => decide (c < ug))).length) := by
  intro l
  induction l with
  | nil => intro _; exact ⟨rfl, fun j hj => absurd hj (by simp)⟩
  | cons a t ih =>
    intro hs
    have hs' := List.sorted_cons.mp hs
    obtain ⟨ih1, ih2⟩ := ih hs'.2
    by_cases ha : a < ug
    · have hf : (a :: t).filter (fun c => decide (c < ug))
          = a :: t.filter (fun c => decide (c < ug)) := by
        simp [List.filter_cons, ha]
      rw [hf]
      refine ⟨?_, ?_⟩
      · simp only [List.length_cons, List.take_succ_cons]
        rw [← ih1]
      · intro j hj
        cases j with
        | zero => simp [ha]
        | succ j =>
          simp only [List.getElem_cons_succ, List.length_cons, Nat.succ_lt_succ_iff]
          exact ih2 j (by simpa using hj)
    · have hnone : t.filter (fun c => decide (c < ug)) = [] := by
        rw [List.filter_eq_nil_iff]
        intro b hb hpb
        simp only [decide_eq_true_eq] at hpb
        exact ha (lt_of_le_of_lt (hs'.1 b hb) hpb)
      have hf : (a :: t).filter (fun c => decide (c < ug)) = [] := by
        simp [List.filter_cons, ha, hnone]
      rw [hf]
      refine ⟨by simp, ?_⟩
      intro j hj
      simp only [List.length_nil, Nat.not_lt_zero, iff_false, not_lt]
      cases j with
      | zero => simpa using not_lt.mp ha
      | succ j =>
        have hj' : j < t.length := by simpa using hj
        simp only [List.getElem_cons_succ]
        have hmem : t[j] ∈ t := List.getElem_mem hj'
        exact le_trans (not_lt.mp ha) (hs'.1 _ hmem)

/-- The S4 scan on an array whose values below `u_global` are exactly the
first `m` ones, `1 ≤ m < n`: it stops at `m` with the sum of that prefix. -/
theorem s4Scan_sorted (ctr : List ℚ) (ug : ℚ) (m : Nat) (hm1 : 1 ≤ m)
    (hmn : m < ctr.length) (hsize : ctr.length < 2 ^ 64)
    (hchar : ∀ j (hj : j < ctr.length), (ctr[j] < ug ↔ j < m)) :
    ∀ (d i : Nat) (u3 : ℚ) (fuel : Nat), i + d = m → d + 1 ≤ fuel →
      s4Scan ctr ug fuel i u3 = some (m, u3 + ((ctr.take m).drop i).sum) := by
  intro d
  induction d with
  | zero =>
    intro i u3 fuel hi hf
    obtain ⟨f, rfl⟩ : ∃ f, fuel = f + 1 := ⟨fuel - 1, by omega⟩
    have him : i = m := by omega
    subst him
    have h1 : ctr[i]? = some ctr[i] := List.getElem?_eq_getElem hmn
    have h2 : ¬ ctr[i] < ug := fun h => absurd ((hchar i hmn).mp h) (lt_irrefl _)
    have h3 : subSize i 1 = i - 1 := subSize_one i hm1 (lt_trans hmn hsize)
    have hprev : i - 1 < ctr.length := lt_of_le_of_lt (Nat.sub_le i 1) hmn
    have h4 : ctr[i - 1]? = some ctr[i - 1] := List.getElem?_eq_getElem hprev
    have h5 : ctr[i - 1] < ug := (hchar (i - 1) hprev).mpr (Nat.sub_lt hm1 Nat.one_pos)
    have hnil : (ctr.take i).drop i = [] :=
      List.drop_of_length_le (by rw [List.length_take]; exact min_le_left _ _)
    simp only [s4Scan, h1, h2, if_false, h3, h4, h5, if_true, hnil, List.sum_nil, add_zero]
  | succ d ih =>
    intro i u3 fuel hi hf
    obtain ⟨f, rfl⟩ : ∃ f, fuel = f + 1 := ⟨fuel - 1, by omega⟩
    have hin : i < ctr.length := by omega
    have h1 : ctr[i]? = some ctr[i] := List.getElem?_eq_getElem hin
    have h2 : ctr[i] < ug := (hchar i hin).mpr (by omega)
    simp only [s4Scan, h1, h2, if_true]
    rw [ih (i + 1) (u3 + ctr[i]) f (by omega) (by omega)]
    have hit : i < (ctr.take m).length := by
      rw [List.length_take]
      omega
    have hdrop : (ctr.take m).drop i = ctr[i] :: (ctr.take m).drop (i + 1) := by
      rw [List.drop_eq_getElem_cons hit, List.getElem_take]
    rw [hdrop, List.sum_cons, add_assoc]

/-- The mean of a list that is not constant lies strictly between any lower
and any upper bound of its entries. -/
theorem mean_strictly_between (l : List ℚ) (a b : ℚ) (ha : ∀ x ∈ l, a ≤ x)
    (hb : ∀ x ∈ l, x ≤ b) (hne : ∃ x ∈ l, ∃ y ∈ l, x ≠ y) :
    a < meanOf l ∧ meanOf l < b := by
  obtain ⟨x, hx, y, hy, hxy⟩ := hne
  have hpos : (0 : ℚ) < (l.length : ℚ) := by
    exact_mod_cast List.length_pos_of_mem hx
  have hlow : ∃ z ∈ l, a < z := by
    by_contra hcon
    push_neg at hcon
    exact hxy ((le_antisymm (hcon x hx) (ha x hx)).trans
      (le_antisymm (hcon y hy) (ha y hy)).symm)
  have hhigh : ∃ z ∈ l, z < b := by
    by_contra hcon
    push_neg at hcon
    exact hxy ((le_antisymm (hb x hx) (hcon x hx)).trans
      (le_antisymm (hb y hy) (hcon y hy)).symm)
  have h1 := List.sum_lt_sum (fun _ : ℚ => a) (fun z : ℚ => z) (fun z hz => ha z hz) hlow
  have h2 := List.sum_lt_sum (fun z : ℚ => z) (fun _ : ℚ => b) (fun z hz => hb z hz) hhigh
  simp only [List.map_const', List.sum_replicate, nsmul_eq_mul, List.map_id'] at h1 h2
  unfold meanOf
  constructor
  · rw [lt_div_iff₀ hpos]
    linarith
  · rw [div_lt_iff₀ hpos]
    linarith

/-! ## C18: the S4 boundary scan -/

/-- The S4 scan over exact rationals: when the retained contributions `ctr`
(ascending, `n ≥ 2` of them, an array that fits the address space) are not
all equal, `getConstants` completes (the scan reads nothing out of range),
`u_global` is their exact mean,
and `set_start = [0, m]` with `m` the number of retained contributions
strictly below `u_global`, `1 ≤ m ≤ n - 1`, and `u[3]` is the sum of those
`m` contributions over `n`. -/
theorem getConstants_s4_scan (pickSet : Nat → Nat → (Nat → Nat) → List Nat × (Nat → Nat))
    (e : Estimator) (smp : List Int) (ctr : List ℚ)
    (hlen : e.samples.length = e.contrib.length)
    (hretained : (retain pickSet e).map (fun r => r.2) = some (smp, ctr))
    (hn : 2 ≤ ctr.length) (hsize : ctr.length < 2 ^ 64)
    (hne : ∃ x ∈ ctr, ∃ y ∈ ctr, x ≠ y) :
    ∃ e1 : Estimator, getConstants pickSet e = some e1 ∧
      e1.contrib = ctr ∧ ctr.Sorted (fun a b => a ≤ b) ∧
      e1.u_global = meanOf ctr ∧
      e1.set_start = [0, (belowMean ctr).length] ∧
      1 ≤ (belowMean ctr).length ∧ (belowMean ctr).length ≤ ctr.length - 1 ∧
      e1.u[3]? = some ((belowMean ctr).sum / (ctr.length : ℚ)) := by
  obtain ⟨g, hret⟩ : ∃ g, retain pickSet e = some (g, smp, ctr) := by
    cases hr : retain pickSet e with
    | none => rw [hr] at hretained; simp at hretained
    | some r =>
      rw [hr] at hretained
      simp only [Option.map_some', Option.some.injEq] at hretained
      exact ⟨r.1, by rw [← hretained]⟩
  obtain ⟨hsorted, -⟩ := retain_sorted pickSet e hlen g smp ctr hret
  have hlen2 := retain_lengths pickSet e g smp ctr hret
  have h0 : 0 < ctr.length := by omega
  have hlast : ctr.length - 1 < ctr.length := by omega
  have hmean : ctr.foldl (fun a c => a + c) 0 / (smp.length : ℚ) = meanOf ctr := by
    unfold meanOf
    rw [hlen2, List.sum_eq_foldl]
  obtain ⟨hpre, hchar⟩ := sorted_filter_prefix (meanOf ctr) ctr hsorted
  have hbetween := mean_strictly_between ctr ctr[0] ctr[ctr.length - 1]
    (fun x hx => by
      obtain ⟨i, hi, rfl⟩ := List.getElem_of_mem hx
      have := sorted_getD_mono ctr hsorted 0 i (Nat.zero_le _) hi
      rwa [List.getD_eq_getElem _ _ h0, List.getD_eq_getElem _ _ hi] at this)
    (fun x hx => by
      obtain ⟨i, hi, rfl⟩ := List.getElem_of_mem hx
      have := sorted_getD_mono ctr hsorted i (ctr.length - 1) (by omega) hlast
      rwa [List.getD_eq_getElem _ _ hi, List.getD_eq_getElem _ _ hlast] at this)
    hne
  have hm1 : 1 ≤ (belowMean ctr).length := (hchar 0 h0).mp hbetween.1
  have hm2 : (belowMean ctr).length ≤ ctr.length - 1 := by
    by_contra hcon
    have := (hchar (ctr.length - 1) hlast).mpr (by unfold belowMean at hcon; omega)
    exact absurd this (not_lt.mpr (le_of_lt hbetween.2))
  have hscan := s4Scan_sorted ctr (meanOf ctr) (belowMean ctr).length hm1 (by omega) hsize
    hchar (belowMean ctr).length 0 0 (ctr.length + 1) (by omega) (by omega)
  have hsum : (0 : ℚ) + ((ctr.take (belowMean ctr).length).drop 0).sum = (belowMean ctr).sum := by
    rw [List.drop_zero, zero_add]
    unfold belowMean
    rw [← hpre]
  rw [hsum] at hscan
  refine ⟨{ e with
      rng := g, samples := smp, contrib := ctr, thresh := 1 / 10000000000,
      set_start := [0, (belowMean ctr).length], u_global := meanOf ctr,
      sample_count := smp.length,
      u := [0, 0, 0, (belowMean ctr).sum / (smp.length : ℚ)] },
    ?_, rfl, hsorted, rfl, rfl, hm1, hm2, ?_⟩
  · simp only [getConstants, hret, hmean, hscan]
  · simp [hlen2]

/-- An instance over exact rationals: contributions `0.1, 0.1, 0.1, 0.9`:
mean `0.3`, three contributions below it. -/
theorem getConstants_s4_scan_witness :
    ∃ e1 : Estimator, getConstants idlePick
        (blankEstimator 4 1 [1] [0, 1, 2, 3] [1 / 10, 1 / 10, 1 / 10, 9 / 10]) = some e1 ∧
      e1.contrib = [1 / 10, 1 / 10, 1 / 10, 9 / 10] ∧
      e1.u_global = 3 / 10 ∧ e1.set_start = [0, 3] ∧ e1.u[3]? = some (3 / 40) := by
  obtain ⟨e1, h1, h2, -, h3, h4, -, -, h5⟩ :=
    getConstants_s4_scan idlePick
      (blankEstimator 4 1 [1] [0, 1, 2, 3] [1 / 10, 1 / 10, 1 / 10, 9 / 10])
      [0, 1, 2, 3] [1 / 10, 1 / 10, 1 / 10, 9 / 10] rfl (by decide!) (by decide) (by decide)
      ⟨1 / 10, by simp, 9 / 10, by simp, by norm_num⟩
  refine ⟨e1, h1, h2, ?_, ?_, ?_⟩
  · rw [h3]; decide!
  · rw [h4]; decide!
  · rw [h5]; decide!

/-- C18: the contributions `0.5, 0.5, 0.5 + 2^-53` are doubles, ascending,
below 1 and not all equal, and `getConstants` retains all three.  On doubles
the sum of lines 188-190 runs `0.5`, `1.0`, `1.5 + 2^-53`, and the last
value, a tie between two doubles, rounds to `1.5`; so `u_global = 1.5 / 3`
is `0.5`, the smallest contribution.  The scan of lines 194-203 then finds
`contrib[0] < u_global` false at `i = 0` and reads `contrib[i - 1]`, that is
`contrib[2^64 - 1]`, outside the array.  With the exact mean the scan stops
at `m = 2`.  Likewise the doubles `a, 0.1, 0.1`, with `a` the double just
below `0.1`, have a rounded mean above `0.1`, so every contribution is below
`u_global` and the scan reads `contrib[3]`. -/
theorem s4Scan_rounded_mean_out_of_range :
    (retain idlePick (blankEstimator 3 1 [1] [0, 1, 2]
        [1 / 2, 1 / 2, 1 / 2 + 1 / 9007199254740992])).map (fun r => r.2)
      = some ([0, 1, 2], [1 / 2, 1 / 2, 1 / 2 + 1 / 9007199254740992]) ∧
    roundDouble (1 / 2 + 1 / 9007199254740992) = 1 / 2 + 1 / 9007199254740992 ∧
    meanD [1 / 2, 1 / 2, 1 / 2 + 1 / 9007199254740992] = 1 / 2 ∧
    s4Scan [1 / 2, 1 / 2, 1 / 2 + 1 / 9007199254740992]
        (meanD [1 / 2, 1 / 2, 1 / 2 + 1 / 9007199254740992]) 4 0 0 = none ∧
    s4Scan [1 / 2, 1 / 2, 1 / 2 + 1 / 9007199254740992]
        (meanOf [1 / 2, 1 / 2, 1 / 2 + 1 / 9007199254740992]) 4 0 0 = some (2, 1) ∧
    meanD [7205759403792793 / 72057594037927936, 3602879701896397 / 36028797018963968,
        3602879701896397 / 36028797018963968]
      = 7205759403792795 / 72057594037927936 ∧
    s4Scan [7205759403792793 / 72057594037927936, 3602879701896397 / 36028797018963968,
        3602879701896397 / 36028797018963968]
      (meanD [7205759403792793 / 72057594037927936, 3602879701896397 / 36028797018963968,
        3602879701896397 / 36028797018963968]) 4 0 0 = none := by
  decide!

/-! ## C19: the diagonal supremum search -/

/-- The inner scan stops at the first position whose entry is at most the
target, provided there is one. -/
theorem diagInner_some (target : Nat) :
    ∀ (l : List Nat) (offs : Nat), (∃ v ∈ l, v ≤ target) →
      ∃ (pos v : Nat), diagInner target l offs = some (offs + pos) ∧
        l[pos]? = some v ∧ v ≤ target := by
  intro l
  induction l with
  | nil => intro offs h; obtain ⟨v, hv, -⟩ := h; simp at hv
  | cons a t ih =>
    intro offs h
    by_cases ha : a > target
    · have ht : ∃ v ∈ t, v ≤ target := by
        obtain ⟨v, hv, hle⟩ := h
        rcases List.mem_cons.mp hv with h0 | h0
        · subst h0; omega
        · exact ⟨v, h0, hle⟩
      obtain ⟨pos, v, h1, h2, h3⟩ := ih (offs + 1) ht
      refine ⟨pos + 1, v, ?_, by simpa using h2, h3⟩
      simp only [diagInner, ha, if_true]
      rw [h1]
      congr 1
      omega
    · exact ⟨0, a, by simp [diagInner, ha], by simp, by omega⟩

/-- The diagonal search on two permutations of `0 .. m-1`: as long as no
earlier round has met the entry `0` of `w_pp_idx`, every round reads inside
the arrays, and the loop ends within its `todo` rounds. -/
theorem diag_rounds (p_idx pp_idx : List Nat) (ps pps : List ℚ) (m : Nat)
    (hp : p_idx.Perm (List.range m)) (hpp : pp_idx.Perm (List.range m))
    (hm : 1 ≤ m) (hps : ps.length = m) (hpps : pps.length = m) :
    ∀ (todo k : Nat) (sup1 : ℚ), (∀ j t, j < k → pp_idx[j]? = some t → t ≠ 0) →
      ∃ (trace : List (Nat × Nat)) (v : ℚ),
        diagTrace p_idx pp_idx ps pps todo k = some trace ∧
        diagOuter p_idx pp_idx ps pps todo k sup1 = some v ∧
        trace.length ≤ todo ∧ ∀ q ∈ trace, q.1 < m ∧ q.2 < m := by
  have hplen : p_idx.length = m := by rw [hp.length_eq, List.length_range]
  have hpplen : pp_idx.length = m := by rw [hpp.length_eq, List.length_range]
  have hzero_p : (0 : Nat) ∈ p_idx := hp.mem_iff.mpr (List.mem_range.mpr (by omega))
  have hzero_pp : (0 : Nat) ∈ pp_idx := hpp.mem_iff.mpr (List.mem_range.mpr (by omega))
  obtain ⟨z, hz⟩ := List.getElem?_of_mem hzero_pp
  have hzlt : z < pp_idx.length := by
    by_contra hge
    rw [List.getElem?_eq_none (not_lt.mp hge)] at hz
    simp at hz
  intro todo
  induction todo with
  | zero =>
    intro k sup1 _
    exact ⟨[], sup1, rfl, rfl, le_refl _, fun q hq => by simp at hq⟩
  | succ todo ih =>
    intro k sup1 hinv
    have hkz : k ≤ z := by
      by_contra hcon
      exact hinv z 0 (by omega) hz rfl
    have hk : k < pp_idx.length := by omega
    have hread : pp_idx[k]? = some pp_idx[k] := List.getElem?_eq_getElem hk
    obtain ⟨l, v, hin, hv, hle⟩ := diagInner_some pp_idx[k] p_idx 0
      ⟨0, hzero_p, Nat.zero_le _⟩
    rw [Nat.zero_add] at hin
    have hl : l < p_idx.length := by
      by_contra hge
      rw [List.getElem?_eq_none (not_lt.mp hge)] at hv
      simp at hv
    have hpk : pps[k]? = some pps[k] := List.getElem?_eq_getElem (by omega)
    have hpl : ps[l]? = some ps[l] := List.getElem?_eq_getElem (by omega)
    by_cases hbreak : (k = 0 ∧ l = 0) ∨ v = 0
    · refine ⟨[(k, l)], max sup1 (pps[k] / ps[l]), ?_, ?_, by simp, ?_⟩
      · simp only [diagTrace, hread, hin, hpk, hpl, hv, hbreak, if_true]
      · simp only [diagOuter, hread, hin, hpk, hpl, hv, hbreak, if_true]
      · intro q hq
        simp only [List.mem_singleton] at hq
        subst hq
        exact ⟨by omega, by omega⟩
    · have hnext : ∀ j t, j < k + 1 → pp_idx[j]? = some t → t ≠ 0 := by
        intro j t hj ht
        rcases Nat.eq_or_lt_of_le (Nat.le_of_lt_succ hj) with h | h
        · subst h
          rw [hread] at ht
          simp only [Option.some.injEq] at ht
          intro ht0
          rw [ht, ht0] at hle
          exact hbreak (Or.inr (by omega))
        · exact hinv j t h ht
      obtain ⟨trace, w, h1, h2, h3, h4⟩ := ih (k + 1) (max sup1 (pps[k] / ps[l])) hnext
      refine ⟨(k, l) :: trace, w, ?_, ?_, by simp; omega, ?_⟩
      · simp only [diagTrace, hread, hin, hpk, hpl, hv, hbreak, if_false, h1, Option.map_some']
      · simp only [diagOuter, hread, hin, hpk, hpl, hv, hbreak, if_false, h2]
      · intro q hq
        rcases List.mem_cons.mp hq with h | h
        · subst h
          exact ⟨by omega, by omega⟩
        · exact h4 q h

theorem ringStep_lengths (prob : Int → ℚ) (samples : List Int) (contrib : List ℚ) (thresh : ℚ)
    (acc : RingAcc) (j : Nat) (b : RingAcc) (hP : acc.wp.length = acc.wpp.length)
    (h : ringStep prob samples contrib thresh acc j = some b) :
    b.wp.length = b.wpp.length := by
  unfold ringStep at h
  cases hc : contrib[j]? with
  | none => rw [hc] at h; simp at h
  | some c =>
    rw [hc] at h
    simp only at h
    by_cases hlt : c < thresh
    · rw [if_pos hlt] at h
      simp only [Option.some.injEq] at h
      subst h
      exact hP
    · rw [if_neg hlt] at h
      cases hs : samples[j]? with
      | none => rw [hs] at h; simp at h
      | some idx =>
        rw [hs] at h
        simp only [Option.some.injEq] at h
        subst h
        simp [hP]

/-- The four arrays that `findRings` stores for a ring: the two index arrays
are permutations of `0 .. m-1` and the two value arrays have `m` entries,
with `m` the number of ring members at or above `thresh`. -/
theorem ringStats_arrays (prob : Int → ℚ) (samples : List Int) (contrib : List ℚ) (thresh : ℚ)
    (sample_count : Nat) (set_start : List Nat) (i : Nat)
    (r : RingAcc × List Nat × List ℚ × List Nat × List ℚ)
    (h : ringStats prob samples contrib thresh sample_count set_start i = some r) :
    r.2.1.Perm (List.range r.2.2.1.length) ∧ r.2.2.2.1.Perm (List.range r.2.2.1.length) ∧
      r.2.2.2.2.length = r.2.2.1.length := by
  unfold ringStats at h
  split at h
  · rename_i lo hi hlo hhi
    split at h
    · simp at h
    · rename_i acc hacc
      have hlen : acc.wp.length = acc.wpp.length :=
        foldlM_option_inv (ringStep prob samples contrib thresh)
          (fun a => a.wp.length = a.wpp.length)
          (fun a x b ha hb => ringStep_lengths prob samples contrib thresh a x b ha hb)
          _ _ acc rfl hacc
      simp only [Option.some.injEq] at h
      subst h
      have h1 := sort_indexes_perm acc.wp
      have h2 := sort_indexes_perm acc.wpp
      have l1 : (sort_indexes acc.wp).length = acc.wp.length := by
        rw [h1.length_eq, List.length_range]
      have l2 : (sort_indexes acc.wpp).length = acc.wpp.length := by
        rw [h2.length_eq, List.length_range]
      refine ⟨?_, ?_, ?_⟩
      · simp only [List.length_map, l1]
        exact h1
      · simp only [List.length_map, l1, hlen]
        exact (List.reverse_perm _).trans h2
      · simp only [List.length_reverse, List.length_map, l1, l2, hlen]
  · simp at h

/-- C19: the diagonal supremum search of `vbHBE` (lines 328-337) on a ring
whose index arrays `w_p_idx[i]` and `w_pp_idx[i]` are permutations of
`0 .. m-1` with `m ≥ 1`, the value arrays having `m` entries: the inner scan
from any entry of `w_pp_idx[i]` stops at a position below `m`; the search
returns a value; it runs at most 10 rounds; and every pair `(k, l)` at which
the arrays are read has `k < m` and `l < m`. -/
theorem diagonal_search_bounded_in_range (p_idx pp_idx : List Nat) (ps pps : List ℚ)
    (m : Nat) (sup1 : ℚ)
    (hp : p_idx.Perm (List.range m)) (hpp : pp_idx.Perm (List.range m))
    (hm : 1 ≤ m) (hps : ps.length = m) (hpps : pps.length = m) :
    (∀ target : Nat, ∃ l, diagInner target p_idx 0 = some l ∧ l < m) ∧
    ∃ (trace : List (Nat × Nat)) (v : ℚ),
      diagTrace p_idx pp_idx ps pps 10 0 = some trace ∧
      diagOuter p_idx pp_idx ps pps 10 0 sup1 = some v ∧
      trace.length ≤ 10 ∧ ∀ q ∈ trace, q.1 < m ∧ q.2 < m := by
  refine ⟨?_, diag_rounds p_idx pp_idx ps pps m hp hpp hm hps hpps 10 0 sup1
    (fun j t hj _ => absurd hj (Nat.not_lt_zero j))⟩
  intro target
  have hzero_p : (0 : Nat) ∈ p_idx := hp.mem_iff.mpr (List.mem_range.mpr (by omega))
  obtain ⟨l, v, hin, hv, -⟩ := diagInner_some target p_idx 0 ⟨0, hzero_p, Nat.zero_le _⟩
  rw [Nat.zero_add] at hin
  refine ⟨l, hin, ?_⟩
  have hplen : p_idx.length = m := by rw [hp.length_eq, List.length_range]
  by_contra hge
  rw [List.getElem?_eq_none (by omega)] at hv
  simp at hv

/-- Witness of C19: a ring of three members, fewer than the ten rounds of the
loop; the search takes three rounds. -/
theorem diagonal_search_bounded_in_range_witness :
    (∀ target : Nat, ∃ l, diagInner target [2, 1, 0] 0 = some l ∧ l < 3) ∧
    ∃ (trace : List (Nat × Nat)) (v : ℚ),
      diagTrace [2, 1, 0] [1, 2, 0] [1, 2, 3] [9, 4, 1] 10 0 = some trace ∧
      diagOuter [2, 1, 0] [1, 2, 0] [1, 2, 3] [9, 4, 1] 10 0 1 = some v ∧
      trace.length ≤ 10 ∧ ∀ q ∈ trace, q.1 < 3 ∧ q.2 < 3 :=
  diagonal_search_bounded_in_range [2, 1, 0] [1, 2, 0] [1, 2, 3] [9, 4, 1] 3 1
    (by decide) (by decide) (by decide) rfl rfl

/-- The search of the witness, evaluated: three rounds, at `(0, 1)`, `(1, 0)`
and `(2, 2)`. -/
theorem diagTrace_three_rounds :
    diagTrace [2, 1, 0] [1, 2, 0] [1, 2, 3] [9, 4, 1] 10 0 = some [(0, 1), (1, 0), (2, 2)] := by
  decide

/-- After `findRings`, the diagonal term of every ring that has a member at
or above `thresh` is computed: the search of `vbHBE` on the stored arrays
returns a value. -/
theorem sup1Of_diag_some (prob : ℚ → Int → Int → ℚ) (strategy : Int) (eps : ℚ) (level : Nat)
    (e e1 : Estimator) (h : findRings prob strategy eps level e = some e1)
    (i : Nat) (hi : i < 4) (ps : List ℚ) (hread : e1.w_ps[i]? = some ps)
    (hm : 1 ≤ ps.length) :
    ∃ v, sup1Of e1 i i = some v := by
  obtain ⟨lam, lv, ss, w, k, r0, r1, r2, r3, -, -, h0, h1, h2, h3, he⟩ :=
    findRings_eq_some prob strategy eps level e e1 h
  have a0 := ringStats_arrays _ _ _ _ _ _ _ r0 h0
  have a1 := ringStats_arrays _ _ _ _ _ _ _ r1 h1
  have a2 := ringStats_arrays _ _ _ _ _ _ _ r2 h2
  have a3 := ringStats_arrays _ _ _ _ _ _ _ r3 h3
  subst he
  have key : ∀ (r : RingAcc × List Nat × List ℚ × List Nat × List ℚ),
      (r.2.1.Perm (List.range r.2.2.1.length) ∧ r.2.2.2.1.Perm (List.range r.2.2.1.length) ∧
        r.2.2.2.2.length = r.2.2.1.length) → 1 ≤ r.2.2.1.length →
      ∃ v, diagOuter r.2.1 r.2.2.2.1 r.2.2.1 r.2.2.2.2 10 0 (1 / r.1.pmin) = some v := by
    intro r ha hr
    obtain ⟨_, v, -, hv, -, -⟩ := diag_rounds r.2.1 r.2.2.2.1 r.2.2.1 r.2.2.2.2 r.2.2.1.length
      ha.1 ha.2.1 hr rfl ha.2.2 10 0 (1 / r.1.pmin)
      (fun j t hj _ => absurd hj (Nat.not_lt_zero j))
    exact ⟨v, hv⟩
  have hcases : i = 0 ∨ i = 1 ∨ i = 2 ∨ i = 3 := by omega
  rcases hcases with hi0 | hi0 | hi0 | hi0 <;> subst hi0 <;>
    simp only [List.getElem?_cons_zero, List.getElem?_cons_succ, Option.some.injEq] at hread <;>
    subst hread <;>
    simp only [sup1Of, if_true, List.getElem?_cons_zero, List.getElem?_cons_succ]
  · exact key r0 a0 hm
  · exact key r1 a1 hm
  · exact key r2 a2 hm
  · exact key r3 a3 hm

/-! ## C21: a second findRings call -/

/-- The backward scan returns: with a lower bound of at least 1 the counter
never wraps, and the fuel covers every position it visits. -/
theorem bwdScan_returns (contrib : List ℚ) (sample_count : Nat) (min_u : ℚ) (lo : Nat)
    (hlo : 1 ≤ lo) (hsize : contrib.length < 2 ^ 64) :
    ∀ (fuel i : Nat) (s : ℚ), i < fuel → i < contrib.length →
      ∃ r, bwdScan contrib sample_count min_u lo fuel i s = some r ∧ r.1 ≤ i := by
  intro fuel
  induction fuel with
  | zero => intro i s hi; omega
  | succ fuel ih =>
    intro i s hi hin
    unfold bwdScan
    by_cases hc : s < min_u ∧ i ≥ lo
    · rw [if_pos hc, List.getElem?_eq_getElem hin]
      simp only
      have hsub : subSize i 1 = i - 1 := subSize_one i (by omega) (by omega)
      rw [hsub]
      obtain ⟨r, hr, hle⟩ := ih (i - 1) (s + contrib[i] / (sample_count : ℚ))
        (by omega) (by omega)
      exact ⟨r, hr, by omega⟩
    · rw [if_neg hc]
      exact ⟨(i, s), rfl, le_refl _⟩

/-- The statistics of ring `i` depend on `set_start` only through the two
entries `set_start[3-i]` and `set_start[4-i]`. -/
theorem ringStats_reads (prob : Int → ℚ) (samples : List Int) (contrib : List ℚ) (thresh : ℚ)
    (sample_count : Nat) (ss ss' : List Nat) (i : Nat)
    (h3 : ss'[3 - i]? = ss[3 - i]?) (h4 : ss'[4 - i]? = ss[4 - i]?) :
    ringStats prob samples contrib thresh sample_count ss' i
      = ringStats prob samples contrib thresh sample_count ss i := by
  unfold ringStats
  rw [h3, h4]

theorem set_all_four (l : List ℚ) (h : l.length = 4) (a b c d : ℚ) :
    (((l.set 0 a).set 1 b).set 2 c).set 3 d = [a, b, c, d] := by
  match l, h with
  | [_, _, _, _], _ => rfl

theorem findRings_params (prob : ℚ → Int → Int → ℚ) (strategy : Int) (eps : ℚ) (level : Nat)
    (e e' : Estimator) (h : findRings prob strategy eps level e = some e') :
    ringParams level e = some (e'.exp_w, e'.exp_k) ∧
    ∃ (lam lv : ℚ) (ss : List Nat)
      (r0 r1 r2 r3 : RingAcc × List Nat × List ℚ × List Nat × List ℚ),
      ringBounds strategy eps e = some (lam, lv, ss) ∧
      4 ≤ e.u.length ∧
      ringStats (prob e'.exp_w e'.exp_k) e.samples e.contrib e.thresh e.sample_count ss 0
        = some r0 ∧
      ringStats (prob e'.exp_w e'.exp_k) e.samples e.contrib e.thresh e.sample_count ss 1
        = some r1 ∧
      ringStats (prob e'.exp_w e'.exp_k) e.samples e.contrib e.thresh e.sample_count ss 2
        = some r2 ∧
      ringStats (prob e'.exp_w e'.exp_k) e.samples e.contrib e.thresh e.sample_count ss 3
        = some r3 ∧
      e' = { e with
            lambda := lam, l := lv, set_start := ss, exp_w := e'.exp_w, exp_k := e'.exp_k,
            u := (((e.u.set 0 r0.1.u).set 1 r1.1.u).set 2 r2.1.u).set 3 r3.1.u,
            pmins := [r0.1.pmin, r1.1.pmin, r2.1.pmin, r3.1.pmin],
            pmaxs := [r0.1.pmax, r1.1.pmax, r2.1.pmax, r3.1.pmax],
            w_mins := [r0.1.w_min, r1.1.w_min, r2.1.w_min, r3.1.w_min],
            w_maxs := [r0.1.w_max, r1.1.w_max, r2.1.w_max, r3.1.w_max],
            w_p_idx := [r0.2.1, r1.2.1, r2.2.1, r3.2.1],
            w_ps := [r0.2.2.1, r1.2.2.1, r2.2.2.1, r3.2.2.1],
            w_pp_idx := [r0.2.2.2.1, r1.2.2.2.1, r2.2.2.2.1, r3.2.2.2.1],
            w_pps := [r0.2.2.2.2, r1.2.2.2.2, r2.2.2.2.2, r3.2.2.2.2] } := by
  unfold findRings at h
  split at h
  · simp at h
  · rename_i lam lv ss hb
    simp only at h
    split at h
    · simp at h
    · rename_i w k hp
      split at h
      · simp at h
      · rename_i hu
        split at h
        · rename_i r0 r1 r2 r3 h0 h1 h2 h3
          simp only [Option.some.injEq] at h
          subst h
          exact ⟨hp, lam, lv, ss, r0, r1, r2, r3, hb, by omega, h0, h1, h2, h3, rfl⟩
        · simp at h

/-- The other direction: `findRings` returns once its boundaries, its kernel
parameters and the four ring statistics are available. -/
theorem findRings_of_parts (prob : ℚ → Int → Int → ℚ) (strategy : Int) (eps : ℚ) (level : Nat)
    (e : Estimator) (lam lv : ℚ) (ss : List Nat) (w : ℚ) (k : Int)
    (r0 r1 r2 r3 : RingAcc × List Nat × List ℚ × List Nat × List ℚ)
    (hb : ringBounds strategy eps e = some (lam, lv, ss))
    (hp : ringParams level e = some (w, k))
    (hu : 4 ≤ e.u.length)
    (h0 : ringStats (prob w k) e.samples e.contrib e.thresh e.sample_count ss 0 = some r0)
    (h1 : ringStats (prob w k) e.samples e.contrib e.thresh e.sample_count ss 1 = some r1)
    (h2 : ringStats (prob w k) e.samples e.contrib e.thresh e.sample_count ss 2 = some r2)
    (h3 : ringStats (prob w k) e.samples e.contrib e.thresh e.sample_count ss 3 = some r3) :
    findRings prob strategy eps level e = some { e with
            lambda := lam, l := lv, set_start := ss, exp_w := w, exp_k := k,
            u := (((e.u.set 0 r0.1.u).set 1 r1.1.u).set 2 r2.1.u).set 3 r3.1.u,
            pmins := [r0.1.pmin, r1.1.pmin, r2.1.pmin, r3.1.pmin],
            pmaxs := [r0.1.pmax, r1.1.pmax, r2.1.pmax, r3.1.pmax],
            w_mins := [r0.1.w_min, r1.1.w_min, r2.1.w_min, r3.1.w_min],
            w_maxs := [r0.1.w_max, r1.1.w_max, r2.1.w_max, r3.1.w_max],
            w_p_idx := [r0.2.1, r1.2.1, r2.2.1, r3.2.1],
            w_ps := [r0.2.2.1, r1.2.2.1, r2.2.2.1, r3.2.2.1],
            w_pp_idx := [r0.2.2.2.1, r1.2.2.2.1, r2.2.2.2.1, r3.2.2.2.1],
            w_pps := [r0.2.2.2.2, r1.2.2.2.2, r2.2.2.2.2, r3.2.2.2.2] } := by
  unfold ringParams at hp
  unfold findRings
  rw [hb]
  simp only
  rw [hp]
  simp only
  rw [if_neg (by omega), h0, h1, h2, h3]

/-- The boundary computation of `findRings` returns on a state that already
holds five boundaries `[0, m, a, b, c]` with `1 ≤ m ≤ n` and `1 ≤ a`: the
forward scan starts at `set_start[1] = m`, and the backward scan is bounded
below by the old `set_start[2] = a`. -/
theorem ringBounds_returns_again (strategy : Int) (eps : ℚ) (e : Estimator)
    (m a b c : Nat) (hs : strategy = 0 ∨ strategy = 1)
    (hstart : e.set_start = [0, m, a, b, c]) (hm1 : 1 ≤ m) (hmn : m ≤ e.contrib.length)
    (ha : 1 ≤ a) (hu : 4 ≤ e.u.length) (hsc : e.sample_count = e.contrib.length)
    (hsize : e.contrib.length < 2 ^ 64) :
    ∃ r, ringBounds strategy eps e = some r := by
  unfold ringBounds
  rw [hstart]
  by_cases hcond : strategy = 0 ∨ e.sample_count < 3
  · rw [if_pos hcond]
    exact ⟨_, rfl⟩
  · rw [if_neg hcond]
    have hs1 : strategy = 1 := by
      rcases hs with h0 | h1
      · exact absurd (Or.inl h0) hcond
      · exact h1
    have hn3 : 3 ≤ e.contrib.length := by
      have : ¬ e.sample_count < 3 := fun h => hcond (Or.inr h)
      omega
    rw [if_pos hs1]
    have hu3 : e.u[3]? = some e.u[3] := List.getElem?_eq_getElem (by omega)
    rw [hu3]
    simp only [List.getElem?_cons_succ, List.getElem?_cons_zero]
    obtain ⟨f1, f2⟩ := fwdScan_bounds e.sample_count ((eps * e.u_global - e.u[3]) / 2)
      (e.contrib.drop m) m 0
    rw [List.length_drop] at f2
    generalize fwdScan e.sample_count ((eps * e.u_global - e.u[3]) / 2)
      (e.contrib.drop m) m 0 = f at f1 f2 ⊢
    rw [Nat.add_sub_cancel' hmn] at f2
    have hf : subSize f.1 1 = f.1 - 1 :=
      subSize_one _ (le_trans hm1 f1) (lt_of_le_of_lt f2 hsize)
    have hflt : f.1 - 1 < e.contrib.length :=
      lt_of_lt_of_le (Nat.sub_lt (le_trans hm1 f1) Nat.one_pos) f2
    obtain ⟨lamv, hlam, -⟩ := read_some e.contrib (subSize f.1 1) (by rw [hf]; exact hflt)
    rw [hlam]
    simp only [List.cons_append, List.nil_append, List.getElem?_cons_succ,
      List.getElem?_cons_zero]
    have hn1 : subSize e.contrib.length 1 = e.contrib.length - 1 :=
      subSize_one _ (by omega) hsize
    have hn2 : subSize e.contrib.length 2 = e.contrib.length - 2 :=
      subSize_two _ (by omega) hsize
    obtain ⟨r, hr, hle⟩ := bwdScan_returns e.contrib e.sample_count
      ((eps * e.u_global - e.u[3]) / 2) a ha hsize (e.contrib.length + 1)
      (e.contrib.length - 1) 0 (by omega) (by omega)
    rw [hn1, hr, hn2]
    simp only
    have hmin : min (e.contrib.length - 2) r.1 + 1 < e.contrib.length := by
      have := min_le_left (e.contrib.length - 2) r.1
      omega
    obtain ⟨lvv, hlv, -⟩ := read_some e.contrib _ hmin
    rw [hlv]
    exact ⟨_, rfl⟩

theorem ringSkipped_reads (e e' : Estimator)
    (hss : ∀ i, i < 5 → e'.set_start[i]? = e.set_start[i]?) (i : Nat) :
    ringSkipped e' i = ringSkipped e i := by
  unfold ringSkipped
  rw [hss (3 - i) (by omega), hss (4 - i) (by omega)]

/-- The bound `vbRS` reads the state only through the first five entries of
`set_start`, `sample_count`, `u`, `w_mins` and `w_maxs`. -/
theorem vbRS_reads (e e' : Estimator)
    (hss : ∀ i, i < 5 → e'.set_start[i]? = e.set_start[i]?)
    (hsc : e'.sample_count = e.sample_count) (hu : e'.u = e.u)
    (hmin : e'.w_mins = e.w_mins) (hmax : e'.w_maxs = e.w_maxs) :
    vbRS e' = vbRS e := by
  have hsk := ringSkipped_reads e e' hss
  have ht : t2Factor e' = t2Factor e := by
    unfold t2Factor
    rw [hss 0 (by omega), hss 1 (by omega), hsc]
  have hin : ∀ i, vbRSInner e' i = vbRSInner e i := by
    intro i
    funext up j
    unfold vbRSInner
    rw [hsk, hu, hmin, hmax]
  have hout : vbRSOuter e' = vbRSOuter e := by
    funext t2 up i
    unfold vbRSOuter
    rw [hsk, hin, hu, hmax]
  unfold vbRS
  rw [ht, hout, hu, hmax]

/-- The bound `vbHBE` reads the state only through the first five entries of
`set_start`, `sample_count`, `u` and the ring statistics. -/
theorem vbHBE_reads (e e' : Estimator)
    (hss : ∀ i, i < 5 → e'.set_start[i]? = e.set_start[i]?)
    (hsc : e'.sample_count = e.sample_count) (hu : e'.u = e.u)
    (hmin : e'.w_mins = e.w_mins) (hpmin : e'.pmins = e.pmins) (hpmax : e'.pmaxs = e.pmaxs)
    (hps : e'.w_ps = e.w_ps) (hpi : e'.w_p_idx = e.w_p_idx)
    (hpps : e'.w_pps = e.w_pps) (hppi : e'.w_pp_idx = e.w_pp_idx) :
    vbHBE e' = vbHBE e := by
  have hsk := ringSkipped_reads e e' hss
  have ht : t2Factor e' = t2Factor e := by
    unfold t2Factor
    rw [hss 0 (by omega), hss 1 (by omega), hsc]
  have hsup : sup1Of e' = sup1Of e := by
    funext i j
    unfold sup1Of
    rw [hmin, hpmin, hps, hpi, hpps, hppi]
  have hin : ∀ i, vbHBEInner e' i = vbHBEInner e i := by
    intro i
    funext up j
    unfold vbHBEInner
    rw [hsk, hsup, hu]
  have hout : vbHBEOuter e' = vbHBEOuter e := by
    funext t2 up i
    unfold vbHBEOuter
    rw [hsk, hin, hu, hpps, hpmax]
  unfold vbHBE
  rw [ht, hout, hu, hps]

/-- C21: a second `findRings` call without an intervening `getConstants`
does not re-partition.  For every state `e0` left by `getConstants` (arrays
fitting the address space) on which `findRings` with strategy 0 or 1 has
returned `e1`, a further `findRings` call with any strategy in `{0, 1}` and
any `eps` returns a state `e2` whose `set_start` is that of `e1` (five
entries) followed by three appended entries; the entries `set_start[0..4]`
are unchanged, the ring statistics gathered by the loop of lines 254-298
are unchanged, and `vbRS` and `vbHBE` give the same results as after the
first call alone. -/
theorem second_findRings_keeps_boundaries
    (pickSet : Nat → Nat → (Nat → Nat) → List Nat × (Nat → Nat))
    (prob : ℚ → Int → Int → ℚ) (strategy1 strategy2 : Int) (eps1 eps2 : ℚ) (level : Nat)
    (e e0 e1 : Estimator)
    (hs1 : strategy1 = 0 ∨ strategy1 = 1) (hs2 : strategy2 = 0 ∨ strategy2 = 1)
    (h0 : getConstants pickSet e = some e0)
    (h1 : findRings prob strategy1 eps1 level e0 = some e1)
    (hsize : e0.contrib.length < 2 ^ 64) :
    ∃ (e2 : Estimator) (a2 b2 : Nat),
      findRings prob strategy2 eps2 level e1 = some e2 ∧
      e1.set_start.length = 5 ∧
      e2.set_start = e1.set_start ++ [a2, b2, e1.contrib.length] ∧
      (∀ i, i < 5 → e2.set_start[i]? = e1.set_start[i]?) ∧
      e2.u = e1.u ∧ e2.pmins = e1.pmins ∧ e2.pmaxs = e1.pmaxs ∧
      e2.w_mins = e1.w_mins ∧ e2.w_maxs = e1.w_maxs ∧
      e2.w_ps = e1.w_ps ∧ e2.w_p_idx = e1.w_p_idx ∧
      e2.w_pps = e1.w_pps ∧ e2.w_pp_idx = e1.w_pp_idx ∧
      vbRS e2 = vbRS e1 ∧ vbHBE e2 = vbHBE e1 := by
  obtain ⟨m, a, b, hss1, hc1, hm1, hma, han, -, -, -⟩ :=
    findRings_offsets pickSet prob strategy1 eps1 level e e0 e1 hs1 h0 h1 hsize
  obtain ⟨-, hsc0⟩ := getConstants_lengths pickSet e e0 h0
  have hu0 : e0.u.length = 4 := by
    obtain ⟨g, smp, ctr, m', u3, -, -, he0⟩ := getConstants_eq_some pickSet e e0 h0
    rw [he0]
    rfl
  obtain ⟨hp, lam, lv, ss, r0, r1, r2, r3, hb, -, q0, q1, q2, q3, he1⟩ :=
    findRings_params prob strategy1 eps1 level e0 e1 h1
  have f_ss : e1.set_start = ss := by rw [he1]
  have f_smp : e1.samples = e0.samples := by rw [he1]
  have f_thr : e1.thresh = e0.thresh := by rw [he1]
  have f_sc : e1.sample_count = e0.sample_count := by rw [he1]
  have f_exp : e1.isExp = e0.isExp := by rw [he1]
  have f_wi : e1.wi = e0.wi := by rw [he1]
  have f_ki : e1.ki = e0.ki := by rw [he1]
  have f_u : e1.u = [r0.1.u, r1.1.u, r2.1.u, r3.1.u] := by
    rw [he1]
    exact set_all_four e0.u hu0 _ _ _ _
  have f_pmins : e1.pmins = [r0.1.pmin, r1.1.pmin, r2.1.pmin, r3.1.pmin] := by rw [he1]
  have f_pmaxs : e1.pmaxs = [r0.1.pmax, r1.1.pmax, r2.1.pmax, r3.1.pmax] := by rw [he1]
  have f_wmins : e1.w_mins = [r0.1.w_min, r1.1.w_min, r2.1.w_min, r3.1.w_min] := by rw [he1]
  have f_wmaxs : e1.w_maxs = [r0.1.w_max, r1.1.w_max, r2.1.w_max, r3.1.w_max] := by rw [he1]
  have f_wpi : e1.w_p_idx = [r0.2.1, r1.2.1, r2.2.1, r3.2.1] := by rw [he1]
  have f_wps : e1.w_ps = [r0.2.2.1, r1.2.2.1, r2.2.2.1, r3.2.2.1] := by rw [he1]
  have f_wppi : e1.w_pp_idx = [r0.2.2.2.1, r1.2.2.2.1, r2.2.2.2.1, r3.2.2.2.1] := by rw [he1]
  have f_wpps : e1.w_pps = [r0.2.2.2.2, r1.2.2.2.2, r2.2.2.2.2, r3.2.2.2.2] := by rw [he1]
  have hlen5 : e1.set_start.length = 5 := by rw [hss1]; rfl
  -- the boundaries of the second call
  obtain ⟨⟨lam2, lv2, ss2⟩, hb2⟩ := ringBounds_returns_again strategy2 eps2 e1 m a b
    e0.contrib.length hs2 hss1 hm1 (by rw [hc1]; omega) (by omega)
    (by rw [f_u]; exact le_refl _) (by rw [f_sc, hc1]; exact hsc0) (by rw [hc1]; exact hsize)
  obtain ⟨a2, b2, hshape⟩ := ringBounds_shape strategy2 eps2 e1 lam2 lv2 ss2 hs2 hb2
  have hreads : ∀ i, i < 5 → ss2[i]? = e1.set_start[i]? := by
    intro i hi
    rw [hshape]
    exact List.getElem?_append_left (by omega)
  -- the kernel parameters of the second call
  have hp2 : ringParams level e1 = some (e1.exp_w, e1.exp_k) := by
    unfold ringParams at hp ⊢
    rw [f_exp, f_wi, f_ki]
    by_cases hE : e0.isExp = true
    · rw [if_pos hE]
    · rw [if_neg hE] at hp ⊢
      exact hp
  -- the ring statistics of the second call
  have hstats : ∀ i r,
      ringStats (prob e1.exp_w e1.exp_k) e0.samples e0.contrib e0.thresh e0.sample_count ss i
        = some r →
      ringStats (prob e1.exp_w e1.exp_k) e1.samples e1.contrib e1.thresh e1.sample_count ss2 i
        = some r := by
    intro i r hr
    rw [f_smp, hc1, f_thr, f_sc, ← hr]
    apply ringStats_reads
    · rw [hreads _ (by omega), f_ss]
    · rw [hreads _ (by omega), f_ss]
  have h2 := findRings_of_parts prob strategy2 eps2 level e1 lam2 lv2 ss2 e1.exp_w e1.exp_k
    r0 r1 r2 r3 hb2 hp2 (by rw [f_u]; exact le_refl _)
    (hstats 0 r0 q0) (hstats 1 r1 q1) (hstats 2 r2 q2) (hstats 3 r3 q3)
  have g_u : (((e1.u.set 0 r0.1.u).set 1 r1.1.u).set 2 r2.1.u).set 3 r3.1.u = e1.u := by
    rw [set_all_four e1.u (by rw [f_u]; rfl), f_u]
  refine ⟨_, a2, b2, h2, hlen5, hshape, hreads, g_u, f_pmins.symm, f_pmaxs.symm,
    f_wmins.symm, f_wmaxs.symm, f_wps.symm, f_wpi.symm, f_wpps.symm, f_wppi.symm, ?_, ?_⟩
  · exact vbRS_reads e1 _ hreads rfl g_u f_wmins.symm f_wmaxs.symm
  · exact vbHBE_reads e1 _ hreads rfl g_u f_wmins.symm f_pmins.symm f_pmaxs.symm
      f_wps.symm f_wpi.symm f_wpps.symm f_wppi.symm

/-- Witness of C21: contributions `0.1, 0.1, 0.1, 0.9`; the first call uses
strategy 0, the second strategy 1 with `eps = 0.5`. -/
theorem second_findRings_keeps_boundaries_witness :
    ∃ e0 e1 : Estimator,
      getConstants idlePick
        (blankEstimator 4 1 [1] [0, 1, 2, 3] [1 / 10, 1 / 10, 1 / 10, 9 / 10]) = some e0 ∧
      findRings unitProb 0 (1 / 2) 0 e0 = some e1 ∧
      ∃ (e2 : Estimator) (a2 b2 : Nat),
        findRings unitProb 1 (1 / 2) 0 e1 = some e2 ∧
        e1.set_start.length = 5 ∧
        e2.set_start = e1.set_start ++ [a2, b2, e1.contrib.length] ∧
        (∀ i, i < 5 → e2.set_start[i]? = e1.set_start[i]?) ∧
        e2.u = e1.u ∧ e2.pmins = e1.pmins ∧ e2.pmaxs = e1.pmaxs ∧
        e2.w_mins = e1.w_mins ∧ e2.w_maxs = e1.w_maxs ∧
        e2.w_ps = e1.w_ps ∧ e2.w_p_idx = e1.w_p_idx ∧
        e2.w_pps = e1.w_pps ∧ e2.w_pp_idx = e1.w_pp_idx ∧
        vbRS e2 = vbRS e1 ∧ vbHBE e2 = vbHBE e1 :=
  ⟨_, _, (Option.some_get fourRecord_getConstants_isSome).symm,
    (Option.some_get fourRecord_findRings0_isSome).symm,
    second_findRings_keeps_boundaries idlePick unitProb 0 1 (1 / 2) (1 / 2) 0
      (blankEstimator 4 1 [1] [0, 1, 2, 3] [1 / 10, 1 / 10, 1 / 10, 9 / 10]) _ _
      (Or.inl rfl) (Or.inr rfl)
      (Option.some_get fourRecord_getConstants_isSome).symm
      (Option.some_get fourRecord_findRings0_isSome).symm
      (by rw [fourRecord_contrib]; decide)⟩

/-- The two calls of the witness, evaluated: strategy 0 leaves the offsets
`[0, 3, 3, 3, 4]`; strategy 1 on that state appends `4, 3, 4`, whereas on
the state left by `getConstants` it gives `[0, 3, 4, 3, 4]`. -/
theorem fourRecord_two_calls :
    ((getConstants idlePick
        (blankEstimator 4 1 [1] [0, 1, 2, 3] [1 / 10, 1 / 10, 1 / 10, 9 / 10])).bind
      (findRings unitProb 0 (1 / 2) 0)).map (fun s => s.set_start) = some [0, 3, 3, 3, 4] ∧
    (((getConstants idlePick
        (blankEstimator 4 1 [1] [0, 1, 2, 3] [1 / 10, 1 / 10, 1 / 10, 9 / 10])).bind
      (findRings unitProb 0 (1 / 2) 0)).bind (findRings unitProb 1 (1 / 2) 0)).map
        (fun s => s.set_start) = some [0, 3, 3, 3, 4, 4, 3, 4] ∧
    ((getConstants idlePick
        (blankEstimator 4 1 [1] [0, 1, 2, 3] [1 / 10, 1 / 10, 1 / 10, 9 / 10])).bind
      (findRings unitProb 1 (1 / 2) 0)).map (fun s => s.set_start) = some [0, 3, 4, 3, 4] := by
  decide!

end AdaptiveRSDiag
